import Mathlib

/-!
LoggerFS: a shallow embedding of the logging and undo engine

The development follows `fs/loggerfs/src/loggerfs_core.c` and
`fs/loggerfs/src/loggerfs_file.c`.

Modelling conventions.

* A byte is a natural number; a C buffer is a `List Nat`; a C string is the
  part of a buffer before its first zero byte.
* `loff_t` (signed 64 bit) values are integers, `size_t` (unsigned 64 bit, the
  LP64 kernel ABI) values are naturals.  Where the source mixes the two, the
  conversion is written out with `u64`, `s64` and `s32`.
* The page cache of the inode (`i_mapping`) is a map from byte address to
  byte.  A page that is absent reads as zeros, a page that is created is
  zero filled, and `truncate_inode_pages` zeroes every byte from its argument
  on.  Page granularity is kept in the copy loops, which proceed page chunk
  by page chunk exactly as the source does.
* What the kernel decides (allocation results, clock, calling process) is
  collected in an `Env` value.
* A loop that the source does not bound is given a fuel argument and returns
  `none` when the fuel runs out.
-/

namespace LoggerFS

/-! ## Machine integers and constants -/

/-- Conversion of an integer to `size_t` / `unsigned long long`. -/
def u64 (x : Int) : Nat := (x % 18446744073709551616).toNat

/-- Conversion of an integer to `loff_t` / `long long`. -/
def s64 (x : Int) : Int :=
  (x + 9223372036854775808) % 18446744073709551616 - 9223372036854775808

/-- Conversion of an integer to `int`. -/
def s32 (x : Int) : Int := (x + 2147483648) % 4294967296 - 2147483648

def PAGE_SIZE : Nat := 4096
def MAX_LOG_SIZE : Nat := 4096
def MAX_LOG_ENTRIES : Nat := 50
def LOG_MARKER_LEN : Nat := 26

def ENOENT : Int := 2
def EIO : Int := 5
def ENOMEM : Int := 12
def EFAULT : Int := 14
def EINVAL : Int := 22
def ENODATA : Int := 61

/-- Bytes of a string literal. -/
def bytes (s : String) : List Nat := s.toList.map Char.toNat

def LOG_START_MARKER : List Nat := bytes "<<<LOGGERFS_LOG_START>>>\n"
def LOG_END_MARKER : List Nat := bytes "<<<LOGGERFS_LOG_END>>>\n"

/-! ## C strings -/

/-- The C string held in a buffer: the bytes before the first zero byte. -/
def cstr : List Nat → List Nat
  | [] => []
  | b :: rest => if b = 0 then [] else b :: cstr rest

def strlen (s : List Nat) : Nat := (cstr s).length

/-- Index of the first occurrence of `needle` in `hay`, both plain byte lists. -/
def find_sub (needle : List Nat) : List Nat → Option Nat
  | [] => if needle = [] then some 0 else none
  | b :: rest =>
    if needle.isPrefixOf (b :: rest) then some 0
    else (find_sub needle rest).map (fun i => i + 1)

/-- The function `strstr` of C, returning the offset of the match in `hay`. -/
def strstr (hay needle : List Nat) : Option Nat := find_sub (cstr needle) (cstr hay)

/-! ## State -/

structure backup_data where
  offset : Int
  length : Nat
  original_data : Option (List Nat)
  is_valid : Bool

structure loggerfs_file_info where
  /-- The field `vfs_inode.i_size`. -/
  i_size : Int
  /-- The field `vfs_inode.i_mapping`, byte addressed. -/
  pages : Nat → Nat
  data_size : Int
  log_start : Int
  log_size : Nat
  total_size : Int
  backup : backup_data

/-- The object built by `loggerfs_alloc_inode` and `loggerfs_create`. -/
def fresh : loggerfs_file_info :=
  { i_size := 0, pages := fun _ => 0, data_size := 0, log_start := 0, log_size := 0,
    total_size := 0,
    backup := { offset := 0, length := 0, original_data := none, is_valid := false } }

/-! ## Reading the page cache -/

/-- The loop of `read_from_file`; `buffer` holds the `read_size` bytes read so far. -/
def read_from_file_loop (pages : Nat → Nat) (pos : Int) (len : Nat) :
    Nat → Nat → List Nat → List Nat
  | 0, _, buffer => buffer
  | fuel + 1, read_size, buffer =>
    if read_size < len then
      let a := u64 (pos + read_size)
      let page_offset := a % PAGE_SIZE
      let copy_size := min (len - read_size) (PAGE_SIZE - page_offset)
      read_from_file_loop pages pos len fuel (read_size + copy_size)
        (buffer ++ (List.range copy_size).map (fun k => pages (a + k)))
    else buffer

/-- The function `read_from_file`, which always returns 0; the result is the
filled buffer.  Every pass copies at least one byte, so `len` passes suffice. -/
def read_from_file (pages : Nat → Nat) (pos : Int) (len : Nat) : List Nat :=
  read_from_file_loop pages pos len len 0 []

/-! ## Layout resolution -/

/-- The loop of `find_log_start`.  The fuel counts evaluations of the loop
condition; `none` means that the loop is still running when it is used up. -/
def find_log_start_loop (pages : Nat → Nat) (file_size : Int) : Nat → Int → Option Int
  | 0, _ => none
  | fuel + 1, search_pos =>
    if search_pos < file_size then
      let read_len := min 511 (u64 (file_size - search_pos))
      let buffer := read_from_file pages search_pos read_len
      match strstr (buffer ++ [0]) LOG_START_MARKER with
      | some marker_pos => some (search_pos + marker_pos)
      | none =>
        let next_pos := s64 (search_pos + ((read_len : Int) - (strlen LOG_START_MARKER : Int)))
        if next_pos ≥ file_size then some (-1)
        else find_log_start_loop pages file_size fuel next_pos
    else some (-1)

def find_log_start (fuel : Nat) (fi : loggerfs_file_info) : Option Int :=
  find_log_start_loop fi.pages fi.i_size fuel 0

/-- The function `parse_log_size`; its result has type `int`. -/
def parse_log_size (fi : loggerfs_file_info) (log_start : Int) : Int :=
  if log_start < 0 then 0
  else if log_start ≥ fi.i_size then 0
  else s32 (fi.i_size - log_start)

def init_file_info_from_disk (fuel : Nat) (fi : loggerfs_file_info) :
    Option loggerfs_file_info :=
  let physical_size := fi.i_size
  match find_log_start fuel fi with
  | none => none
  | some log_start =>
    if log_start ≥ 0 then
      let fi1 := { fi with data_size := log_start, log_start := log_start,
                           log_size := u64 (parse_log_size fi log_start),
                           total_size := physical_size }
      some (if fi1.i_size ≠ fi1.data_size then { fi1 with i_size := fi1.data_size } else fi1)
    else
      some { fi with data_size := physical_size, log_start := physical_size, log_size := 0,
                     total_size := physical_size }

/-! ## What the kernel decides -/

/-- The outcomes of the lookups made by `get_current_command`. -/
inductive current_task where
  | no_mm
  | no_path_buf
  | no_exe_file
  | d_path_error
  | d_path (pathname : List Nat)

structure Env where
  /-- Seconds returned by `ktime_get_real_ts64`. -/
  tv_sec : Int
  /-- The calling process as seen by `get_current_command`. -/
  task : current_task
  /-- Whether `kmalloc` and `kzalloc` return a buffer. -/
  kmalloc_ok : Bool
  /-- Whether `grab_cache_page` and `find_or_create_page` return the page of this index. -/
  page_ok : Nat → Bool
  /-- Whether `kmap` maps the page of this index. -/
  kmap_ok : Nat → Bool
  /-- Whether the user copy of the chunk starting at this count of copied bytes succeeds. -/
  user_ok : Nat → Bool

/-- The C string left in the 256 byte buffer by `get_current_command`. -/
def get_current_command (env : Env) : List Nat :=
  match env.task with
  | .no_mm => bytes "[unknown]"
  | .no_path_buf => bytes "[nomem]"
  | .no_exe_file => bytes "[noexe]"
  | .d_path_error => bytes "[error]"
  | .d_path pathname => (cstr pathname).take 255

/-! ## Formatting a log line -/

def fmt_digits : Nat → Nat → List Nat → List Nat
  | 0, _, acc => acc
  | fuel + 1, n, acc =>
    if n < 10 then (48 + n) :: acc
    else fmt_digits fuel (n / 10) ((48 + n % 10) :: acc)

/-- The conversion `%zu` (and `%llu`): decimal digits, no padding. -/
def fmt_zu (n : Nat) : List Nat := fmt_digits (n + 1) n []

/-- The conversion `%lld`. -/
def fmt_lld (x : Int) : List Nat :=
  if x < 0 then 45 :: fmt_zu (-x).toNat else fmt_zu x.toNat

/-- The text produced by the format `"%lld %s %s %lld %zu\n"`; its length is
the value returned by `snprintf`. -/
def format_log_line (tv_sec : Int) (command operation : List Nat) (offset : Int)
    (length : Nat) : List Nat :=
  fmt_lld tv_sec ++ [32] ++ cstr command ++ [32] ++ cstr operation ++ [32] ++
    fmt_lld offset ++ [32] ++ fmt_zu length ++ [10]

/-! ## Writing the page cache -/

/-- Copy of `data` into the page cache at byte address `a`. -/
def put_bytes (pages : Nat → Nat) (a : Nat) (data : List Nat) : Nat → Nat :=
  fun x => if a ≤ x ∧ x < a + data.length then data.getD (x - a) 0 else pages x

/-- The function `truncate_inode_pages`. -/
def truncate_inode_pages (pages : Nat → Nat) (lstart : Int) : Nat → Nat :=
  fun x => if (x : Int) < lstart then pages x else 0

/-- The loop of `write_log_to_file`. -/
def write_log_to_file_loop (env : Env) (pos : Int) (data : List Nat) (len : Nat) :
    Nat → Nat → (Nat → Nat) → Int × (Nat → Nat)
  | 0, _, pages => (0, pages)
  | fuel + 1, written, pages =>
    if written < len then
      let a := u64 (pos + written)
      let page_idx := a / PAGE_SIZE
      let page_offset := a % PAGE_SIZE
      let copy_size := min (len - written) (PAGE_SIZE - page_offset)
      if env.page_ok page_idx then
        write_log_to_file_loop env pos data len fuel (written + copy_size)
          (put_bytes pages a ((List.range copy_size).map (fun k => data.getD (written + k) 0)))
      else (-ENOMEM, pages)
    else (0, pages)

def write_log_to_file (env : Env) (pages : Nat → Nat) (pos : Int) (data : List Nat)
    (len : Nat) : Int × (Nat → Nat) :=
  write_log_to_file_loop env pos data len len 0 pages

/-! ## Appending a log entry -/

/-- The function `add_log_entry`.  The sums over `log_size` are those of
`size_t`, modulo `2 ^ 64`; a sum of a `loff_t` and a `size_t` is made in 64
unsigned bits and stored as a `loff_t`. -/
def add_log_entry (env : Env) (fi : loggerfs_file_info) (operation : List Nat)
    (offset : Int) (length : Nat) : Int × loggerfs_file_info :=
  let command := get_current_command env
  let log_line := format_log_line env.tv_sec command operation offset length
  let log_line_len := log_line.length
  if log_line_len = 0 ∨ log_line_len ≥ 512 then (-EINVAL, fi)
  else
    let finish (fi1 : loggerfs_file_info) (write_pos : Int) (log_content : List Nat) :
        Int × loggerfs_file_info :=
      let r := write_log_to_file env fi1.pages write_pos log_content (strlen log_content)
      if r.1 = 0 then
        (0, { fi1 with pages := r.2, total_size := s64 (fi1.data_size + fi1.log_size) })
      else (r.1, { fi1 with pages := r.2 })
    if fi.log_size = 0 then
      let fi1 := { fi with log_start := fi.data_size }
      let total_len := strlen LOG_START_MARKER + log_line_len + strlen LOG_END_MARKER
      if env.kmalloc_ok then
        finish { fi1 with log_size := total_len } fi1.log_start
          (LOG_START_MARKER ++ log_line ++ LOG_END_MARKER)
      else (-ENOMEM, fi1)
    else if (fi.log_size + log_line_len) % 18446744073709551616 > MAX_LOG_SIZE then
      let fi1 := { fi with log_start := fi.data_size, log_size := 0 }
      let total_len := strlen LOG_START_MARKER + log_line_len + strlen LOG_END_MARKER
      if env.kmalloc_ok then
        finish { fi1 with log_size := total_len } fi1.log_start
          (LOG_START_MARKER ++ log_line ++ LOG_END_MARKER)
      else (-ENOMEM, fi1)
    else
      if env.kmalloc_ok then
        finish { fi with log_size := (fi.log_size + log_line_len) % 18446744073709551616 }
          (s64 (fi.log_start + fi.log_size - strlen LOG_END_MARKER))
          (log_line ++ LOG_END_MARKER)
      else (-ENOMEM, fi)

/-! ## The backup slot -/

def cleanup_backup_data (fi : loggerfs_file_info) : loggerfs_file_info :=
  { fi with backup := { offset := 0, length := 0, original_data := none, is_valid := false } }

/-- The page loop of `backup_original_data`; `buffer` holds the `copied` bytes
taken so far. -/
def backup_loop (env : Env) (pages : Nat → Nat) (offset : Int) (length : Nat) :
    Nat → Nat → List Nat → List Nat
  | 0, _, buffer => buffer
  | fuel + 1, copied, buffer =>
    if copied < length then
      let a := u64 (offset + copied)
      let page_idx := a / PAGE_SIZE
      let page_offset := a % PAGE_SIZE
      let copy_size := min (length - copied) (PAGE_SIZE - page_offset)
      let chunk := if env.kmap_ok page_idx
        then (List.range copy_size).map (fun k => pages (a + k))
        else List.replicate copy_size 0
      backup_loop env pages offset length fuel (copied + copy_size) (buffer ++ chunk)
    else buffer

def backup_original_data (env : Env) (fi : loggerfs_file_info) (offset : Int)
    (length : Nat) : Int × loggerfs_file_info :=
  if length = 0 then (0, fi)
  else if fi.backup.is_valid ∧ fi.backup.offset < offset then (0, fi)
  else
    let fi1 := cleanup_backup_data fi
    if env.kmalloc_ok then
      let data := backup_loop env fi1.pages offset length length 0 []
      (0, { fi1 with backup := { offset := offset, length := length,
                                 original_data := some data, is_valid := true } })
    else (-ENOMEM, fi1)

/-- The page loop of `restore_original_data`; the result carries `error_count`. -/
def restore_loop (env : Env) (offset : Int) (length : Nat) (data : List Nat) :
    Nat → Nat → Nat → (Nat → Nat) → Nat × (Nat → Nat)
  | 0, _, error_count, pages => (error_count, pages)
  | fuel + 1, copied, error_count, pages =>
    if copied < length then
      let a := u64 (offset + copied)
      let page_idx := a / PAGE_SIZE
      let page_offset := a % PAGE_SIZE
      let copy_size := min (length - copied) (PAGE_SIZE - page_offset)
      if env.page_ok page_idx then
        if env.kmap_ok page_idx then
          restore_loop env offset length data fuel (copied + copy_size) error_count
            (put_bytes pages a ((List.range copy_size).map (fun k => data.getD (copied + k) 0)))
        else
          restore_loop env offset length data fuel (copied + copy_size) (error_count + 1) pages
      else
        restore_loop env offset length data fuel (copied + copy_size) (error_count + 1) pages
    else (error_count, pages)

def restore_original_data (env : Env) (fi : loggerfs_file_info) : Int × loggerfs_file_info :=
  if ¬ fi.backup.is_valid then (-ENODATA, fi)
  else
    match fi.backup.original_data with
    | none => (-EINVAL, fi)
    | some data =>
      let r := restore_loop env fi.backup.offset fi.backup.length data fi.backup.length 0 0
        fi.pages
      let fi1 := { fi with pages := r.2 }
      let fi2 :=
        if u64 (fi1.backup.offset + fi1.backup.length) ≥ u64 fi1.data_size then
          let original_size := fi1.backup.offset
          if original_size < fi1.data_size then
            { fi1 with data_size := original_size, i_size := original_size }
          else fi1
        else fi1
      if r.1 > 0 then (- EIO, fi2) else (0, fi2)

/-! ## Decoding a log line

`parse_log_line` relies on the kernel function `sscanf` with the format
`"%31s %255s %31s %lld %zu"`.  The definitions below follow `vsscanf` of
`lib/vsprintf.c` for the conversions of this format: a conversion stops the
scan when the input is exhausted, white space in the format skips any white
space in the input, `%Ns` skips white space and takes at most `N` bytes that
are not white space, and a number is an optional minus sign (signed
conversion only) followed by at least one digit, its value reduced modulo
`2^64`. -/

def isspace (c : Nat) : Bool := c = 32 || (9 ≤ c && c ≤ 13) || c = 160

def isdigit (c : Nat) : Bool := 48 ≤ c && c ≤ 57

def skip_spaces (str : List Nat) : List Nat := str.dropWhile isspace

/-- The conversion `%Ns`: the token and the rest of the input. -/
def scan_s (width : Nat) (str : List Nat) : Option (List Nat × List Nat) :=
  if str = [] then none
  else
    let s := skip_spaces str
    let tok := (s.takeWhile (fun c => !isspace c)).take width
    some (tok, s.drop tok.length)

def digits_value (ds : List Nat) : Nat := ds.foldl (fun acc d => acc * 10 + (d - 48)) 0

/-- The conversion `%zu`. -/
def scan_zu (str : List Nat) : Option (Nat × List Nat) :=
  if str = [] then none
  else
    let s := skip_spaces str
    let ds := s.takeWhile isdigit
    if ds = [] then none
    else some (digits_value ds % 18446744073709551616, s.drop ds.length)

/-- The conversion `%lld`. -/
def scan_lld (str : List Nat) : Option (Int × List Nat) :=
  if str = [] then none
  else
    match skip_spaces str with
    | 45 :: t =>
      let ds := t.takeWhile isdigit
      if ds = [] then none
      else some (s64 (-((digits_value ds % 18446744073709551616 : Nat) : Int)), t.drop ds.length)
    | s =>
      let ds := s.takeWhile isdigit
      if ds = [] then none
      else some (s64 ((digits_value ds % 18446744073709551616 : Nat) : Int), s.drop ds.length)

/-- The function `parse_log_line`: `some (operation, offset, length)` when it
returns 0 (five fields converted), `none` when it returns `-EINVAL`. -/
def parse_log_line (line : List Nat) : Option (List Nat × Int × Nat) :=
  if line.length ≥ 512 then none
  else
    match scan_s 31 (cstr line) with
    | none => none
    | some (_, r1) =>
      match scan_s 255 (skip_spaces r1) with
      | none => none
      | some (_, r2) =>
        match scan_s 31 (skip_spaces r2) with
        | none => none
        | some (operation, r3) =>
          match scan_lld (skip_spaces r3) with
          | none => none
          | some (offset, r4) =>
            match scan_zu (skip_spaces r4) with
            | none => none
            | some (length, _) => some (operation, offset, length)

/-! ## Revert -/

def rebuild_log_without_last_write (fi : loggerfs_file_info) : Int × loggerfs_file_info :=
  (0, { fi with pages := truncate_inode_pages fi.pages fi.data_size,
                i_size := fi.data_size,
                log_start := fi.data_size,
                log_size := 0,
                total_size := fi.data_size })

/-- The inner loop of the backward scan: from `line_start`, step back while
the byte before is not a newline. -/
def line_begin (text : List Nat) : Nat → Nat
  | 0 => 0
  | k + 1 => if text.getD k 0 ≠ 10 then line_begin text k else k + 1

/-- The outer loop of the backward scan of `remove_last_write_log`, positions
counted from `log_content`.  The result is the range of the last entry whose
operation is `write`, if one is found. -/
def last_write_loop (text : List Nat) : Nat → Nat → Option (Int × Nat)
  | 0, _ => none
  | fuel + 1, line_end =>
    if line_end > 0 then
      let line_start := line_begin text (line_end - 1)
      let next : Option (Int × Nat) :=
        if line_start ≤ 1 then none else last_write_loop text fuel (line_start - 1)
      match parse_log_line ((text.drop line_start).take (line_end - line_start)) with
      | some (operation, offset, length) =>
        if cstr operation = bytes "write" then some (offset, length) else next
      | none => next
    else none

/-- The text between the markers of a log buffer, as `remove_last_write_log`
and the `READLOG` command both compute it; `none` when the start marker is
absent. -/
def log_text (log_buffer : List Nat) : Option (List Nat) :=
  match strstr log_buffer LOG_START_MARKER with
  | none => none
  | some i =>
    let log_content := (cstr log_buffer).drop (i + strlen LOG_START_MARKER)
    match strstr log_content LOG_END_MARKER with
    | some j => some (log_content.take j)
    | none => some log_content

/-- The range of the last write entry of the log region of an object. -/
def last_write (fi : loggerfs_file_info) : Option (Int × Nat) :=
  match log_text (read_from_file fi.pages fi.log_start fi.log_size ++ [0]) with
  | none => none
  | some text => last_write_loop text (text.length + 1) text.length

/-- The test that the backward scan of `remove_last_write_log` makes on a
line: `parse_log_line` returns 0 and `strcmp(operation, "write") == 0`.  The
result is the range of the line when the test succeeds. -/
def line_write_range (line : List Nat) : Option (Int × Nat) :=
  match parse_log_line line with
  | some (operation, offset, length) =>
    if cstr operation = bytes "write" then some (offset, length) else none
  | none => none

def remove_last_write_log (env : Env) (fi : loggerfs_file_info) : Int × loggerfs_file_info :=
  if fi.log_size = 0 then (-ENODATA, fi)
  else if ¬ env.kmalloc_ok then (-ENOMEM, fi)
  else
    let log_buffer := read_from_file fi.pages fi.log_start fi.log_size ++ [0]
    match log_text log_buffer with
    | none => (-ENODATA, fi)
    | some text =>
      match last_write_loop text (text.length + 1) text.length with
      | none => (-ENOENT, fi)
      | some _ =>
        let r := restore_original_data env fi
        if r.1 = 0 then rebuild_log_without_last_write r.2
        else r

/-- The function `revert_file_content`, which no function of the module calls. -/
def revert_file_content (env : Env) (fi : loggerfs_file_info) (write_offset : Int)
    (write_length : Nat) : Int × loggerfs_file_info :=
  let current_data_size := fi.data_size
  if fi.backup.is_valid ∧ fi.backup.offset = write_offset ∧
      fi.backup.length = write_length then
    let r := restore_original_data env fi
    let fi1 := cleanup_backup_data r.2
    if r.1 = 0 ∨ r.1 = - EIO then (0, fi1) else (r.1, fi1)
  else if fi.backup.is_valid ∧ fi.backup.offset ≤ write_offset ∧
      u64 (fi.backup.offset + fi.backup.length) > u64 write_offset then
    let r := restore_original_data env fi
    let fi1 := r.2
    let backup_end := s64 (fi1.backup.offset + fi1.backup.length)
    let fi2 :=
      if u64 (write_offset + write_length) > u64 backup_end then
        if backup_end < current_data_size then
          { fi1 with data_size := backup_end, i_size := backup_end }
        else fi1
      else fi1
    (0, cleanup_backup_data fi2)
  else if u64 (write_offset + write_length) ≥ u64 current_data_size then
    let new_size := if write_offset < 0 then 0 else write_offset
    (0, { fi with data_size := new_size, i_size := new_size })
  else (-ENODATA, fi)

/-! ## The file operations -/

/-- The result of `loggerfs_read`: the return value, the bytes delivered to
the user buffer, the file position and the object. -/
structure read_result where
  ret : Int
  buf : List Nat
  ppos : Int
  fi : loggerfs_file_info

/-- The page loop of `loggerfs_read`.  The result is `copied`, the bytes
delivered, and whether the loop ended on a failed user copy. -/
def loggerfs_read_loop (env : Env) (pages : Nat → Nat) (pos : Int) (count : Nat) :
    Nat → Nat → List Nat → Nat × List Nat × Bool
  | 0, copied, buf => (copied, buf, false)
  | fuel + 1, copied, buf =>
    if copied < count then
      let a := u64 (pos + copied)
      let page_offset := a % PAGE_SIZE
      let copy_size := min (count - copied) (PAGE_SIZE - page_offset)
      if env.user_ok copied then
        loggerfs_read_loop env pages pos count fuel (copied + copy_size)
          (buf ++ (List.range copy_size).map (fun k => pages (a + k)))
      else (copied, buf, true)
    else (copied, buf, false)

def loggerfs_read (fuel : Nat) (env : Env) (fi0 : loggerfs_file_info) (pos : Int)
    (count0 : Nat) : Option read_result :=
  match init_file_info_from_disk fuel fi0 with
  | none => none
  | some fi =>
    if pos ≥ fi.data_size then some ⟨0, [], pos, fi⟩
    else
      let count := if u64 (pos + count0) > u64 fi.data_size then u64 (fi.data_size - pos)
        else count0
      if count = 0 then some ⟨0, [], pos, fi⟩
      else
        let r := loggerfs_read_loop env fi.pages pos count count 0 []
        if r.2.2 ∧ r.1 = 0 then some ⟨-EFAULT, r.2.1, pos, fi⟩
        else
          let ret : Int := r.1
          let fi1 := if ret > 0 then (add_log_entry env fi (bytes "read") pos r.1).2 else fi
          some ⟨ret, r.2.1, pos + r.1, fi1⟩

/-- The result of `loggerfs_write`: the return value, the file position and
the object. -/
structure write_result where
  ret : Int
  ppos : Int
  fi : loggerfs_file_info

/-- The page loop of `loggerfs_write`.  The result is `copied`, the page cache,
and the error on which the loop ended, if any. -/
def loggerfs_write_loop (env : Env) (pos : Int) (buf : List Nat) (count : Nat) :
    Nat → Nat → (Nat → Nat) → Nat × (Nat → Nat) × Option Int
  | 0, copied, pages => (copied, pages, none)
  | fuel + 1, copied, pages =>
    if copied < count then
      let a := u64 (pos + copied)
      let page_idx := a / PAGE_SIZE
      let page_offset := a % PAGE_SIZE
      let copy_size := min (count - copied) (PAGE_SIZE - page_offset)
      if env.page_ok page_idx then
        if env.user_ok copied then
          loggerfs_write_loop env pos buf count fuel (copied + copy_size)
            (put_bytes pages a ((List.range copy_size).map (fun k => buf.getD (copied + k) 0)))
        else (copied, pages, some (-EFAULT))
      else (copied, pages, some (-ENOMEM))
    else (copied, pages, none)

def loggerfs_write (fuel : Nat) (env : Env) (fi0 : loggerfs_file_info) (pos : Int)
    (buf : List Nat) (count : Nat) : Option write_result :=
  match init_file_info_from_disk fuel fi0 with
  | none => none
  | some fi =>
    let fi1 :=
      if pos < fi.data_size then
        (backup_original_data env fi pos (min count (u64 (fi.data_size - pos)))).2
      else fi
    let fi2 :=
      if pos > fi1.data_size then
        { fi1 with pages := truncate_inode_pages fi1.pages fi1.data_size,
                   log_size := 0, log_start := fi1.data_size, total_size := fi1.data_size }
      else fi1
    let r := loggerfs_write_loop env pos buf count count 0 fi2.pages
    let fi3 := { fi2 with pages := r.2.1 }
    let copied : Int := r.1
    let out (ret ppos : Int) (fi4 : loggerfs_file_info) : write_result :=
      if ret > 0 then
        let fi5 := (add_log_entry env fi4 (bytes "write") pos ret.toNat).2
        ⟨ret, ppos, { fi5 with i_size := fi5.data_size }⟩
      else ⟨ret, ppos, fi4⟩
    match r.2.2 with
    | some err => some (out (if r.1 ≠ 0 then copied else err) pos fi3)
    | none =>
      let ppos := pos + copied
      let fi4 := if ppos > fi3.data_size then { fi3 with data_size := ppos, log_start := ppos }
        else fi3
      some (out copied ppos fi4)

/-- The function `loggerfs_setattr` once `setattr_prepare` has accepted the
request; `ia_size` is the new size when `ATTR_SIZE` is set. -/
def loggerfs_setattr (fuel : Nat) (env : Env) (fi0 : loggerfs_file_info)
    (ia_size : Option Int) : Option (Int × loggerfs_file_info) :=
  match ia_size with
  | none => some (0, fi0)
  | some new_size =>
    match init_file_info_from_disk fuel fi0 with
    | none => none
    | some fi =>
      let fi1 :=
        if new_size < fi.data_size then
          (backup_original_data env fi new_size (u64 (fi.data_size - new_size))).2
        else fi
      let fi2 := { fi1 with pages := truncate_inode_pages fi1.pages new_size,
                            data_size := new_size, log_start := new_size, log_size := 0,
                            total_size := new_size, i_size := new_size }
      some (0, (add_log_entry env fi2 (bytes "truncate") new_size 0).2)

/-- The command `READLOG_CMD` of `loggerfs_ioctl`: the return value, the bytes
copied to the user buffer and the object. -/
def loggerfs_ioctl_readlog (fuel : Nat) (env : Env) (fi0 : loggerfs_file_info) :
    Option (Int × List Nat × loggerfs_file_info) :=
  match init_file_info_from_disk fuel fi0 with
  | none => none
  | some fi =>
    if fi.log_size = 0 then some (0, [], fi)
    else if ¬ env.kmalloc_ok then some (-ENOMEM, [], fi)
    else
      let log_buffer := read_from_file fi.pages fi.log_start fi.log_size ++ [0]
      match log_text log_buffer with
      | none => some (0, [], fi)
      | some text =>
        if text.length > 0 ∧ ¬ env.user_ok 0 then some (-EFAULT, [], fi)
        else some ((text.length : Int), text, fi)

/-- The command `REVERT_CMD` of `loggerfs_ioctl`. -/
def loggerfs_ioctl_revert (env : Env) (fi : loggerfs_file_info) : Int × loggerfs_file_info :=
  remove_last_write_log env fi

/-! ## Runs of calls -/

/-- The line that a call of `add_log_entry` formats; a call is given by its
environment, operation, offset and length. -/
def entry_line (c : Env × List Nat × Int × Nat) : List Nat :=
  format_log_line c.1.tv_sec (get_current_command c.1) c.2.1 c.2.2.1 c.2.2.2

/-- The object after a run of calls of `add_log_entry`, in order. -/
def add_log_entries (fi : loggerfs_file_info) :
    List (Env × List Nat × Int × Nat) → loggerfs_file_info
  | [] => fi
  | c :: rest => add_log_entries (add_log_entry c.1 fi c.2.1 c.2.2.1 c.2.2.2).2 rest

/-! ## Concrete inputs -/

/-- An environment in which every allocation and every copy succeeds. -/
def env0 : Env :=
  { tv_sec := 1700000000, task := .d_path (bytes "/bin/cat"), kmalloc_ok := true,
    page_ok := fun _ => true, kmap_ok := fun _ => true, user_ok := fun _ => true }

/-- User data that happens to spell an empty log region after one byte. -/
def marker_payload : List Nat := [97] ++ LOG_START_MARKER ++ LOG_END_MARKER

/-- An object with 20 bytes of data, no backup, and a log whose only entry is
a write of the range `[2, 5)`. -/
def middle_write_object : loggerfs_file_info :=
  (add_log_entry env0
    { fresh with data_size := 20, i_size := 20, pages := fun x => if x < 20 then 97 else 0 }
    (bytes "write") 2 3).2

/-- An object with one byte of data, a valid backup of that byte, and a log
whose only entry is the write of that byte. -/
def overwritten_object : loggerfs_file_info :=
  (add_log_entry env0
    { fresh with data_size := 1, i_size := 1, pages := fun x => if x = 0 then 98 else 0,
                 backup := { offset := 0, length := 1, original_data := some [97],
                             is_valid := true } }
    (bytes "write") 0 1).2

/-- The environment `env0` one second later. -/
def env1 : Env := { env0 with tv_sec := 1700000001 }

/-- An environment whose executable path holds a blank. -/
def env_space : Env := { env0 with task := .d_path (bytes "/tmp/a b") }

/-- An environment whose executable path holds the end marker. -/
def env_end_marker : Env :=
  { env0 with task := .d_path (bytes "/tmp/" ++ LOG_END_MARKER ++ bytes "x") }

/-- An object whose log region has grown to 4090 bytes. -/
def full_log_object : loggerfs_file_info :=
  { fresh with data_size := 3, i_size := 3, log_start := 3, log_size := 4090,
               total_size := 4093 }

/-- An object as the layout scan expects it: one byte of data followed by a
log region with one write entry, the physical size covering both. -/
def disk_object : loggerfs_file_info :=
  { (add_log_entry env0
      { fresh with data_size := 1, i_size := 1, pages := fun x => if x = 0 then 97 else 0 }
      (bytes "write") 0 1).2 with i_size := 79 }

/-- The layout that `init_file_info_from_disk` resolves for `disk_object`. -/
def resolved_disk_object : loggerfs_file_info :=
  { disk_object with data_size := 1, log_start := 1, log_size := 78, total_size := 79,
                     i_size := 1 }

/-- The environment `env0` with a `kmap` that maps no page. -/
def env_no_kmap : Env := { env0 with kmap_ok := fun _ => false }

/-- An object with three bytes of data and a valid backup of the byte at
offset 5, beyond the data. -/
def grown_backup_object : loggerfs_file_info :=
  { fresh with data_size := 3, i_size := 3, pages := fun x => if x < 3 then 98 else 0,
               backup := { offset := 5, length := 1, original_data := some [97],
                           is_valid := true } }

/-- The object `middle_write_object` with a valid backup of the range `[2, 5)`. -/
def covering_backup_object : loggerfs_file_info :=
  { middle_write_object with
    backup := { offset := 2, length := 3, original_data := some [98, 98, 98],
                is_valid := true } }

/-- An object with one byte of data and a log whose only entry is a read. -/
def read_log_object : loggerfs_file_info :=
  (add_log_entry env0
    { fresh with data_size := 1, i_size := 1, pages := fun x => if x = 0 then 97 else 0 }
    (bytes "read") 0 1).2

/-- The object `overwritten_object` when the write was made by an executable
whose path holds a blank. -/
def blank_command_object : loggerfs_file_info :=
  (add_log_entry env_space
    { fresh with data_size := 1, i_size := 1, pages := fun x => if x = 0 then 98 else 0,
                 backup := { offset := 0, length := 1, original_data := some [97],
                             is_valid := true } }
    (bytes "write") 0 1).2

/-- The environment `env0` with a `kmalloc` that fails. -/
def env_no_mem : Env := { env0 with kmalloc_ok := false }

/-- The environment `env0` in which `grab_cache_page` finds no page. -/
def env_no_page : Env := { env0 with page_ok := fun _ => false }

/-- An object with the two bytes `a`, `b` of data, no backup and no log. -/
def two_byte_object : loggerfs_file_info :=
  { fresh with data_size := 2, i_size := 2,
               pages := fun x => if x = 0 then 97 else if x = 1 then 98 else 0 }

/-- An object of 600 bytes without a zero byte, whose only start marker
occupies `[500, 525)` and so lies across the end of the first 511-byte window
of `find_log_start`. -/
def split_marker_object : loggerfs_file_info :=
  { fresh with
    i_size := 600,
    pages := fun x => if x < 500 then 97 else if x < 525 then LOG_START_MARKER.getD (x - 500) 0
      else if x < 600 then 97 else 0 }

/-- The object `overwritten_object` with another range in its write entry:
the entry records the range `[7, 19)`. -/
def ranged_write_object : loggerfs_file_info :=
  (add_log_entry env0
    { fresh with data_size := 1, i_size := 1, pages := fun x => if x = 0 then 98 else 0,
                 backup := { offset := 0, length := 1, original_data := some [97],
                             is_valid := true } }
    (bytes "write") 7 12).2

/-! ## The archive packer

The two packers `fs/pack.c` and `fs/pack/pack.c` share the header layout
`struct pack_header` (512 bytes, the checksum field at bytes 148 to 155) and
differ in `num_to_oct`, `oct_to_num` and `verify_checksum`.  A header is the
list of its 512 bytes; a `char` is read through `unsigned char *` as the byte
reduced modulo 256. -/

def PACK_HEADER_SIZE : Nat := 512

/-- Store of `data` into a buffer at byte `off` (`memcpy`, `memset`, or the
bytes written by a callee through a pointer to a field). -/
def poke (buf : List Nat) (off : Nat) (data : List Nat) : List Nat :=
  buf.take off ++ data ++ buf.drop (off + data.length)

/-- The fields of `struct kstat` that `write_pack_header` reads: `mode`
(`umode_t`), the numbers returned by `from_kuid` and `from_kgid`, `size`
(`loff_t`) and `mtime.tv_sec` (`time64_t`). -/
structure kstat where
  mode : Nat
  uid : Nat
  gid : Nat
  size : Int
  mtime : Int

/-- The bytes stored by `strscpy(dest, src, count)`: at most `count - 1` bytes
of the C string, then a zero byte. -/
def strscpy (src : List Nat) (count : Nat) : List Nat := (cstr src).take (count - 1) ++ [0]

/-- The `n` bytes stored by `strncpy(dest, src, n)`. -/
def strncpy (src : List Nat) (n : Nat) : List Nat := (cstr src ++ List.replicate n 0).take n

/-- The zero-padded octal text of `n` on `m` digits, most significant digit
first: the content of an octal header field as the specification describes
it. -/
def spec_octal_digits (n m : Nat) : List Nat :=
  (List.range m).map (fun d => 48 + n / 8 ^ (m - 1 - d) % 8)

/-- The function `calculate_checksum`, the same in both packers: the sum and
the header, whose checksum field it fills with spaces. -/
def calculate_checksum (header : List Nat) : Nat × List Nat :=
  let header1 := poke header 148 (List.replicate 8 32)
  ((header1.map (fun b => b % 256)).sum % 4294967296, header1)

namespace fs_pack

/-- The first loop of `num_to_oct` in `fs/pack.c`: the octal digits of `num`
in `tmp`, least significant first; the fuel is `sizeof(tmp) - 1 - i`. -/
def num_to_oct_loop : Nat → Nat → List Nat → List Nat
  | 0, _, tmp => tmp
  | fuel + 1, num, tmp =>
    if num > 0 then num_to_oct_loop fuel (num / 8) (tmp ++ [48 + num % 8]) else tmp

/-- The function `num_to_oct` of `fs/pack.c`: the `size` bytes it stores at `dst`. -/
def num_to_oct (num : Nat) (size : Nat) : List Nat :=
  if num = 0 then List.replicate (size - 1) 48 ++ [0]
  else
    let tmp := num_to_oct_loop 31 num []
    (List.range (size - 1)).map
      (fun d => if size - 2 - d < tmp.length then tmp.getD (size - 2 - d) 48 else 48) ++ [0]

/-- The loop of `oct_to_num` in `fs/pack.c`. -/
def oct_to_num_loop (oct_str : List Nat) (size : Nat) : Nat → Nat → Nat → Nat
  | 0, _, result => result
  | fuel + 1, i, result =>
    if i + 1 < size ∧ oct_str.getD i 0 ≠ 0 ∧ oct_str.getD i 0 ≠ 32 then
      oct_to_num_loop oct_str size fuel (i + 1)
        (if 48 ≤ oct_str.getD i 0 ∧ oct_str.getD i 0 ≤ 55
          then (result * 8 + (oct_str.getD i 0 - 48)) % 18446744073709551616 else result)
    else result

def oct_to_num (oct_str : List Nat) (size : Nat) : Nat := oct_to_num_loop oct_str size size 0 0

/-- The function `verify_checksum` of `fs/pack.c`. -/
def verify_checksum (header : List Nat) : Int :=
  let chksum_backup := (header.drop 148).take 8
  let header1 := poke header 148 (List.replicate 8 32)
  let calculated_sum := (header1.map (fun b => b % 256)).sum % 4294967296
  let header2 := poke header1 148 chksum_backup
  let stored_sum := oct_to_num (header2.drop 148) 8 % 4294967296
  if calculated_sum = stored_sum then 0 else -EINVAL

/-- The function `write_pack_header` of `fs/pack.c`: the header that it hands
to `write_to_file`. -/
def write_pack_header (path : List Nat) (stat : kstat) (type : Nat) : List Nat :=
  let header0 := List.replicate PACK_HEADER_SIZE 0
  let header1 := poke header0 0 (strscpy path 100)
  let header2 := poke header1 100 (num_to_oct ((stat.mode % 65536) &&& 0o7777) 8)
  let header3 := poke header2 108 (num_to_oct (stat.uid % 4294967296) 8)
  let header4 := poke header3 116 (num_to_oct (stat.gid % 4294967296) 8)
  let header5 := poke header4 124 (num_to_oct (u64 stat.size) 12)
  let header6 := poke header5 136 (num_to_oct (u64 stat.mtime) 12)
  let header7 := poke header6 156 [type]
  let header8 := poke header7 257 (strncpy (bytes "ustar") 5)
  let header9 := poke header8 263 (strncpy (bytes "00") 1)
  let checksum := (calculate_checksum header9).1
  let header10 := poke (calculate_checksum header9).2 148 (num_to_oct checksum 7)
  poke header10 155 [32]

end fs_pack

namespace fs_pack_pack

/-- The octal digits that `scnprintf` produces for `%lo`. -/
def fmt_octal : Nat → Nat → List Nat → List Nat
  | 0, _, acc => acc
  | fuel + 1, n, acc =>
    if n < 8 then (48 + n) :: acc
    else fmt_octal fuel (n / 8) ((48 + n % 8) :: acc)

/-- The conversion `%lo`. -/
def fmt_lo (n : Nat) : List Nat := fmt_octal (n + 1) n []

/-- The function `num_to_oct` of `fs/pack/pack.c`: the `size` bytes at `dst`
after `scnprintf(dst, size, "%0*lo", size - 1, num)`, which keeps the first
`size - 1` bytes of the text padded with zeros to `size - 1` digits, and the
store of the final zero byte. -/
def num_to_oct (num : Nat) (size : Nat) : List Nat :=
  let text := List.replicate (size - 1 - (fmt_lo num).length) 48 ++ fmt_lo num
  text.take (size - 1) ++ [0]

/-- The value of a byte as a digit, as `_parse_integer` reads it. -/
def digit_value (c : Nat) : Option Nat :=
  if 48 ≤ c ∧ c ≤ 57 then some (c - 48)
  else if 97 ≤ c ∧ c ≤ 102 then some (c - 97 + 10)
  else if 65 ≤ c ∧ c ≤ 70 then some (c - 65 + 10)
  else none

/-- Whether `_parse_integer` takes a byte as a digit of the base. -/
def is_digit_of (base c : Nat) : Bool :=
  match digit_value c with
  | some v => decide (v < base)
  | none => false

/-- The kernel function `kstrtoul` on a C string, for a base of 8 or 10: an
optional plus sign, at least one digit of the base, an optional newline, and
nothing else; `none` stands for the errors `-EINVAL` and `-ERANGE`. -/
def kstrtoul (s : List Nat) (base : Nat) : Option Nat :=
  let s1 := if s.head? = some 43 then s.tail else s
  let ds := s1.takeWhile (is_digit_of base)
  let val := ds.foldl (fun acc c => acc * base + (digit_value c).getD 0) 0
  if val ≥ 18446744073709551616 then none
  else if ds = [] then none
  else
    match s1.drop ds.length with
    | [] => some val
    | [10] => some val
    | _ => none

/-- The function `oct_to_num` of `fs/pack/pack.c`. -/
def oct_to_num (oct_str : List Nat) (size0 : Nat) : Nat :=
  let size := if size0 ≥ 32 then 31 else size0
  let buf := oct_str.take size ++ [0]
  match kstrtoul (cstr buf) 8 with
  | some val => val
  | none => 0

/-- The function `verify_checksum` of `fs/pack/pack.c`. -/
def verify_checksum (header : List Nat) : Int :=
  let chksum_backup := (header.drop 148).take 8
  let calculated_sum := (calculate_checksum header).1
  let header2 := poke (calculate_checksum header).2 148 chksum_backup
  let stored_sum := oct_to_num (header2.drop 148) 8 % 4294967296
  if calculated_sum = stored_sum then 0 else -EINVAL

/-- The function `write_pack_header` of `fs/pack/pack.c`: the header that it
hands to `write_to_file`. -/
def write_pack_header (path : List Nat) (stat : kstat) (type : Nat) : List Nat :=
  let header0 := List.replicate PACK_HEADER_SIZE 0
  let header1 := poke header0 0 (strscpy path 100)
  let header2 := poke header1 100 (num_to_oct ((stat.mode % 65536) &&& 0o7777) 8)
  let header3 := poke header2 108 (num_to_oct (stat.uid % 4294967296) 8)
  let header4 := poke header3 116 (num_to_oct (stat.gid % 4294967296) 8)
  let header5 := poke header4 124 (num_to_oct (u64 stat.size) 12)
  let header6 := poke header5 136 (num_to_oct (u64 stat.mtime) 12)
  let header7 := poke header6 156 [type]
  let header8 := poke header7 257 (strncpy (bytes "ustar") 5)
  let header9 := poke header8 263 (strncpy (bytes "00") 1)
  let checksum := (calculate_checksum header9).1
  let header10 := poke (calculate_checksum header9).2 148 (num_to_oct checksum 7)
  poke header10 155 [32]

end fs_pack_pack

/-! ## Auxiliary facts -/

theorem strlen_start_marker : strlen LOG_START_MARKER = 25 := by decide

theorem strlen_end_marker : strlen LOG_END_MARKER = 23 := by decide

theorem s64_of_range (x : Int) (h0 : -9223372036854775808 ≤ x) (h1 : x < 9223372036854775808) :
    s64 x = x := by
  unfold s64
  rw [Int.emod_eq_of_lt (by omega) (by omega)]
  omega

theorem u64_of_nonneg (x : Int) (h0 : 0 ≤ x) (h1 : x < 18446744073709551616) :
    u64 x = x.toNat := by
  unfold u64
  rw [Int.emod_eq_of_lt h0 h1]

theorem u64_add_nat (o : Int) (c : Nat) (h0 : 0 ≤ o) (h1 : o + c < 18446744073709551616) :
    u64 (o + c) = o.toNat + c := by
  rw [u64_of_nonneg _ (by omega) h1]
  omega

/-- A decidable observation of the result of an operation that returns. -/
theorem exists_of_map_decide {α : Type} (o : Option α) (P : α → Prop) [∀ a, Decidable (P a)]
    (h : o.map (fun a => decide (P a)) = some true) : ∃ a, o = some a ∧ P a := by
  cases o with
  | none => cases h
  | some a =>
    refine ⟨a, rfl, ?_⟩
    have h1 : decide (P a) = true := Option.some.inj h
    exact of_decide_eq_true h1

/-! ## The scan of `find_log_start` -/

/-- Once the search position is 25 bytes before the end of the file and the
last 25 bytes are not the start marker, the loop of `find_log_start` repeats
the same pass for ever: the advance `read_len - strlen(LOG_START_MARKER)` is 0. -/
theorem find_log_start_loop_stall (pages : Nat → Nat) (file_size : Int)
    (h25 : 25 ≤ file_size) (hmax : file_size < 9223372036854775808)
    (hno : strstr (read_from_file pages (file_size - 25) 25 ++ [0]) LOG_START_MARKER = none) :
    ∀ fuel, find_log_start_loop pages file_size fuel (file_size - 25) = none := by
  intro fuel
  induction fuel with
  | zero => rfl
  | succ fuel ih =>
    have hlen : min 511 (u64 (file_size - (file_size - 25))) = 25 := by
      have : file_size - (file_size - 25) = 25 := by omega
      rw [this]; decide
    have hnext : s64 (file_size - 25 + (((25 : Nat) : Int) - ((25 : Nat) : Int)))
        = file_size - 25 := by
      rw [s64_of_range] <;> omega
    simp only [find_log_start_loop, hlen, hno, strlen_start_marker, hnext]
    have h1 : file_size - 25 < file_size := by omega
    have h2 : ¬ (file_size - 25 ≥ file_size) := by omega
    simp only [h1, h2, if_true, if_false]
    exact ih

/-- One pass of the loop of `find_log_start` that neither finds the marker
nor leaves the loop. -/
theorem find_log_start_loop_pass (pages : Nat → Nat) (file_size search_pos next_pos : Int)
    (fuel : Nat) (hlt : search_pos < file_size)
    (hno : strstr (read_from_file pages search_pos (min 511 (u64 (file_size - search_pos))) ++ [0])
      LOG_START_MARKER = none)
    (hnext : s64 (search_pos + (((min 511 (u64 (file_size - search_pos)) : Nat) : Int) - 25))
      = next_pos)
    (hin : next_pos < file_size) :
    find_log_start_loop pages file_size (fuel + 1) search_pos =
      find_log_start_loop pages file_size fuel next_pos := by
  have h2 : ¬ (next_pos ≥ file_size) := by omega
  simp only [find_log_start_loop, hlt, hno, strlen_start_marker, if_true]
  simp only [Nat.cast_ofNat, hnext, h2, if_false]

/-- On a file of at least 25 bytes the loop of `find_log_start` never leaves
without a marker: from a position in `[0, file_size)` the next position is
again in `[0, file_size)`, so each result is the position of a match. -/
theorem find_log_start_loop_never_absent (pages : Nat → Nat) (file_size : Int)
    (h25 : 25 ≤ file_size) (hmax : file_size < 9223372036854775808) :
    ∀ (fuel : Nat) (search_pos r : Int), 0 ≤ search_pos → search_pos < file_size →
      find_log_start_loop pages file_size fuel search_pos = some r → 0 ≤ r := by
  intro fuel
  induction fuel with
  | zero =>
    intro search_pos r _ _ h
    simp [find_log_start_loop] at h
  | succ fuel ih =>
    intro search_pos r h0 hlt h
    simp only [find_log_start_loop, hlt, if_true, strlen_start_marker] at h
    have hu : u64 (file_size - search_pos) = (file_size - search_pos).toNat :=
      u64_of_nonneg _ (by omega) (by omega)
    rw [hu] at h
    generalize hrl : min 511 (file_size - search_pos).toNat = read_len at h
    have hr1 : (read_len : Int) ≤ 511 := by omega
    have hr2 : (read_len : Int) ≤ file_size - search_pos := by omega
    have hr3 : (read_len : Int) = 511 ∨ (read_len : Int) = file_size - search_pos := by omega
    cases hs : strstr (read_from_file pages search_pos read_len ++ [0]) LOG_START_MARKER with
    | some marker_pos =>
      rw [hs] at h
      have := Option.some.inj h
      omega
    | none =>
      rw [hs] at h
      simp only at h
      have hnext : s64 (search_pos + ((read_len : Int) - ((25 : Nat) : Int)))
          = search_pos + (read_len : Int) - 25 := by
        rw [s64_of_range] <;> omega
      rw [hnext] at h
      have hin : ¬ (search_pos + (read_len : Int) - 25 ≥ file_size) := by omega
      simp only [hin, if_false] at h
      exact ih _ r (by omega) (by omega) h

/-! ## Write, then read -/

/-- C1 (the code departs from the claim).  On a fresh object the write of 25
bytes `a` at offset 0 returns 25, and the read of 25 bytes at offset 0 that
follows returns for no amount of fuel: its layout scan never ends. -/
theorem write_then_read_never_returns :
    ∃ w, loggerfs_write 1 env0 fresh 0 (List.replicate 25 97) 25 = some w ∧
      w.ret = 25 ∧ w.fi.data_size = 25 ∧
      ∀ fuel, loggerfs_read fuel env0 w.fi 0 25 = none := by
  obtain ⟨w, hw, h1, h2, h3, h4⟩ := exists_of_map_decide
    (loggerfs_write 1 env0 fresh 0 (List.replicate 25 97) 25)
    (fun w => w.ret = 25 ∧ w.fi.data_size = 25 ∧ w.fi.i_size = 25 ∧
      strstr (read_from_file w.fi.pages (25 - 25) 25 ++ [0]) LOG_START_MARKER = none)
    (by decide)
  refine ⟨w, hw, h1, h2, ?_⟩
  intro fuel
  have hstall := find_log_start_loop_stall w.fi.pages 25 (by decide) (by decide) h4 fuel
  have h0 : (25 : Int) - 25 = 0 := by decide
  rw [h0] at hstall
  simp only [loggerfs_read, init_file_info_from_disk, find_log_start, h3, hstall]

/-! ## Revert -/

theorem line_begin_le (text : List Nat) : ∀ k, line_begin text k ≤ k
  | 0 => by simp [line_begin]
  | k + 1 => by
    simp only [line_begin]
    split
    · exact Nat.le_succ_of_le (line_begin_le text k)
    · exact Nat.le_refl _

/-- The backward scan ends within `line_end + 1` passes: more fuel does not
change its result, so `none` always stands for a scan that found no write. -/
theorem last_write_loop_fuel (text : List Nat) :
    ∀ (fuel1 fuel2 line_end : Nat), line_end < fuel1 → line_end < fuel2 →
      last_write_loop text fuel1 line_end = last_write_loop text fuel2 line_end := by
  intro fuel1
  induction fuel1 with
  | zero => intro fuel2 line_end h; omega
  | succ n ih =>
    intro fuel2 line_end h1 h2
    cases fuel2 with
    | zero => omega
    | succ m =>
      simp only [last_write_loop]
      by_cases hpos : line_end > 0
      · have hle := line_begin_le text (line_end - 1)
        have hrec : last_write_loop text n (line_begin text (line_end - 1) - 1) =
            last_write_loop text m (line_begin text (line_end - 1) - 1) :=
          ih m _ (by omega) (by omega)
        simp only [hpos, if_true, hrec]
      · simp only [hpos, if_false]

/-- C2 (the code departs from the claim).  After the write of 10 bytes at
offset 0 on a fresh object the last write entry is `(0, 10)`, it ends at
`data_size` and there is no valid backup; `remove_last_write_log` returns
`-ENODATA` and leaves `data_size` at 10, where `revert_file_content`, which
it does not call, returns 0 and sets `data_size` to 0. -/
theorem revert_of_append_fails :
    ∃ w, loggerfs_write 1 env0 fresh 0 (List.replicate 10 97) 10 = some w ∧
      w.ret = 10 ∧ w.fi.data_size = 10 ∧ w.fi.backup.is_valid = false ∧
      last_write w.fi = some (0, 10) ∧
      (remove_last_write_log env0 w.fi).1 = -ENODATA ∧
      (remove_last_write_log env0 w.fi).2.data_size = 10 ∧
      (revert_file_content env0 w.fi 0 10).1 = 0 ∧
      (revert_file_content env0 w.fi 0 10).2.data_size = 0 :=
  exists_of_map_decide (loggerfs_write 1 env0 fresh 0 (List.replicate 10 97) 10) _ (by decide)

/-- C4 (the code departs from the claim).  Two writes on a fresh object, the
second one over the first byte, leave a valid backup and a log whose last
entry is that write; `remove_last_write_log` returns 0 and the backup is
still valid afterwards. -/
theorem backup_survives_revert :
    ∃ w, (loggerfs_write 1 env0 fresh 0 marker_payload 49).bind
        (fun w1 => loggerfs_write 1 env0 w1.fi 0 [98] 1) = some w ∧
      w.ret = 1 ∧ w.fi.backup.is_valid = true ∧ last_write w.fi = some (0, 1) ∧
      (remove_last_write_log env0 w.fi).1 = 0 ∧
      (remove_last_write_log env0 w.fi).2.backup.is_valid = true ∧
      (remove_last_write_log env0 w.fi).2.backup.original_data = some [97] :=
  exists_of_map_decide ((loggerfs_write 1 env0 fresh 0 marker_payload 49).bind
    (fun w1 => loggerfs_write 1 env0 w1.fi 0 [98] 1)) _ (by decide)

/-- C5.  When the last write entry of the log lies strictly inside the data
and there is no valid backup, `remove_last_write_log` returns `-ENODATA` and
the object (page cache, layout fields, backup slot) is left as it was. -/
theorem revert_middle_write_fails (env : Env) (fi : loggerfs_file_info)
    (write_offset : Int) (write_length : Nat)
    (hk : env.kmalloc_ok = true)
    (hw : last_write fi = some (write_offset, write_length))
    (_ : write_offset + write_length < fi.data_size)
    (hb : fi.backup.is_valid = false) :
    remove_last_write_log env fi = (-ENODATA, fi) := by
  unfold remove_last_write_log
  by_cases h0 : fi.log_size = 0
  · simp [h0]
  · simp only [h0, if_false, hk, not_true_eq_false]
    unfold last_write at hw
    cases ht : log_text (read_from_file fi.pages fi.log_start fi.log_size ++ [0]) with
    | none => rfl
    | some text =>
      rw [ht] at hw
      simp only at hw
      simp only [hw, restore_original_data, hb]
      simp [ENODATA]

/-- The theorem `revert_middle_write_fails` at `middle_write_object`. -/
theorem revert_middle_write_fails_witness :
    (env0.kmalloc_ok = true ∧ last_write middle_write_object = some (2, 3) ∧
      (2 : Int) + (3 : Nat) < middle_write_object.data_size ∧
      middle_write_object.backup.is_valid = false) ∧
    remove_last_write_log env0 middle_write_object = (-ENODATA, middle_write_object) :=
  ⟨by decide,
   revert_middle_write_fails env0 middle_write_object 2 3 rfl (by decide) (by decide)
     (by decide)⟩

/-- C6.  Whenever `remove_last_write_log` returns 0 the log is empty
afterwards (`log_size = 0`, `log_start = total_size = data_size`), and a
second call, in any environment, returns `-ENODATA` and changes nothing. -/
theorem revert_success_empties_log (env : Env) (fi : loggerfs_file_info)
    (h : (remove_last_write_log env fi).1 = 0) :
    (remove_last_write_log env fi).2.log_size = 0 ∧
    (remove_last_write_log env fi).2.log_start = (remove_last_write_log env fi).2.data_size ∧
    (remove_last_write_log env fi).2.total_size = (remove_last_write_log env fi).2.data_size ∧
    ∀ env2 : Env, remove_last_write_log env2 (remove_last_write_log env fi).2
      = (-ENODATA, (remove_last_write_log env fi).2) := by
  have key : ∀ fi2 : loggerfs_file_info, fi2.log_size = 0 →
      ∀ env2 : Env, remove_last_write_log env2 fi2 = (-ENODATA, fi2) := by
    intro fi2 h2 env2
    simp [remove_last_write_log, h2]
  unfold remove_last_write_log at h ⊢
  by_cases h0 : fi.log_size = 0
  · simp [h0, ENODATA] at h
  · by_cases hk : env.kmalloc_ok = true
    · simp only [h0, if_false, hk, not_true_eq_false] at h ⊢
      cases ht : log_text (read_from_file fi.pages fi.log_start fi.log_size ++ [0]) with
      | none => simp [ht, ENODATA] at h
      | some text =>
        simp only [ht] at h ⊢
        cases hl : last_write_loop text (text.length + 1) text.length with
        | none => simp [hl, ENOENT] at h
        | some p =>
          simp only [hl] at h ⊢
          by_cases hr : (restore_original_data env fi).1 = 0
          · rw [if_pos hr]
            exact ⟨rfl, rfl, rfl, key _ rfl⟩
          · rw [if_neg hr] at h
            exact absurd h hr
    · simp [h0, hk, ENOMEM] at h

/-- The theorem `revert_success_empties_log` at `overwritten_object`. -/
theorem revert_success_empties_log_witness :
    (remove_last_write_log env0 overwritten_object).1 = 0 ∧
    (remove_last_write_log env0 overwritten_object).2.log_size = 0 ∧
    (remove_last_write_log env0 overwritten_object).2.log_start
      = (remove_last_write_log env0 overwritten_object).2.data_size ∧
    (remove_last_write_log env0 overwritten_object).2.total_size
      = (remove_last_write_log env0 overwritten_object).2.data_size ∧
    ∀ env2 : Env, remove_last_write_log env2 (remove_last_write_log env0 overwritten_object).2
      = (-ENODATA, (remove_last_write_log env0 overwritten_object).2) :=
  ⟨by decide, revert_success_empties_log env0 overwritten_object (by decide)⟩

/-! ## Layout resolution -/

/-- C7 (the code departs from the claim).  An object holding 30 bytes `a`
and no start marker, as left by one write on a fresh object: the claim gives
`data_size = log_start = total_size = 30`, while `init_file_info_from_disk`
returns for no amount of fuel. -/
theorem init_never_returns_without_marker :
    ∃ w, loggerfs_write 1 env0 fresh 0 (List.replicate 30 97) 30 = some w ∧
      w.fi.i_size = 30 ∧
      find_sub LOG_START_MARKER (read_from_file w.fi.pages 0 30) = none ∧
      ∀ fuel, init_file_info_from_disk fuel w.fi = none := by
  obtain ⟨w, hw, h1, h2, h3, h4, h5⟩ := exists_of_map_decide
    (loggerfs_write 1 env0 fresh 0 (List.replicate 30 97) 30)
    (fun w => w.fi.i_size = 30 ∧
      find_sub LOG_START_MARKER (read_from_file w.fi.pages 0 30) = none ∧
      strstr (read_from_file w.fi.pages 0 (min 511 (u64 (30 - 0))) ++ [0])
        LOG_START_MARKER = none ∧
      s64 (0 + (((min 511 (u64 (30 - 0)) : Nat) : Int) - 25)) = 30 - 25 ∧
      strstr (read_from_file w.fi.pages (30 - 25) 25 ++ [0]) LOG_START_MARKER = none)
    (by decide)
  refine ⟨w, hw, h1, h2, ?_⟩
  intro fuel
  simp only [init_file_info_from_disk, find_log_start, h1]
  cases fuel with
  | zero => rfl
  | succ fuel =>
    rw [find_log_start_loop_pass w.fi.pages 30 0 (30 - 25) fuel (by decide) h3 h4 (by decide),
      find_log_start_loop_stall w.fi.pages 30 (by decide) (by decide) h5 fuel]

/-- C8 (the code departs from the claim).  On an object holding 40 bytes `x`
the scan of `find_log_start` advances from 0 to 15, which is 25 bytes before
the end, and stays there: `find_log_start` returns for no amount of fuel. -/
theorem find_log_start_never_returns :
    ∃ w, loggerfs_write 1 env0 fresh 0 (List.replicate 40 120) 40 = some w ∧
      w.fi.i_size = 40 ∧
      (∀ fuel, find_log_start_loop w.fi.pages 40 (fuel + 1) 0
        = find_log_start_loop w.fi.pages 40 fuel 15) ∧
      (∀ fuel, find_log_start_loop w.fi.pages 40 (fuel + 1) 15
        = find_log_start_loop w.fi.pages 40 fuel 15) ∧
      ∀ fuel, find_log_start fuel w.fi = none := by
  obtain ⟨w, hw, h1, h3, h4, h5, h6, h7⟩ := exists_of_map_decide
    (loggerfs_write 1 env0 fresh 0 (List.replicate 40 120) 40)
    (fun w => w.fi.i_size = 40 ∧
      strstr (read_from_file w.fi.pages 0 (min 511 (u64 (40 - 0))) ++ [0])
        LOG_START_MARKER = none ∧
      s64 (0 + (((min 511 (u64 (40 - 0)) : Nat) : Int) - 25)) = 15 ∧
      strstr (read_from_file w.fi.pages 15 (min 511 (u64 (40 - 15))) ++ [0])
        LOG_START_MARKER = none ∧
      s64 (15 + (((min 511 (u64 (40 - 15)) : Nat) : Int) - 25)) = 15 ∧
      strstr (read_from_file w.fi.pages (40 - 25) 25 ++ [0]) LOG_START_MARKER = none)
    (by decide)
  have hpass0 := fun fuel =>
    find_log_start_loop_pass w.fi.pages 40 0 15 fuel (by decide) h3 h4 (by decide)
  have hpass15 := fun fuel =>
    find_log_start_loop_pass w.fi.pages 40 15 15 fuel (by decide) h5 h6 (by decide)
  refine ⟨w, hw, h1, hpass0, hpass15, ?_⟩
  intro fuel
  simp only [find_log_start, h1]
  cases fuel with
  | zero => rfl
  | succ fuel =>
    rw [hpass0 fuel]
    exact find_log_start_loop_stall w.fi.pages 40 (by decide) (by decide) h7 fuel

/-! ## The layout invariant -/

/-- C9 (the code departs from the claim).  A write of 0 bytes at offset 5 on
a fresh object returns 0 and leaves `data_size = log_start = 5` with
`log_size = 0` and `total_size = 0`: neither `log_start + log_size =
total_size` nor `data_size ≤ total_size` holds. -/
theorem zero_byte_write_breaks_layout :
    ∃ w, loggerfs_write 1 env0 fresh 5 [] 0 = some w ∧
      w.ret = 0 ∧ w.fi.data_size = 5 ∧ w.fi.log_start = 5 ∧ w.fi.log_size = 0 ∧
      w.fi.total_size = 0 ∧
      w.fi.log_start + w.fi.log_size ≠ w.fi.total_size ∧
      ¬ (w.fi.data_size ≤ w.fi.total_size) :=
  exists_of_map_decide (loggerfs_write 1 env0 fresh 5 [] 0) _ (by decide)

/-! ## The page loops -/

theorem put_bytes_range (pages : Nat → Nat) (a n : Nat) (f : Nat → Nat) (x : Nat) :
    put_bytes pages a ((List.range n).map f) x =
      if a ≤ x ∧ x < a + n then f (x - a) else pages x := by
  unfold put_bytes
  simp only [List.length_map, List.length_range]
  split
  · rename_i h
    have : x - a < n := by omega
    simp [List.getD_eq_getElem?_getD, List.getElem?_map, List.getElem?_range this]
  · rfl

theorem range_map_split (f : Nat → Nat) (n m : Nat) :
    (List.range n).map f ++ (List.range m).map (fun k => f (n + k)) =
      (List.range (n + m)).map f := by
  rw [List.range_add, List.map_append, List.map_map]
  rfl

/-- Every pass of a page loop copies at least one byte and at most what is left. -/
theorem chunk_pos (len done a : Nat) (h : done < len) :
    0 < min (len - done) (PAGE_SIZE - a % PAGE_SIZE) ∧
    min (len - done) (PAGE_SIZE - a % PAGE_SIZE) ≤ len - done := by
  have : a % PAGE_SIZE < PAGE_SIZE := Nat.mod_lt _ (by decide)
  omega

/-- Writing the chunk `[done, done + cs)` of `data` at `o + done` on top of a
cache that already holds `[o + done + cs, o + len)`. -/
theorem put_chunk_then_rest (pages : Nat → Nat) (data : List Nat) (o done cs len : Nat)
    (hcs : done + cs ≤ len) (x : Nat) :
    (if o + (done + cs) ≤ x ∧ x < o + len then data.getD (x - o) 0
      else put_bytes pages (o + done)
        ((List.range cs).map (fun k => data.getD (done + k) 0)) x) =
    (if o + done ≤ x ∧ x < o + len then data.getD (x - o) 0 else pages x) := by
  rw [put_bytes_range]
  by_cases hx1 : o + (done + cs) ≤ x ∧ x < o + len
  · have : o + done ≤ x ∧ x < o + len := by omega
    simp [hx1, this]
  · by_cases hx2 : o + done ≤ x ∧ x < o + done + cs
    · have h3 : o + done ≤ x ∧ x < o + len := by omega
      have h4 : done + (x - (o + done)) = x - o := by omega
      simp [hx1, hx2, h3, h4]
    · have h3 : ¬ (o + done ≤ x ∧ x < o + len) := by omega
      simp [hx1, hx2, h3]

theorem restore_loop_spec (env : Env) (offset : Int) (length : Nat) (data : List Nat)
    (hok : ∀ i, env.page_ok i = true ∧ env.kmap_ok i = true)
    (h0 : 0 ≤ offset) (hb : offset + length ≤ 18446744073709551616) :
    ∀ (fuel copied ec : Nat) (pages : Nat → Nat), length - copied ≤ fuel → copied ≤ length →
      restore_loop env offset length data fuel copied ec pages =
        (ec, fun x => if offset.toNat + copied ≤ x ∧ x < offset.toNat + length
                      then data.getD (x - offset.toNat) 0 else pages x) := by
  intro fuel
  induction fuel with
  | zero =>
    intro copied ec pages hf hc
    simp only [restore_loop]
    congr 1
    funext x
    have : ¬ (offset.toNat + copied ≤ x ∧ x < offset.toNat + length) := by omega
    simp [this]
  | succ fuel ih =>
    intro copied ec pages hf hc
    simp only [restore_loop]
    by_cases hlt : copied < length
    · simp only [hlt, if_true, (hok _).1, (hok _).2]
      rw [u64_add_nat offset copied h0 (by omega)]
      obtain ⟨hcs1, hcs2⟩ := chunk_pos length copied (offset.toNat + copied) hlt
      generalize min (length - copied) (PAGE_SIZE - (offset.toNat + copied) % PAGE_SIZE) = cs
        at hcs1 hcs2
      rw [ih (copied + cs) ec _ (by omega) (by omega)]
      congr 1
      funext x
      exact put_chunk_then_rest pages data offset.toNat copied cs length (by omega) x
    · simp only [hlt, if_false]
      congr 1
      funext x
      have : ¬ (offset.toNat + copied ≤ x ∧ x < offset.toNat + length) := by omega
      simp [this]

theorem write_log_to_file_loop_spec (env : Env) (pos : Int) (data : List Nat) (len : Nat)
    (hok : ∀ i, env.page_ok i = true)
    (h0 : 0 ≤ pos) (hb : pos + len ≤ 18446744073709551616) :
    ∀ (fuel written : Nat) (pages : Nat → Nat), len - written ≤ fuel → written ≤ len →
      write_log_to_file_loop env pos data len fuel written pages =
        (0, fun x => if pos.toNat + written ≤ x ∧ x < pos.toNat + len
                     then data.getD (x - pos.toNat) 0 else pages x) := by
  intro fuel
  induction fuel with
  | zero =>
    intro written pages hf hc
    simp only [write_log_to_file_loop]
    congr 1
    funext x
    have : ¬ (pos.toNat + written ≤ x ∧ x < pos.toNat + len) := by omega
    simp [this]
  | succ fuel ih =>
    intro written pages hf hc
    simp only [write_log_to_file_loop]
    by_cases hlt : written < len
    · simp only [hlt, if_true, hok]
      rw [u64_add_nat pos written h0 (by omega)]
      obtain ⟨hcs1, hcs2⟩ := chunk_pos len written (pos.toNat + written) hlt
      generalize min (len - written) (PAGE_SIZE - (pos.toNat + written) % PAGE_SIZE) = cs
        at hcs1 hcs2
      rw [ih (written + cs) _ (by omega) (by omega)]
      congr 1
      funext x
      exact put_chunk_then_rest pages data pos.toNat written cs len (by omega) x
    · simp only [hlt, if_false]
      congr 1
      funext x
      have : ¬ (pos.toNat + written ≤ x ∧ x < pos.toNat + len) := by omega
      simp [this]

theorem backup_loop_spec (env : Env) (pages : Nat → Nat) (offset : Int) (length : Nat)
    (hok : ∀ i, env.kmap_ok i = true)
    (h0 : 0 ≤ offset) (hb : offset + length ≤ 18446744073709551616) :
    ∀ (fuel copied : Nat) (buffer : List Nat), length - copied ≤ fuel → copied ≤ length →
      backup_loop env pages offset length fuel copied buffer =
        buffer ++ (List.range (length - copied)).map
          (fun k => pages (offset.toNat + copied + k)) := by
  intro fuel
  induction fuel with
  | zero =>
    intro copied buffer hf hc
    have : length - copied = 0 := by omega
    simp [backup_loop, this]
  | succ fuel ih =>
    intro copied buffer hf hc
    simp only [backup_loop]
    by_cases hlt : copied < length
    · simp only [hlt, if_true, hok]
      rw [u64_add_nat offset copied h0 (by omega)]
      obtain ⟨hcs1, hcs2⟩ := chunk_pos length copied (offset.toNat + copied) hlt
      generalize min (length - copied) (PAGE_SIZE - (offset.toNat + copied) % PAGE_SIZE) = cs
        at hcs1 hcs2
      rw [ih (copied + cs) _ (by omega) (by omega), List.append_assoc]
      congr 1
      have hsplit : length - copied = cs + (length - (copied + cs)) := by omega
      rw [hsplit, ← range_map_split]
      congr 1
      apply List.map_congr_left
      intro k _
      congr 1
      omega
    · have : length - copied = 0 := by omega
      simp [hlt, this]

/-- The page cache and the return value of `restore_original_data` when no
page fails. -/
theorem restore_original_data_pages (env : Env) (fi : loggerfs_file_info) (data : List Nat)
    (hok : ∀ i, env.page_ok i = true ∧ env.kmap_ok i = true)
    (hv : fi.backup.is_valid = true) (hd : fi.backup.original_data = some data)
    (h0 : 0 ≤ fi.backup.offset)
    (hb : fi.backup.offset + fi.backup.length ≤ 9223372036854775808) :
    (restore_original_data env fi).1 = 0 ∧
    (restore_original_data env fi).2.pages =
      fun x => if fi.backup.offset.toNat ≤ x ∧ x < fi.backup.offset.toNat + fi.backup.length
               then data.getD (x - fi.backup.offset.toNat) 0 else fi.pages x := by
  have hloop := restore_loop_spec env fi.backup.offset fi.backup.length data hok h0
    (by omega) fi.backup.length 0 0 fi.pages (by omega) (by omega)
  simp only [Nat.add_zero] at hloop
  simp only [restore_original_data, hv, hd, hloop]
  constructor
  · simp
  · simp only [not_true_eq_false, if_false, gt_iff_lt, lt_irrefl]
    split <;> [split; skip] <;> rfl

/-- The backup slot left by `backup_original_data` when it takes a snapshot. -/
theorem backup_original_data_takes (env : Env) (fi : loggerfs_file_info) (o : Int) (k : Nat)
    (hv : fi.backup.is_valid = false) (hk : env.kmalloc_ok = true)
    (hmap : ∀ i, env.kmap_ok i = true) (hpos : 0 < k) (h0 : 0 ≤ o)
    (hb : o + k ≤ 9223372036854775808) :
    backup_original_data env fi o k =
      (0, { fi with backup := { offset := o, length := k,
                                original_data := some ((List.range k).map
                                  (fun j => fi.pages (o.toNat + j))),
                                is_valid := true } }) := by
  have hloop := backup_loop_spec env fi.pages o k hmap h0 (by omega) k 0 [] (by omega)
    (by omega)
  simp only [Nat.sub_zero, Nat.add_zero, List.nil_append] at hloop
  have hk0 : k ≠ 0 := by omega
  simp [backup_original_data, hk0, hv, hk, cleanup_backup_data, hloop]

/-- C3.  With no page failure, `restore_original_data` on a valid backup
returns 0 and leaves the snapshot bytes in `[offset, offset + length)`; and
after `backup_original_data` of `[o, o + k)` on an object without a valid
backup, whatever the page cache is overwritten with, `restore_original_data`
returns every byte of `[o, o + k)` to the value it had before the backup. -/
theorem restore_writes_snapshot_back (env : Env)
    (hok : ∀ i, env.page_ok i = true ∧ env.kmap_ok i = true) :
    (∀ (fi : loggerfs_file_info) (data : List Nat),
      fi.backup.is_valid = true → fi.backup.original_data = some data →
      data.length = fi.backup.length → 0 ≤ fi.backup.offset →
      fi.backup.offset + fi.backup.length ≤ 9223372036854775808 →
      (restore_original_data env fi).1 = 0 ∧
      ∀ j, j < fi.backup.length →
        (restore_original_data env fi).2.pages (fi.backup.offset.toNat + j) = data.getD j 0) ∧
    (∀ (fi : loggerfs_file_info) (o : Int) (k : Nat) (overwritten : Nat → Nat),
      fi.backup.is_valid = false → env.kmalloc_ok = true → 0 < k → 0 ≤ o →
      o + k ≤ 9223372036854775808 →
      (backup_original_data env fi o k).1 = 0 ∧
      ∀ j, j < k →
        (restore_original_data env
            { (backup_original_data env fi o k).2 with pages := overwritten }).2.pages
          (o.toNat + j) = fi.pages (o.toNat + j)) := by
  constructor
  · intro fi data hv hd _ h0 hb
    obtain ⟨h1, h2⟩ := restore_original_data_pages env fi data hok hv hd h0 hb
    refine ⟨h1, ?_⟩
    intro j hj
    rw [h2]
    have : fi.backup.offset.toNat ≤ fi.backup.offset.toNat + j ∧
        fi.backup.offset.toNat + j < fi.backup.offset.toNat + fi.backup.length := by omega
    simp [this]
  · intro fi o k overwritten hv hk hpos h0 hb
    rw [backup_original_data_takes env fi o k hv hk (fun i => (hok i).2) hpos h0 hb]
    refine ⟨rfl, ?_⟩
    intro j hj
    obtain ⟨_, h2⟩ := restore_original_data_pages env
      { fi with pages := overwritten,
                backup := { offset := o, length := k,
                            original_data := some ((List.range k).map
                              (fun j => fi.pages (o.toNat + j))),
                            is_valid := true } }
      ((List.range k).map (fun j => fi.pages (o.toNat + j))) hok rfl rfl h0 hb
    rw [h2]
    have : o.toNat ≤ o.toNat + j ∧ o.toNat + j < o.toNat + k := by omega
    simp [this, List.getD_eq_getElem?_getD, List.getElem?_map, List.getElem?_range hj]

/-- The theorem `restore_writes_snapshot_back` in the environment `env0`: the
restore of `overwritten_object` puts the saved byte `a` back at offset 0, and
a backup of `[2, 5)` of `middle_write_object` followed by an overwrite with
zeros and a restore puts the byte `a` back at offset 3. -/
theorem restore_writes_snapshot_back_witness :
    ((restore_original_data env0 overwritten_object).1 = 0 ∧
      (restore_original_data env0 overwritten_object).2.pages 0 = 97) ∧
    ((backup_original_data env0 middle_write_object 2 3).1 = 0 ∧
      (restore_original_data env0
          { (backup_original_data env0 middle_write_object 2 3).2 with
            pages := fun _ => 0 }).2.pages 3 = 97) :=
  have h := restore_writes_snapshot_back env0 (fun _ => ⟨rfl, rfl⟩)
  ⟨⟨(h.1 overwritten_object [97] (by decide) (by decide) (by decide) (by decide)
        (by decide)).1,
     (h.1 overwritten_object [97] (by decide) (by decide) (by decide) (by decide)
        (by decide)).2 0 (by decide)⟩,
   ⟨(h.2 middle_write_object 2 3 (fun _ => 0) (by decide) rfl (by decide) (by decide)
        (by decide)).1,
    (h.2 middle_write_object 2 3 (fun _ => 0) (by decide) rfl (by decide) (by decide)
        (by decide)).2 1 (by decide)⟩⟩

/-! ## Log lines are C strings -/

theorem cstr_of_ne_zero : ∀ l : List Nat, (∀ b ∈ l, b ≠ 0) → cstr l = l
  | [], _ => rfl
  | b :: rest, h => by
    have hb : b ≠ 0 := h b (List.mem_cons_self _ _)
    have hr := cstr_of_ne_zero rest (fun c hc => h c (List.mem_cons_of_mem _ hc))
    simp [cstr, hb, hr]

theorem cstr_ne_zero : ∀ (l : List Nat) (b : Nat), b ∈ cstr l → b ≠ 0
  | [], b, h => by simp [cstr] at h
  | c :: rest, b, h => by
    by_cases hc : c = 0
    · simp [cstr, hc] at h
    · simp only [cstr, hc, if_false, List.mem_cons] at h
      rcases h with h | h
      · rw [h]; exact hc
      · exact cstr_ne_zero rest b h

theorem fmt_digits_ne_zero : ∀ (fuel n : Nat) (acc : List Nat), (∀ b ∈ acc, b ≠ 0) →
    ∀ b ∈ fmt_digits fuel n acc, b ≠ 0
  | 0, _, acc, h => by simpa [fmt_digits] using h
  | fuel + 1, n, acc, h => by
    intro b hb
    simp only [fmt_digits] at hb
    split at hb
    · simp only [List.mem_cons] at hb
      rcases hb with hb | hb
      · omega
      · exact h b hb
    · refine fmt_digits_ne_zero fuel (n / 10) ((48 + n % 10) :: acc) ?_ b hb
      intro c hc
      simp only [List.mem_cons] at hc
      rcases hc with hc | hc
      · omega
      · exact h c hc

theorem fmt_zu_ne_zero (n : Nat) : ∀ b ∈ fmt_zu n, b ≠ 0 :=
  fmt_digits_ne_zero (n + 1) n [] (by simp)

theorem fmt_lld_ne_zero (x : Int) : ∀ b ∈ fmt_lld x, b ≠ 0 := by
  intro b hb
  unfold fmt_lld at hb
  split at hb
  · simp only [List.mem_cons] at hb
    rcases hb with hb | hb
    · omega
    · exact fmt_zu_ne_zero _ b hb
  · exact fmt_zu_ne_zero _ b hb

theorem get_current_command_ne_zero (env : Env) : ∀ b ∈ get_current_command env, b ≠ 0 := by
  unfold get_current_command
  cases env.task with
  | no_mm => decide
  | no_path_buf => decide
  | no_exe_file => decide
  | d_path_error => decide
  | d_path pathname =>
    intro b hb
    exact cstr_ne_zero pathname b (List.mem_of_mem_take hb)

theorem format_log_line_ne_zero (tv_sec : Int) (command operation : List Nat) (offset : Int)
    (length : Nat) : ∀ b ∈ format_log_line tv_sec command operation offset length, b ≠ 0 := by
  intro b hb
  simp only [format_log_line, List.mem_append, List.mem_singleton] at hb
  rcases hb with ((((((((hb | hb) | hb) | hb) | hb) | hb) | hb) | hb) | hb) | hb
  · exact fmt_lld_ne_zero _ b hb
  · omega
  · exact cstr_ne_zero _ b hb
  · omega
  · exact cstr_ne_zero _ b hb
  · omega
  · exact fmt_lld_ne_zero _ b hb
  · omega
  · exact fmt_zu_ne_zero _ b hb
  · omega

/-- The buffer of a new region is a C string: `strlen` is its length. -/
theorem strlen_region (line : List Nat) (h : ∀ b ∈ line, b ≠ 0) :
    strlen (LOG_START_MARKER ++ line ++ LOG_END_MARKER) =
      (LOG_START_MARKER ++ line ++ LOG_END_MARKER).length := by
  unfold strlen
  rw [cstr_of_ne_zero]
  intro b hb
  simp only [List.mem_append] at hb
  rcases hb with (hb | hb) | hb
  · exact (by decide : ∀ b ∈ LOG_START_MARKER, b ≠ 0) b hb
  · exact h b hb
  · exact (by decide : ∀ b ∈ LOG_END_MARKER, b ≠ 0) b hb

/-! ## Appending a log entry -/

/-- C10.  On an object whose log is empty, when the line fits its buffer and
the allocations succeed, `add_log_entry` returns 0, sets `log_start` to
`data_size`, stores the start marker, the line
`<timestamp> <command> <operation> <offset> <length>\n` and the end marker
from byte `log_start` on, sets `log_size` to the number of bytes stored and
`total_size` to `data_size + log_size`. -/
theorem add_log_entry_starts_region (env : Env) (fi : loggerfs_file_info)
    (operation : List Nat) (offset : Int) (length : Nat)
    (hempty : fi.log_size = 0)
    (hfmt : (format_log_line env.tv_sec (get_current_command env) operation offset
      length).length < 512)
    (hk : env.kmalloc_ok = true) (hp : ∀ i, env.page_ok i = true)
    (h0 : 0 ≤ fi.data_size) (hb : fi.data_size + 560 ≤ 9223372036854775808) :
    (add_log_entry env fi operation offset length).1 = 0 ∧
    (add_log_entry env fi operation offset length).2.log_start = fi.data_size ∧
    (add_log_entry env fi operation offset length).2.data_size = fi.data_size ∧
    (∀ k, k < (LOG_START_MARKER ++ (fmt_lld env.tv_sec ++ [32] ++ get_current_command env ++
          [32] ++ cstr operation ++ [32] ++ fmt_lld offset ++ [32] ++ fmt_zu length ++ [10])
          ++ LOG_END_MARKER).length →
      (add_log_entry env fi operation offset length).2.pages (fi.data_size.toNat + k) =
        (LOG_START_MARKER ++ (fmt_lld env.tv_sec ++ [32] ++ get_current_command env ++
          [32] ++ cstr operation ++ [32] ++ fmt_lld offset ++ [32] ++ fmt_zu length ++ [10])
          ++ LOG_END_MARKER).getD k 0) ∧
    (add_log_entry env fi operation offset length).2.log_size =
      (LOG_START_MARKER ++ (fmt_lld env.tv_sec ++ [32] ++ get_current_command env ++
          [32] ++ cstr operation ++ [32] ++ fmt_lld offset ++ [32] ++ fmt_zu length ++ [10])
          ++ LOG_END_MARKER).length ∧
    (add_log_entry env fi operation offset length).2.total_size =
      fi.data_size + (add_log_entry env fi operation offset length).2.log_size := by
  have hcmd : cstr (get_current_command env) = get_current_command env :=
    cstr_of_ne_zero _ (get_current_command_ne_zero env)
  have hline : format_log_line env.tv_sec (get_current_command env) operation offset length =
      fmt_lld env.tv_sec ++ [32] ++ get_current_command env ++ [32] ++ cstr operation ++ [32] ++
        fmt_lld offset ++ [32] ++ fmt_zu length ++ [10] := by
    simp only [format_log_line, hcmd]
  rw [← hline]
  generalize hl : format_log_line env.tv_sec (get_current_command env) operation offset length
    = line at hfmt
  have hnz : ∀ b ∈ line, b ≠ 0 := by
    rw [← hl]; exact format_log_line_ne_zero _ _ _ _ _
  have hne : line.length ≠ 0 := by
    rw [← hl]; simp [format_log_line]
  have hstr := strlen_region line hnz
  have hlen : (LOG_START_MARKER ++ line ++ LOG_END_MARKER).length = 25 + line.length + 23 := by
    simp only [List.length_append]
    rw [(by decide : LOG_START_MARKER.length = 25), (by decide : LOG_END_MARKER.length = 23)]
  have hloop := write_log_to_file_loop_spec env fi.data_size
    (LOG_START_MARKER ++ line ++ LOG_END_MARKER)
    (LOG_START_MARKER ++ line ++ LOG_END_MARKER).length hp h0 (by omega)
    (LOG_START_MARKER ++ line ++ LOG_END_MARKER).length 0 fi.pages (by omega) (by omega)
  have hnot : ¬ (line.length = 0 ∨ line.length ≥ 512) := by omega
  simp only [add_log_entry, hl, hnot, if_false, hempty, if_true, hk, write_log_to_file, hstr,
    hloop, strlen_start_marker, strlen_end_marker]
  refine ⟨trivial, trivial, trivial, ?_, ?_, ?_⟩
  · intro k hk2
    have : fi.data_size.toNat + 0 ≤ fi.data_size.toNat + k ∧ fi.data_size.toNat + k <
        fi.data_size.toNat + (LOG_START_MARKER ++ line ++ LOG_END_MARKER).length := by omega
    simp only [this, and_self, if_true, Nat.add_sub_cancel_left]
  · simp only [hlen]
  · exact s64_of_range _ (by omega) (by omega)

/-- The theorem `add_log_entry_starts_region` for the first write entry of a
fresh object: the region is 79 bytes long and starts with the byte `<`. -/
theorem add_log_entry_starts_region_witness :
    (fresh.log_size = 0 ∧
      (format_log_line env0.tv_sec (get_current_command env0) (bytes "write") 0 10).length
        < 512) ∧
    (add_log_entry env0 fresh (bytes "write") 0 10).1 = 0 ∧
    (add_log_entry env0 fresh (bytes "write") 0 10).2.log_start = 0 ∧
    (add_log_entry env0 fresh (bytes "write") 0 10).2.pages 0 = 60 ∧
    (add_log_entry env0 fresh (bytes "write") 0 10).2.log_size = 79 :=
  have h := add_log_entry_starts_region env0 fresh (bytes "write") 0 10 rfl (by decide) rfl
    (fun _ => rfl) (by decide) (by decide)
  ⟨⟨rfl, by decide⟩, h.1, h.2.1, h.2.2.2.1 0 (by decide), h.2.2.2.2.1⟩

/-! ## Reading a region back -/

theorem read_from_file_loop_spec (pages : Nat → Nat) (pos : Int) (len : Nat)
    (h0 : 0 ≤ pos) (hb : pos + len ≤ 18446744073709551616) :
    ∀ (fuel read_size : Nat) (buffer : List Nat), len - read_size ≤ fuel → read_size ≤ len →
      read_from_file_loop pages pos len fuel read_size buffer =
        buffer ++ (List.range (len - read_size)).map
          (fun k => pages (pos.toNat + read_size + k)) := by
  intro fuel
  induction fuel with
  | zero =>
    intro read_size buffer hf hc
    have : len - read_size = 0 := by omega
    simp [read_from_file_loop, this]
  | succ fuel ih =>
    intro read_size buffer hf hc
    simp only [read_from_file_loop]
    by_cases hlt : read_size < len
    · simp only [hlt, if_true]
      rw [u64_add_nat pos read_size h0 (by omega)]
      obtain ⟨hcs1, hcs2⟩ := chunk_pos len read_size (pos.toNat + read_size) hlt
      generalize min (len - read_size) (PAGE_SIZE - (pos.toNat + read_size) % PAGE_SIZE) = cs
        at hcs1 hcs2
      rw [ih (read_size + cs) _ (by omega) (by omega), List.append_assoc]
      congr 1
      have hsplit : len - read_size = cs + (len - (read_size + cs)) := by omega
      rw [hsplit, ← range_map_split]
      congr 1
      apply List.map_congr_left
      intro k _
      congr 1
      omega
    · have : len - read_size = 0 := by omega
      simp [hlt, this]

/-- What `read_from_file` returns: the `len` bytes of the page cache from `pos` on. -/
theorem read_from_file_spec (pages : Nat → Nat) (pos : Int) (len : Nat)
    (h0 : 0 ≤ pos) (hb : pos + len ≤ 18446744073709551616) :
    read_from_file pages pos len = (List.range len).map (fun k => pages (pos.toNat + k)) := by
  have h := read_from_file_loop_spec pages pos len h0 hb len 0 [] (by omega) (by omega)
  simpa [read_from_file] using h

/-- A list is what `read_from_file` returns when the page cache holds it at `pos`. -/
theorem read_from_file_eq_of_pages (pages : Nat → Nat) (pos : Int) (l : List Nat)
    (h0 : 0 ≤ pos) (hb : pos + l.length ≤ 18446744073709551616)
    (h : ∀ k, k < l.length → pages (pos.toNat + k) = l.getD k 0) :
    read_from_file pages pos l.length = l := by
  rw [read_from_file_spec pages pos l.length h0 hb]
  apply List.ext_getElem
  · simp
  · intro k h1 h2
    simp only [List.length_map, List.length_range] at h1
    simp only [List.getElem_map, List.getElem_range]
    rw [h k h1, List.getD_eq_getElem?_getD, List.getElem?_eq_getElem h1]
    rfl

theorem pages_of_read_from_file (pages : Nat → Nat) (pos : Int) (len : Nat) (l : List Nat)
    (h0 : 0 ≤ pos) (hb : pos + len ≤ 18446744073709551616)
    (h : read_from_file pages pos len = l) :
    l.length = len ∧ ∀ k, k < len → pages (pos.toNat + k) = l.getD k 0 := by
  rw [read_from_file_spec pages pos len h0 hb] at h
  subst h
  refine ⟨by simp, ?_⟩
  intro k hk
  simp [List.getD_eq_getElem?_getD, List.getElem?_map, List.getElem?_range hk]

/-! ## Searching for a marker -/

theorem find_sub_some (needle : List Nat) : ∀ (hay : List Nat) (i : Nat),
    find_sub needle hay = some i →
      needle <+: hay.drop i ∧ (∀ j, j < i → ¬ needle <+: hay.drop j) ∧ i ≤ hay.length
  | [], i, h => by
    simp only [find_sub] at h
    split at h
    · rename_i hn
      have hi : i = 0 := by simpa using h.symm
      subst hi
      subst hn
      simp
    · cases h
  | b :: rest, i, h => by
    simp only [find_sub] at h
    split at h
    · rename_i hp
      have hi : i = 0 := by simpa using h.symm
      subst hi
      refine ⟨?_, by simp, by simp⟩
      simpa [List.isPrefixOf_iff_prefix] using hp
    · rename_i hp
      cases hr : find_sub needle rest with
      | none => simp [hr] at h
      | some k =>
        simp only [hr, Option.map_some', Option.some.injEq] at h
        subst h
        obtain ⟨h1, h2, h3⟩ := find_sub_some needle rest k hr
        refine ⟨by simpa using h1, ?_, by simpa using h3⟩
        intro j hj
        cases j with
        | zero => simpa [List.isPrefixOf_iff_prefix] using hp
        | succ j => simpa using h2 j (by omega)

theorem find_sub_first (needle : List Nat) : ∀ (hay : List Nat) (i : Nat),
    needle <+: hay.drop i → (∀ j, j < i → ¬ needle <+: hay.drop j) → i ≤ hay.length →
      find_sub needle hay = some i
  | [], i, h1, _, h3 => by
    have hi : i = 0 := by simpa using h3
    subst hi
    have : needle = [] := by simpa using h1
    simp [find_sub, this]
  | b :: rest, i, h1, h2, h3 => by
    simp only [find_sub]
    cases i with
    | zero =>
      have : needle.isPrefixOf (b :: rest) = true := by
        simpa [List.isPrefixOf_iff_prefix] using h1
      simp [this]
    | succ i =>
      have h0 : ¬ needle.isPrefixOf (b :: rest) = true := by
        have := h2 0 (by omega)
        simpa [List.isPrefixOf_iff_prefix] using this
      have hr := find_sub_first needle rest i (by simpa using h1)
        (fun j hj => by simpa using h2 (j + 1) (by omega)) (by simpa using h3)
      simp [h0, hr]

theorem find_sub_none (needle : List Nat) (hay : List Nat) :
    find_sub needle hay = none ↔ ∀ j, ¬ needle <+: hay.drop j := by
  constructor
  · intro h j hp
    -- take the first occurrence
    have hex : ∃ i, needle <+: hay.drop i := ⟨j, hp⟩
    classical
    let i := Nat.find hex
    have hi : needle <+: hay.drop i := Nat.find_spec hex
    have hfirst : ∀ k, k < i → ¬ needle <+: hay.drop k := fun k hk => Nat.find_min hex hk
    by_cases hle : i ≤ hay.length
    · rw [find_sub_first needle hay i hi hfirst hle] at h
      cases h
    · have hd : hay.drop i = [] := List.drop_eq_nil_of_le (by omega)
      rw [hd] at hi
      have hn : needle = [] := by simpa using hi
      have h0 : needle <+: hay.drop 0 := by rw [hn]; exact List.nil_prefix
      have : i = 0 := by
        by_contra hne
        exact hfirst 0 (by omega) h0
      omega
  · intro h
    cases hr : find_sub needle hay with
    | none => rfl
    | some i => exact absurd (find_sub_some needle hay i hr).1 (h i)

/-- Absence in the sense of `find_sub` is absence as a contiguous sublist. -/
theorem find_sub_none_iff_not_infix (needle hay : List Nat) :
    find_sub needle hay = none ↔ ¬ needle <:+: hay := by
  rw [find_sub_none]
  constructor
  · intro h hin
    obtain ⟨s, t, hst⟩ := hin
    apply h s.length
    rw [← hst, List.append_assoc, List.drop_left]
    exact List.prefix_append _ _
  · intro h j hp
    apply h
    obtain ⟨t, ht⟩ := hp
    refine ⟨hay.take j, t, ?_⟩
    rw [List.append_assoc, ht, List.take_append_drop]

theorem cstr_append_zero (l : List Nat) (h : ∀ b ∈ l, b ≠ 0) (t : List Nat) :
    cstr (l ++ 0 :: t) = l := by
  induction l with
  | nil => simp [cstr]
  | cons b rest ih =>
    have hb : b ≠ 0 := h b (List.mem_cons_self _ _)
    have := ih (fun c hc => h c (List.mem_cons_of_mem _ hc))
    simp [cstr, hb, this]

theorem cstr_initial_segment : ∀ l : List Nat, cstr l <+: l
  | [] => by simp [cstr]
  | b :: rest => by
    by_cases hb : b = 0
    · simp [cstr, hb]
    · simp only [cstr, hb, if_false]
      exact (List.prefix_cons_inj b).2 (cstr_initial_segment rest)

theorem cstr_idem (l : List Nat) : cstr (cstr l) = cstr l :=
  cstr_of_ne_zero _ (cstr_ne_zero l)

/-! ## Decoding a region -/

theorem end_marker_take_last : ∀ m, m < 23 → 0 < m →
    (LOG_END_MARKER.take m).getLast? ≠ some 10 := by decide

/-- A text that ends with a newline and does not hold the end marker cannot
share an occurrence of the end marker with what follows it. -/
theorem no_end_marker_before (body : List Nat)
    (hfree : ∀ j, ¬ LOG_END_MARKER <+: body.drop j)
    (hnl : body ≠ [] → body.getLast? = some 10) (t : List Nat) :
    ∀ j, j < body.length → ¬ LOG_END_MARKER <+: (body ++ t).drop j := by
  intro j hj hp
  rw [List.drop_append_of_le_length (by omega)] at hp
  have hne : body ≠ [] := by
    intro h; rw [h] at hj; simp at hj
  have hlast : (body.drop j).getLast? = some 10 := by
    rw [List.getLast?_drop]
    have : ¬ body.length ≤ j := by omega
    simp [this, hnl hne]
  have hlen : (body.drop j).length = body.length - j := List.length_drop _ _
  by_cases h23 : 23 ≤ (body.drop j).length
  · have : LOG_END_MARKER <+: body.drop j :=
      List.prefix_of_prefix_length_le hp (List.prefix_append _ _) (by
        rw [(by decide : LOG_END_MARKER.length = 23)]; exact h23)
    exact hfree j this
  · have hpre : body.drop j <+: LOG_END_MARKER :=
      List.prefix_of_prefix_length_le (List.prefix_append _ _) hp (by
        rw [(by decide : LOG_END_MARKER.length = 23)]; omega)
    rw [List.prefix_iff_eq_take] at hpre
    rw [hpre] at hlast
    exact end_marker_take_last _ (by omega) (by omega) hlast

theorem find_end_marker_after (body : List Nat)
    (hfree : find_sub LOG_END_MARKER body = none)
    (hnl : body ≠ [] → body.getLast? = some 10) :
    find_sub LOG_END_MARKER (body ++ LOG_END_MARKER) = some body.length := by
  apply find_sub_first
  · rw [List.drop_left]
  · exact no_end_marker_before body ((find_sub_none _ _).1 hfree) hnl _
  · simp

theorem end_marker_free_append (body line : List Nat)
    (hfree : find_sub LOG_END_MARKER body = none)
    (hnl : body ≠ [] → body.getLast? = some 10)
    (hline : find_sub LOG_END_MARKER line = none) :
    find_sub LOG_END_MARKER (body ++ line) = none := by
  rw [find_sub_none]
  intro j
  by_cases hj : j < body.length
  · exact no_end_marker_before body ((find_sub_none _ _).1 hfree) hnl line j hj
  · have : (body ++ line).drop j = line.drop (j - body.length) := by
      rw [List.drop_append_eq_append_drop, List.drop_eq_nil_of_le (by omega)]
      rfl
    rw [this]
    exact (find_sub_none _ _).1 hline _

/-- The text that `log_text` finds in a region made of the start marker, a
text free of zero bytes and of the end marker, and the end marker. -/
theorem log_text_region (body : List Nat) (hnz : ∀ b ∈ body, b ≠ 0)
    (hfree : find_sub LOG_END_MARKER body = none)
    (hnl : body ≠ [] → body.getLast? = some 10) :
    log_text ((LOG_START_MARKER ++ body ++ LOG_END_MARKER) ++ [0]) = some body := by
  have hnzr : ∀ b ∈ LOG_START_MARKER ++ body ++ LOG_END_MARKER, b ≠ 0 := by
    intro b hb
    simp only [List.mem_append] at hb
    rcases hb with (hb | hb) | hb
    · exact (by decide : ∀ b ∈ LOG_START_MARKER, b ≠ 0) b hb
    · exact hnz b hb
    · exact (by decide : ∀ b ∈ LOG_END_MARKER, b ≠ 0) b hb
  have hnzb : ∀ b ∈ body ++ LOG_END_MARKER, b ≠ 0 := by
    intro b hb
    apply hnzr b
    simp only [List.mem_append] at hb ⊢
    tauto
  have hc : cstr ((LOG_START_MARKER ++ body ++ LOG_END_MARKER) ++ [0]) =
      LOG_START_MARKER ++ body ++ LOG_END_MARKER := cstr_append_zero _ hnzr []
  have hs : cstr LOG_START_MARKER = LOG_START_MARKER := by decide
  have he : cstr LOG_END_MARKER = LOG_END_MARKER := by decide
  have hfind : find_sub LOG_START_MARKER (LOG_START_MARKER ++ body ++ LOG_END_MARKER)
      = some 0 := by
    apply find_sub_first
    · simp only [List.drop_zero, List.append_assoc]
      exact List.prefix_append _ _
    · intro j hj; omega
    · omega
  have hdrop : (LOG_START_MARKER ++ body ++ LOG_END_MARKER).drop (0 + 25)
      = body ++ LOG_END_MARKER := by
    rw [List.append_assoc, Nat.zero_add]
    exact List.drop_left' (by decide)
  simp only [log_text, strstr, hc, hs, he, hfind, strlen_start_marker, hdrop,
    cstr_of_ne_zero _ hnzb, find_end_marker_after body hfree hnl]
  simp

/-! ## Splicing an entry into the region -/

theorem strlen_line_end (line : List Nat) (h : ∀ b ∈ line, b ≠ 0) :
    strlen (line ++ LOG_END_MARKER) = line.length + 23 := by
  unfold strlen
  rw [cstr_of_ne_zero]
  · simp only [List.length_append]
    rw [(by decide : LOG_END_MARKER.length = 23)]
  · intro b hb
    simp only [List.mem_append] at hb
    rcases hb with hb | hb
    · exact h b hb
    · exact (by decide : ∀ b ∈ LOG_END_MARKER, b ≠ 0) b hb

/-- The splice branch of `add_log_entry` on a region made of the start marker,
a body and the end marker. -/
theorem add_log_entry_splice_region (env : Env) (fi : loggerfs_file_info)
    (operation : List Nat) (offset : Int) (length : Nat) (body : List Nat)
    (hregion : read_from_file fi.pages fi.log_start fi.log_size
      = LOG_START_MARKER ++ body ++ LOG_END_MARKER)
    (hfmt : (format_log_line env.tv_sec (get_current_command env) operation offset
      length).length < 512)
    (hcap : fi.log_size + (format_log_line env.tv_sec (get_current_command env) operation
      offset length).length ≤ 4096)
    (hk : env.kmalloc_ok = true) (hp : ∀ i, env.page_ok i = true)
    (h0 : 0 ≤ fi.log_start) (hb : fi.log_start + 4096 ≤ 9223372036854775808) :
    (add_log_entry env fi operation offset length).1 = 0 ∧
    (add_log_entry env fi operation offset length).2.log_start = fi.log_start ∧
    (add_log_entry env fi operation offset length).2.log_size = fi.log_size +
      (format_log_line env.tv_sec (get_current_command env) operation offset length).length ∧
    read_from_file (add_log_entry env fi operation offset length).2.pages
        (add_log_entry env fi operation offset length).2.log_start
        (add_log_entry env fi operation offset length).2.log_size
      = LOG_START_MARKER ++ body ++
          format_log_line env.tv_sec (get_current_command env) operation offset length ++
          LOG_END_MARKER ∧
    (∀ x : Nat, (x : Int) < fi.log_start + fi.log_size - 23 →
      (add_log_entry env fi operation offset length).2.pages x = fi.pages x) ∧
    (∀ k, k < (format_log_line env.tv_sec (get_current_command env) operation offset
        length ++ LOG_END_MARKER).length →
      (add_log_entry env fi operation offset length).2.pages
          ((fi.log_start + fi.log_size - 23).toNat + k)
        = (format_log_line env.tv_sec (get_current_command env) operation offset length
            ++ LOG_END_MARKER).getD k 0) ∧
    (add_log_entry env fi operation offset length).2.data_size = fi.data_size ∧
    (add_log_entry env fi operation offset length).2.total_size
      = s64 (fi.data_size + (add_log_entry env fi operation offset length).2.log_size) ∧
    (add_log_entry env fi operation offset length).2.i_size = fi.i_size ∧
    (add_log_entry env fi operation offset length).2.backup = fi.backup := by
  generalize hl : format_log_line env.tv_sec (get_current_command env) operation offset length
    = line at hfmt hcap
  have hnz : ∀ b ∈ line, b ≠ 0 := by
    rw [← hl]; exact format_log_line_ne_zero _ _ _ _ _
  have hne : line.length ≠ 0 := by
    rw [← hl]; simp [format_log_line]
  obtain ⟨hlen, hpages⟩ := pages_of_read_from_file fi.pages fi.log_start fi.log_size _ h0
    (by omega) hregion
  have hlen2 : fi.log_size = 25 + body.length + 23 := by
    rw [← hlen]
    simp only [List.length_append]
    rw [(by decide : LOG_START_MARKER.length = 25), (by decide : LOG_END_MARKER.length = 23)]
  have hsl := strlen_line_end line hnz
  have hle : (line ++ LOG_END_MARKER).length = line.length + 23 := by
    simp only [List.length_append]
    rw [(by decide : LOG_END_MARKER.length = 23)]
  have hwp : (fi.log_start + (fi.log_size : Int) - ((23 : Nat) : Int)).toNat
      = fi.log_start.toNat + 25 + body.length := by omega
  have hloop := write_log_to_file_loop_spec env
    (fi.log_start + (fi.log_size : Int) - ((23 : Nat) : Int)) (line ++ LOG_END_MARKER)
    (line.length + 23) hp (by omega) (by omega) (line.length + 23) 0 fi.pages (by omega)
    (by omega)
  rw [hwp] at hloop
  simp only [Nat.add_zero] at hloop
  have hnot : ¬ (line.length = 0 ∨ line.length ≥ 512) := by omega
  have hnz0 : fi.log_size ≠ 0 := by omega
  have hmod : (fi.log_size + line.length) % 18446744073709551616 = fi.log_size + line.length :=
    Nat.mod_eq_of_lt (by omega)
  have hnrot : ¬ (fi.log_size + line.length > MAX_LOG_SIZE) := by
    simp only [MAX_LOG_SIZE]; omega
  have hwpos : s64 (fi.log_start + (fi.log_size : Int) - ((23 : Nat) : Int))
      = fi.log_start + (fi.log_size : Int) - ((23 : Nat) : Int) :=
    s64_of_range _ (by omega) (by omega)
  simp only [add_log_entry, hl, hnot, if_false, hnz0, hnrot, hk, if_true, write_log_to_file,
    hsl, strlen_end_marker, hwpos, hloop, hmod]
  refine ⟨trivial, trivial, trivial, ?_, ?_, ?_, trivial, trivial, trivial, trivial⟩
  · have hsb : (LOG_START_MARKER ++ body).length = 25 + body.length := by
      simp only [List.length_append]
      rw [(by decide : LOG_START_MARKER.length = 25)]
    have hassoc : LOG_START_MARKER ++ body ++ line ++ LOG_END_MARKER
        = (LOG_START_MARKER ++ body) ++ (line ++ LOG_END_MARKER) := by simp
    rw [hassoc]
    have hnew : ((LOG_START_MARKER ++ body) ++ (line ++ LOG_END_MARKER)).length
        = fi.log_size + line.length := by
      rw [List.length_append, hsb, hle]
      omega
    rw [← hnew]
    apply read_from_file_eq_of_pages _ _ _ h0 (by omega)
    intro k hk2
    rw [hnew] at hk2
    by_cases hk3 : k < 25 + body.length
    · have h1 : ¬ (fi.log_start.toNat + 25 + body.length ≤ fi.log_start.toNat + k ∧
          fi.log_start.toNat + k < fi.log_start.toNat + 25 + body.length + (line.length + 23)) :=
        by omega
      simp only [h1, if_false]
      rw [hpages k (by omega),
        List.getD_append (LOG_START_MARKER ++ body) LOG_END_MARKER 0 k (by omega),
        List.getD_append (LOG_START_MARKER ++ body) (line ++ LOG_END_MARKER) 0 k (by omega)]
    · have h1 : fi.log_start.toNat + 25 + body.length ≤ fi.log_start.toNat + k ∧
          fi.log_start.toNat + k < fi.log_start.toNat + 25 + body.length + (line.length + 23) :=
        by omega
      simp only [h1, and_self, if_true]
      rw [List.getD_append_right (LOG_START_MARKER ++ body) (line ++ LOG_END_MARKER) 0 k
        (by omega), hsb]
      congr 1
      omega
  · intro x hx
    have h1 : ¬ (fi.log_start.toNat + 25 + body.length ≤ x ∧
        x < fi.log_start.toNat + 25 + body.length + (line.length + 23)) := by omega
    simp only [h1, if_false]
  · intro k hk2
    rw [hle] at hk2
    have hwp2 : (fi.log_start + (fi.log_size : Int) - 23).toNat
        = fi.log_start.toNat + 25 + body.length := by omega
    rw [hwp2]
    have h1 : fi.log_start.toNat + 25 + body.length ≤ fi.log_start.toNat + 25 + body.length + k ∧
        fi.log_start.toNat + 25 + body.length + k
          < fi.log_start.toNat + 25 + body.length + (line.length + 23) := by omega
    simp only [h1, and_self, if_true, Nat.add_sub_cancel_left]

/-- C11.  When the log region is the start marker, a body and the end marker,
and the new line fits below 4096 bytes, `add_log_entry` returns 0, leaves
`log_start` as it is, grows `log_size` by the length of the line, and writes
the line and the end marker from byte `log_start + log_size - 23` on (23
being the length of the end marker): the region becomes the start marker,
the body, the line and the end marker, and no byte before that position
changes. -/
theorem add_log_entry_splices (env : Env) (fi : loggerfs_file_info)
    (operation : List Nat) (offset : Int) (length : Nat) (body : List Nat)
    (hregion : read_from_file fi.pages fi.log_start fi.log_size
      = LOG_START_MARKER ++ body ++ LOG_END_MARKER)
    (hfmt : (format_log_line env.tv_sec (get_current_command env) operation offset
      length).length < 512)
    (hcap : fi.log_size + (format_log_line env.tv_sec (get_current_command env) operation
      offset length).length ≤ 4096)
    (hk : env.kmalloc_ok = true) (hp : ∀ i, env.page_ok i = true)
    (h0 : 0 ≤ fi.log_start) (hb : fi.log_start + 4096 ≤ 9223372036854775808) :
    (add_log_entry env fi operation offset length).1 = 0 ∧
    (add_log_entry env fi operation offset length).2.log_start = fi.log_start ∧
    (add_log_entry env fi operation offset length).2.log_size = fi.log_size +
      (format_log_line env.tv_sec (get_current_command env) operation offset length).length ∧
    read_from_file (add_log_entry env fi operation offset length).2.pages
        (add_log_entry env fi operation offset length).2.log_start
        (add_log_entry env fi operation offset length).2.log_size
      = LOG_START_MARKER ++ body ++
          format_log_line env.tv_sec (get_current_command env) operation offset length ++
          LOG_END_MARKER ∧
    (∀ x : Nat, (x : Int) < fi.log_start + fi.log_size - 23 →
      (add_log_entry env fi operation offset length).2.pages x = fi.pages x) ∧
    (∀ k, k < (format_log_line env.tv_sec (get_current_command env) operation offset
        length ++ LOG_END_MARKER).length →
      (add_log_entry env fi operation offset length).2.pages
          ((fi.log_start + fi.log_size - 23).toNat + k)
        = (format_log_line env.tv_sec (get_current_command env) operation offset length
            ++ LOG_END_MARKER).getD k 0) ∧
    (add_log_entry env fi operation offset length).2.data_size = fi.data_size ∧
    (add_log_entry env fi operation offset length).2.total_size
      = s64 (fi.data_size + (add_log_entry env fi operation offset length).2.log_size) ∧
    (add_log_entry env fi operation offset length).2.i_size = fi.i_size ∧
    (add_log_entry env fi operation offset length).2.backup = fi.backup :=
  add_log_entry_splice_region env fi operation offset length body hregion hfmt hcap hk hp
    h0 hb

/-- The theorem `add_log_entry_splices` for a read entry added, one second
later, to the log of `overwritten_object`. -/
theorem add_log_entry_splices_witness :
    (read_from_file overwritten_object.pages overwritten_object.log_start
        overwritten_object.log_size
      = LOG_START_MARKER ++ entry_line (env0, bytes "write", 0, 1) ++ LOG_END_MARKER ∧
     overwritten_object.log_size + (entry_line (env1, bytes "read", 0, 1)).length ≤ 4096) ∧
    (add_log_entry env1 overwritten_object (bytes "read") 0 1).1 = 0 ∧
    (add_log_entry env1 overwritten_object (bytes "read") 0 1).2.log_start = 1 ∧
    (add_log_entry env1 overwritten_object (bytes "read") 0 1).2.log_size = 78 + 29 ∧
    read_from_file (add_log_entry env1 overwritten_object (bytes "read") 0 1).2.pages
        (add_log_entry env1 overwritten_object (bytes "read") 0 1).2.log_start
        (add_log_entry env1 overwritten_object (bytes "read") 0 1).2.log_size
      = LOG_START_MARKER ++ entry_line (env0, bytes "write", 0, 1) ++
          entry_line (env1, bytes "read", 0, 1) ++ LOG_END_MARKER :=
  have h := add_log_entry_splices env1 overwritten_object (bytes "read") 0 1
    (entry_line (env0, bytes "write", 0, 1)) (by decide) (by decide) (by decide) rfl
    (fun _ => rfl) (by decide) (by decide)
  ⟨⟨by decide, by decide⟩, h.1, h.2.1, h.2.2.1, h.2.2.2.1⟩

/-! ## Starting a region -/

/-- The branches of `add_log_entry` that start a region (empty log, or
rotation): the region written at `data_size`. -/
theorem add_log_entry_new_region (env : Env) (fi : loggerfs_file_info)
    (operation : List Nat) (offset : Int) (length : Nat)
    (hbranch : fi.log_size = 0 ∨ (fi.log_size + (format_log_line env.tv_sec
      (get_current_command env) operation offset length).length) % 18446744073709551616
        > 4096)
    (hfmt : (format_log_line env.tv_sec (get_current_command env) operation offset
      length).length < 512)
    (hk : env.kmalloc_ok = true) (hp : ∀ i, env.page_ok i = true)
    (h0 : 0 ≤ fi.data_size) (hb : fi.data_size + 4096 ≤ 9223372036854775808) :
    (add_log_entry env fi operation offset length).1 = 0 ∧
    (add_log_entry env fi operation offset length).2.log_start = fi.data_size ∧
    (add_log_entry env fi operation offset length).2.log_size = 25 +
      (format_log_line env.tv_sec (get_current_command env) operation offset length).length
      + 23 ∧
    read_from_file (add_log_entry env fi operation offset length).2.pages
        (add_log_entry env fi operation offset length).2.log_start
        (add_log_entry env fi operation offset length).2.log_size
      = LOG_START_MARKER ++
          format_log_line env.tv_sec (get_current_command env) operation offset length ++
          LOG_END_MARKER ∧
    (∀ x : Nat, (x : Int) < fi.data_size →
      (add_log_entry env fi operation offset length).2.pages x = fi.pages x) ∧
    (add_log_entry env fi operation offset length).2.data_size = fi.data_size ∧
    (add_log_entry env fi operation offset length).2.total_size
      = fi.data_size + (add_log_entry env fi operation offset length).2.log_size ∧
    (add_log_entry env fi operation offset length).2.i_size = fi.i_size ∧
    (add_log_entry env fi operation offset length).2.backup = fi.backup := by
  generalize hl : format_log_line env.tv_sec (get_current_command env) operation offset length
    = line at hfmt hbranch
  have hnz : ∀ b ∈ line, b ≠ 0 := by
    rw [← hl]; exact format_log_line_ne_zero _ _ _ _ _
  have hne : line.length ≠ 0 := by
    rw [← hl]; simp [format_log_line]
  have hstr := strlen_region line hnz
  have hlen : (LOG_START_MARKER ++ line ++ LOG_END_MARKER).length = 25 + line.length + 23 := by
    simp only [List.length_append]
    rw [(by decide : LOG_START_MARKER.length = 25), (by decide : LOG_END_MARKER.length = 23)]
  have hloop := write_log_to_file_loop_spec env fi.data_size
    (LOG_START_MARKER ++ line ++ LOG_END_MARKER)
    (LOG_START_MARKER ++ line ++ LOG_END_MARKER).length hp h0 (by omega)
    (LOG_START_MARKER ++ line ++ LOG_END_MARKER).length 0 fi.pages (by omega) (by omega)
  simp only [Nat.add_zero] at hloop
  have hnot : ¬ (line.length = 0 ∨ line.length ≥ 512) := by omega
  have htotal : s64 (fi.data_size + ((25 + line.length + 23 : Nat) : Int))
      = fi.data_size + ((25 + line.length + 23 : Nat) : Int) :=
    s64_of_range _ (by omega) (by omega)
  have hread : read_from_file
      (fun x => if fi.data_size.toNat ≤ x ∧
          x < fi.data_size.toNat + (LOG_START_MARKER ++ line ++ LOG_END_MARKER).length
        then (LOG_START_MARKER ++ line ++ LOG_END_MARKER).getD (x - fi.data_size.toNat) 0
        else fi.pages x) fi.data_size (25 + line.length + 23)
      = LOG_START_MARKER ++ line ++ LOG_END_MARKER := by
    rw [← hlen]
    apply read_from_file_eq_of_pages _ _ _ h0 (by omega)
    intro k hk2
    have : fi.data_size.toNat ≤ fi.data_size.toNat + k ∧ fi.data_size.toNat + k <
        fi.data_size.toNat + (LOG_START_MARKER ++ line ++ LOG_END_MARKER).length := by omega
    simp only [this, and_self, if_true, Nat.add_sub_cancel_left]
  have hframe : ∀ x : Nat, (x : Int) < fi.data_size →
      (if fi.data_size.toNat ≤ x ∧
          x < fi.data_size.toNat + (LOG_START_MARKER ++ line ++ LOG_END_MARKER).length
        then (LOG_START_MARKER ++ line ++ LOG_END_MARKER).getD (x - fi.data_size.toNat) 0
        else fi.pages x) = fi.pages x := by
    intro x hx
    have : ¬ (fi.data_size.toNat ≤ x ∧
        x < fi.data_size.toNat + (LOG_START_MARKER ++ line ++ LOG_END_MARKER).length) := by
      omega
    simp only [this, if_false]
  by_cases hz : fi.log_size = 0
  · simp only [add_log_entry, hl, hnot, if_false, hz, if_true, hk, write_log_to_file, hstr,
      hloop, strlen_start_marker, strlen_end_marker]
    exact ⟨trivial, trivial, trivial, hread, hframe, trivial, htotal, trivial, trivial⟩
  · have hrot : (fi.log_size + line.length) % 18446744073709551616 > MAX_LOG_SIZE := by
      rcases hbranch with h | h
      · exact absurd h hz
      · simpa [MAX_LOG_SIZE] using h
    simp only [add_log_entry, hl, hnot, if_false, hz, hrot, if_true, hk, write_log_to_file,
      hstr, hloop, strlen_start_marker, strlen_end_marker]
    exact ⟨trivial, trivial, trivial, hread, hframe, trivial, htotal, trivial, trivial⟩

/-! ## The size cap -/

/-- C13.  If `log_size` is at most `MAX_LOG_SIZE` (4096) before
`add_log_entry`, it is at most `MAX_LOG_SIZE` after it, in every environment:
whichever branch is taken and whether the call succeeds or fails. -/
theorem add_log_entry_log_size_le (env : Env) (fi : loggerfs_file_info)
    (operation : List Nat) (offset : Int) (length : Nat)
    (hcap : fi.log_size ≤ MAX_LOG_SIZE) :
    (add_log_entry env fi operation offset length).2.log_size ≤ MAX_LOG_SIZE := by
  simp only [MAX_LOG_SIZE] at hcap ⊢
  simp only [add_log_entry, strlen_start_marker, strlen_end_marker, MAX_LOG_SIZE]
  split
  · exact hcap
  · rename_i hfmt
    have hlt : (format_log_line env.tv_sec (get_current_command env) operation offset
        length).length < 512 := by omega
    split
    · split
      · split <;> (simp only []; omega)
      · simp only []; omega
    · split
      · split
        · split <;> (simp only []; omega)
        · simp only []; omega
      · rename_i hnrot
        split
        · split <;> (simp only []; omega)
        · exact hcap

/-- The theorem `add_log_entry_log_size_le` where the entry rotates a log of
4090 bytes. -/
theorem add_log_entry_log_size_le_witness :
    full_log_object.log_size ≤ MAX_LOG_SIZE ∧
    (add_log_entry env0 full_log_object (bytes "read") 0 1).2.log_size ≤ MAX_LOG_SIZE :=
  ⟨by decide, add_log_entry_log_size_le env0 full_log_object (bytes "read") 0 1 (by decide)⟩

/-! ## Backup retention -/

/-- C20.  When a valid backup exists whose offset is strictly smaller than
the requested offset, `backup_original_data` with a length above 0 returns 0
and leaves the object, its backup slot included, exactly as it was. -/
theorem backup_original_data_keeps_earlier (env : Env) (fi : loggerfs_file_info)
    (offset : Int) (length : Nat)
    (hv : fi.backup.is_valid = true) (hlt : fi.backup.offset < offset) (hpos : 0 < length) :
    backup_original_data env fi offset length = (0, fi) := by
  have : length ≠ 0 := by omega
  simp [backup_original_data, this, hv, hlt]

/-- The theorem `backup_original_data_keeps_earlier` for a request at offset 5
while `overwritten_object` holds a backup of offset 0. -/
theorem backup_original_data_keeps_earlier_witness :
    (overwritten_object.backup.is_valid = true ∧ overwritten_object.backup.offset < 5) ∧
    backup_original_data env0 overwritten_object 5 3 = (0, overwritten_object) :=
  ⟨by decide,
   backup_original_data_keeps_earlier env0 overwritten_object 5 3 (by decide) (by decide)
     (by decide)⟩

/-! ## Rotation -/

theorem format_log_line_last (tv_sec : Int) (command operation : List Nat) (offset : Int)
    (length : Nat) :
    (format_log_line tv_sec command operation offset length).getLast? = some 10 := by
  unfold format_log_line
  rw [List.getLast?_append]
  rfl

/-- C12 (amended).  When the log is not empty, the sum of `log_size` and the
length of the new line, taken in `size_t` (modulo `2 ^ 64`) as the code takes
it, is beyond 4096, and the line does not hold the end marker,
`add_log_entry` returns 0, restarts the region at `log_start = data_size`,
sets `log_size` to the length of the start marker plus the line plus the end
marker, and the text decoded between the markers is exactly the new line. -/
theorem add_log_entry_rotates (env : Env) (fi : loggerfs_file_info)
    (operation : List Nat) (offset : Int) (length : Nat)
    (_ : 0 < fi.log_size)
    (hrot : (fi.log_size + (format_log_line env.tv_sec (get_current_command env) operation
      offset length).length) % 18446744073709551616 > 4096)
    (hfmt : (format_log_line env.tv_sec (get_current_command env) operation offset
      length).length < 512)
    (hfree : find_sub LOG_END_MARKER (format_log_line env.tv_sec (get_current_command env)
      operation offset length) = none)
    (hk : env.kmalloc_ok = true) (hp : ∀ i, env.page_ok i = true)
    (h0 : 0 ≤ fi.data_size) (hb : fi.data_size + 4096 ≤ 9223372036854775808) :
    (add_log_entry env fi operation offset length).1 = 0 ∧
    (add_log_entry env fi operation offset length).2.log_start = fi.data_size ∧
    (add_log_entry env fi operation offset length).2.log_size =
      LOG_START_MARKER.length +
      (format_log_line env.tv_sec (get_current_command env) operation offset length).length +
      LOG_END_MARKER.length ∧
    log_text (read_from_file (add_log_entry env fi operation offset length).2.pages
        (add_log_entry env fi operation offset length).2.log_start
        (add_log_entry env fi operation offset length).2.log_size ++ [0])
      = some (format_log_line env.tv_sec (get_current_command env) operation offset length) := by
  obtain ⟨h1, h2, h3, h4, _⟩ := add_log_entry_new_region env fi operation offset length
    (Or.inr hrot) hfmt hk hp h0 hb
  refine ⟨h1, h2, ?_, ?_⟩
  · rw [h3, (by decide : LOG_START_MARKER.length = 25), (by decide : LOG_END_MARKER.length = 23)]
  · rw [h4]
    exact log_text_region _ (format_log_line_ne_zero _ _ _ _ _) hfree
      (fun _ => format_log_line_last _ _ _ _ _)

/-- The theorem `add_log_entry_rotates` for a read entry that rotates a log of
4090 bytes. -/
theorem add_log_entry_rotates_witness :
    (0 < full_log_object.log_size ∧
      (full_log_object.log_size + (entry_line (env0, bytes "read", 0, 1)).length)
        % 18446744073709551616 > 4096 ∧
      find_sub LOG_END_MARKER (entry_line (env0, bytes "read", 0, 1)) = none) ∧
    (add_log_entry env0 full_log_object (bytes "read") 0 1).2.log_size = 25 + 29 + 23 ∧
    log_text (read_from_file (add_log_entry env0 full_log_object (bytes "read") 0 1).2.pages
        (add_log_entry env0 full_log_object (bytes "read") 0 1).2.log_start
        (add_log_entry env0 full_log_object (bytes "read") 0 1).2.log_size ++ [0])
      = some (entry_line (env0, bytes "read", 0, 1)) :=
  have h := add_log_entry_rotates env0 full_log_object (bytes "read") 0 1 (by decide)
    (by decide) (by decide) (by decide) rfl (fun _ => rfl) (by decide) (by decide)
  ⟨by decide, h.2.2.1, h.2.2.2⟩

/-- C12 as stated fails: when the path of the calling executable holds the end
marker, rotation succeeds and the text decoded from the new region stops
inside the line, so it is not the new line. -/
theorem rotation_decode_stops_at_end_marker :
    0 < full_log_object.log_size ∧
    full_log_object.log_size + (entry_line (env_end_marker, bytes "read", 0, 1)).length
      > 4096 ∧
    (add_log_entry env_end_marker full_log_object (bytes "read") 0 1).1 = 0 ∧
    log_text (read_from_file
        (add_log_entry env_end_marker full_log_object (bytes "read") 0 1).2.pages
        (add_log_entry env_end_marker full_log_object (bytes "read") 0 1).2.log_start
        (add_log_entry env_end_marker full_log_object (bytes "read") 0 1).2.log_size ++ [0])
      = some (bytes "1700000000 /tmp/") ∧
    log_text (read_from_file
        (add_log_entry env_end_marker full_log_object (bytes "read") 0 1).2.pages
        (add_log_entry env_end_marker full_log_object (bytes "read") 0 1).2.log_start
        (add_log_entry env_end_marker full_log_object (bytes "read") 0 1).2.log_size ++ [0])
      ≠ some (entry_line (env_end_marker, bytes "read", 0, 1)) ∧
    entry_line (env_end_marker, bytes "read", 0, 1)
      = bytes "1700000000 /tmp/<<<LOGGERFS_LOG_END>>>\nx read 0 1\n" := by
  decide

/-! ## Entries in call order -/

/-- A run of splices on a well-formed region. -/
theorem add_log_entries_splice_run : ∀ (calls : List (Env × List Nat × Int × Nat))
    (fi : loggerfs_file_info) (body : List Nat),
    read_from_file fi.pages fi.log_start fi.log_size
      = LOG_START_MARKER ++ body ++ LOG_END_MARKER →
    (∀ b ∈ body, b ≠ 0) → find_sub LOG_END_MARKER body = none →
    (body ≠ [] → body.getLast? = some 10) →
    0 ≤ fi.log_start → fi.log_start + 4096 ≤ 9223372036854775808 → fi.log_size ≤ 4096 →
    (∀ c ∈ calls, c.1.kmalloc_ok = true ∧ (∀ i, c.1.page_ok i = true) ∧
      (entry_line c).length < 512 ∧ find_sub LOG_END_MARKER (entry_line c) = none) →
    48 + body.length + (calls.map entry_line).flatten.length ≤ 4096 →
    log_text (read_from_file (add_log_entries fi calls).pages
        (add_log_entries fi calls).log_start (add_log_entries fi calls).log_size ++ [0])
      = some (body ++ (calls.map entry_line).flatten)
  | [], fi, body, hregion, hnz, hfree, hnl, _, _, _, _, _ => by
    simp only [add_log_entries, List.map_nil, List.flatten_nil, List.append_nil]
    rw [hregion]
    exact log_text_region body hnz hfree hnl
  | c :: rest, fi, body, hregion, hnz, hfree, hnl, h0, hb, hsz, hok, hcap => by
    obtain ⟨hk, hp, hfmt, hcfree⟩ := hok c (List.mem_cons_self _ _)
    have hlen : fi.log_size = 48 + body.length := by
      have := (pages_of_read_from_file fi.pages fi.log_start fi.log_size _ h0
        (by omega) hregion).1
      simp only [List.length_append] at this
      rw [(by decide : LOG_START_MARKER.length = 25),
        (by decide : LOG_END_MARKER.length = 23)] at this
      omega
    simp only [List.map_cons, List.flatten_cons, List.length_append] at hcap
    obtain ⟨_, h2, h3, h4, _⟩ := add_log_entry_splice_region c.1 fi c.2.1 c.2.2.1 c.2.2.2 body
      hregion hfmt (by unfold entry_line at hcap; omega) hk hp h0 hb
    simp only [add_log_entries, List.map_cons, List.flatten_cons]
    rw [← List.append_assoc]
    apply add_log_entries_splice_run rest _ (body ++ entry_line c)
    · rw [h4]; simp [entry_line]
    · intro b hb2
      simp only [List.mem_append] at hb2
      rcases hb2 with hb2 | hb2
      · exact hnz b hb2
      · exact format_log_line_ne_zero _ _ _ _ _ b hb2
    · exact end_marker_free_append body _ hfree hnl hcfree
    · intro _
      rw [List.getLast?_append]
      simp [entry_line, format_log_line_last]
    · rw [h2]; exact h0
    · rw [h2]; exact hb
    · rw [h3]; unfold entry_line at hcap; omega
    · intro c2 hc2
      exact hok c2 (List.mem_cons_of_mem _ hc2)
    · simp only [List.length_append]
      unfold entry_line at hcap ⊢
      omega


/-- C16 (amended).  Starting from an empty log, after a run of calls of
`add_log_entry` whose allocations succeed, whose lines fit the line buffer
and do not hold the end marker, and which together stay within 4096 bytes (so
that none rotates), the text decoded between the markers of the region is
the concatenation of the formatted lines in call order. -/
theorem add_log_entries_in_order (fi : loggerfs_file_info)
    (calls : List (Env × List Nat × Int × Nat))
    (hempty : fi.log_size = 0)
    (h0 : 0 ≤ fi.data_size) (hb : fi.data_size + 4096 ≤ 9223372036854775808)
    (hok : ∀ c ∈ calls, c.1.kmalloc_ok = true ∧ (∀ i, c.1.page_ok i = true) ∧
      (entry_line c).length < 512 ∧ find_sub LOG_END_MARKER (entry_line c) = none)
    (hcap : 48 + (calls.map entry_line).flatten.length ≤ 4096) :
    (log_text (read_from_file (add_log_entries fi calls).pages
        (add_log_entries fi calls).log_start (add_log_entries fi calls).log_size ++ [0])).getD []
      = (calls.map entry_line).flatten := by
  cases calls with
  | nil =>
    simp only [add_log_entries, hempty, List.map_nil, List.flatten_nil]
    rfl
  | cons c rest =>
    obtain ⟨hk, hp, hfmt, hcfree⟩ := hok c (List.mem_cons_self _ _)
    simp only [List.map_cons, List.flatten_cons, List.length_append] at hcap
    obtain ⟨_, h2, h3, h4, _⟩ := add_log_entry_new_region c.1 fi c.2.1 c.2.2.1 c.2.2.2
      (Or.inl hempty) hfmt hk hp h0 hb
    simp only [add_log_entries, List.map_cons, List.flatten_cons]
    rw [add_log_entries_splice_run rest _ (entry_line c) h4
      (format_log_line_ne_zero _ _ _ _ _) hcfree
      (fun _ => format_log_line_last _ _ _ _ _)
      (by rw [h2]; exact h0) (by rw [h2]; exact hb)
      (by rw [h3]; unfold entry_line at hcap; omega)
      (fun c2 hc2 => hok c2 (List.mem_cons_of_mem _ hc2))
      (by unfold entry_line at hcap ⊢; omega)]
    rfl

/-- The theorem `add_log_entries_in_order` for a write entry followed by a read
entry. -/
theorem add_log_entries_in_order_witness :
    (fresh.log_size = 0 ∧
      48 + ([(env0, bytes "write", 0, 10), (env1, bytes "read", 0, 10)].map
        entry_line).flatten.length ≤ 4096) ∧
    (log_text (read_from_file
        (add_log_entries fresh [(env0, bytes "write", 0, 10), (env1, bytes "read", 0, 10)]).pages
        (add_log_entries fresh
          [(env0, bytes "write", 0, 10), (env1, bytes "read", 0, 10)]).log_start
        (add_log_entries fresh
          [(env0, bytes "write", 0, 10), (env1, bytes "read", 0, 10)]).log_size ++ [0])).getD []
      = bytes "1700000000 /bin/cat write 0 10\n1700000001 /bin/cat read 0 10\n" :=
  ⟨by decide,
   add_log_entries_in_order fresh [(env0, bytes "write", 0, 10), (env1, bytes "read", 0, 10)]
     rfl (by decide) (by decide)
     (by
       intro c hc
       simp only [List.mem_cons, List.mem_singleton, List.not_mem_nil, or_false] at hc
       rcases hc with hc | hc <;> subst hc <;>
         exact ⟨rfl, fun _ => rfl, by decide, by decide⟩)
     (by decide)⟩

/-- C16 as stated fails: one successful call on an empty log, made by an
executable whose path holds the end marker, leaves a region whose decoded
text is a proper beginning of the line. -/
theorem order_decode_stops_at_end_marker :
    fresh.log_size = 0 ∧
    (add_log_entry env_end_marker fresh (bytes "read") 0 1).1 = 0 ∧
    (log_text (read_from_file
        (add_log_entries fresh [(env_end_marker, bytes "read", 0, 1)]).pages
        (add_log_entries fresh [(env_end_marker, bytes "read", 0, 1)]).log_start
        (add_log_entries fresh [(env_end_marker, bytes "read", 0, 1)]).log_size ++ [0])).getD []
      = bytes "1700000000 /tmp/" ∧
    (log_text (read_from_file
        (add_log_entries fresh [(env_end_marker, bytes "read", 0, 1)]).pages
        (add_log_entries fresh [(env_end_marker, bytes "read", 0, 1)]).log_start
        (add_log_entries fresh [(env_end_marker, bytes "read", 0, 1)]).log_size ++ [0])).getD []
      ≠ ([(env_end_marker, bytes "read", 0, 1)].map entry_line).flatten := by
  decide

/-! ## Decimal text -/

theorem digits_foldl_shift (l : List Nat) : ∀ a : Nat,
    l.foldl (fun acc d => acc * 10 + (d - 48)) a =
      a * 10 ^ l.length + l.foldl (fun acc d => acc * 10 + (d - 48)) 0 := by
  induction l with
  | nil => intro a; simp
  | cons d rest ih =>
    intro a
    simp only [List.foldl_cons, List.length_cons]
    rw [ih (a * 10 + (d - 48)), ih (0 * 10 + (d - 48))]
    ring

theorem digits_value_fmt_digits : ∀ (fuel n : Nat) (acc : List Nat), n < fuel →
    digits_value (fmt_digits fuel n acc) = n * 10 ^ acc.length + digits_value acc
  | 0, n, acc, h => by omega
  | fuel + 1, n, acc, h => by
    simp only [fmt_digits]
    split
    · simp only [digits_value, List.foldl_cons]
      rw [digits_foldl_shift acc (0 * 10 + (48 + n - 48))]
      simp
    · rename_i hge
      rw [digits_value_fmt_digits fuel (n / 10) _ (by omega)]
      simp only [digits_value, List.foldl_cons, List.length_cons]
      rw [digits_foldl_shift acc (0 * 10 + (48 + n % 10 - 48))]
      have h1 : 48 + n % 10 - 48 = n % 10 := by omega
      rw [h1, pow_succ]
      have h2 := Nat.div_add_mod n 10
      have : n / 10 * (10 ^ acc.length * 10) + ((0 * 10 + n % 10) * 10 ^ acc.length +
          List.foldl (fun acc d => acc * 10 + (d - 48)) 0 acc)
          = (10 * (n / 10) + n % 10) * 10 ^ acc.length +
          List.foldl (fun acc d => acc * 10 + (d - 48)) 0 acc := by ring
      rw [this, h2]

theorem digits_value_fmt_zu (n : Nat) : digits_value (fmt_zu n) = n := by
  unfold fmt_zu
  rw [digits_value_fmt_digits (n + 1) n [] (by omega)]
  simp [digits_value]

theorem fmt_digits_isdigit : ∀ (fuel n : Nat) (acc : List Nat), (∀ b ∈ acc, isdigit b = true) →
    ∀ b ∈ fmt_digits fuel n acc, isdigit b = true
  | 0, _, acc, h => by simpa [fmt_digits] using h
  | fuel + 1, n, acc, h => by
    intro b hb
    simp only [fmt_digits] at hb
    split at hb
    · simp only [List.mem_cons] at hb
      rcases hb with hb | hb
      · subst hb
        simp only [isdigit, Bool.and_eq_true, decide_eq_true_eq]
        omega
      · exact h b hb
    · refine fmt_digits_isdigit fuel (n / 10) ((48 + n % 10) :: acc) ?_ b hb
      intro c hc
      simp only [List.mem_cons] at hc
      rcases hc with hc | hc
      · subst hc
        simp only [isdigit, Bool.and_eq_true, decide_eq_true_eq]
        omega
      · exact h c hc

theorem fmt_zu_isdigit (n : Nat) : ∀ b ∈ fmt_zu n, isdigit b = true :=
  fmt_digits_isdigit (n + 1) n [] (by simp)

theorem fmt_digits_ne_nil : ∀ (fuel n : Nat) (acc : List Nat), 0 < fuel →
    fmt_digits fuel n acc ≠ []
  | 0, _, _, h => by omega
  | fuel + 1, n, acc, _ => by
    simp only [fmt_digits]
    split
    · simp
    · rename_i hge
      cases fuel with
      | zero => simp [fmt_digits]
      | succ f => exact fmt_digits_ne_nil (f + 1) _ _ (by omega)

theorem fmt_zu_ne_nil (n : Nat) : fmt_zu n ≠ [] :=
  fmt_digits_ne_nil (n + 1) n [] (by omega)

theorem fmt_digits_length : ∀ (fuel n : Nat) (acc : List Nat) (k : Nat), n < 10 ^ k → 0 < k →
    (fmt_digits fuel n acc).length ≤ k + acc.length
  | 0, _, acc, k, _, _ => by simp [fmt_digits]
  | fuel + 1, n, acc, k, h, hk => by
    simp only [fmt_digits]
    split
    · simp only [List.length_cons]; omega
    · rename_i hge
      have hk2 : 2 ≤ k := by
        by_contra hlt
        have : k = 1 := by omega
        subst this
        simp at h
        omega
      have hdiv : n / 10 < 10 ^ (k - 1) := by
        apply Nat.div_lt_of_lt_mul
        have : 10 * 10 ^ (k - 1) = 10 ^ k := by
          rw [← pow_succ']
          congr 1
          omega
        omega
      have := fmt_digits_length fuel (n / 10) ((48 + n % 10) :: acc) (k - 1) hdiv (by omega)
      simp only [List.length_cons] at this
      omega

theorem fmt_zu_length (n : Nat) (h : n < 18446744073709551616) : (fmt_zu n).length ≤ 20 := by
  have := fmt_digits_length (n + 1) n [] 20 (by
    have : (18446744073709551616 : Nat) < 10 ^ 20 := by norm_num
    omega) (by omega)
  simpa [fmt_zu] using this

theorem fmt_lld_length (x : Int) (h0 : -9223372036854775808 ≤ x)
    (h1 : x < 9223372036854775808) : (fmt_lld x).length ≤ 20 := by
  unfold fmt_lld
  split
  · have := fmt_digits_length ((-x).toNat + 1) (-x).toNat [] 19 (by
      have : (9223372036854775808 : Nat) < 10 ^ 19 := by norm_num
      omega) (by omega)
    simp only [List.length_cons, fmt_zu]
    simp only [List.length_nil] at this
    omega
  · have := fmt_digits_length (x.toNat + 1) x.toNat [] 19 (by
      have : (9223372036854775808 : Nat) < 10 ^ 19 := by norm_num
      omega) (by omega)
    simp only [fmt_zu]
    simp only [List.length_nil] at this
    omega

/-! ## Scanning a formatted line -/

theorem isdigit_not_space (b : Nat) (h : isdigit b = true) : isspace b = false := by
  simp only [isdigit, Bool.and_eq_true, decide_eq_true_eq] at h
  simp only [isspace, Bool.or_eq_false_iff, Bool.and_eq_false_iff, decide_eq_false_iff_not]
  omega

theorem skip_spaces_of_head (tok rest : List Nat) (hne : tok ≠ [])
    (hns : ∀ b ∈ tok, isspace b = false) : skip_spaces (tok ++ rest) = tok ++ rest := by
  cases tok with
  | nil => exact absurd rfl hne
  | cons b t =>
    have hb : isspace b = false := hns b (List.mem_cons_self _ _)
    simp [skip_spaces, List.dropWhile, hb]

theorem skip_spaces_space (rest : List Nat) : skip_spaces (32 :: rest) = skip_spaces rest := by
  simp [skip_spaces, List.dropWhile, isspace]

/-- The conversion `%Ns` on a token followed by white space. -/
theorem scan_s_token (width : Nat) (tok : List Nat) (sp : Nat) (rest : List Nat)
    (hne : tok ≠ []) (hns : ∀ b ∈ tok, isspace b = false) (hsp : isspace sp = true)
    (hw : tok.length ≤ width) :
    scan_s width (tok ++ sp :: rest) = some (tok, sp :: rest) := by
  have hnil : tok ++ sp :: rest ≠ [] := by simp
  have htw : (tok ++ sp :: rest).takeWhile (fun c => !isspace c) = tok := by
    rw [List.takeWhile_append_of_pos (by
      intro a ha; simp [hns a ha])]
    simp [List.takeWhile, hsp]
  simp only [scan_s, hnil, if_false, skip_spaces_of_head tok (sp :: rest) hne hns, htw,
    List.take_of_length_le hw, List.drop_left]

theorem takeWhile_isdigit (ds : List Nat) (c : Nat) (rest : List Nat)
    (hd : ∀ b ∈ ds, isdigit b = true) (hc : isdigit c = false) :
    (ds ++ c :: rest).takeWhile isdigit = ds := by
  rw [List.takeWhile_append_of_pos hd]
  simp [List.takeWhile, hc]

/-- The conversion `%zu` on the digits of a number followed by another byte. -/
theorem scan_zu_fmt (n : Nat) (c : Nat) (rest : List Nat) (hn : n < 18446744073709551616)
    (hc : isdigit c = false) :
    scan_zu (fmt_zu n ++ c :: rest) = some (n, c :: rest) := by
  have hnil : fmt_zu n ++ c :: rest ≠ [] := by simp
  have hns : ∀ b ∈ fmt_zu n, isspace b = false :=
    fun b hb => isdigit_not_space b (fmt_zu_isdigit n b hb)
  simp only [scan_zu, hnil, if_false, skip_spaces_of_head _ (c :: rest) (fmt_zu_ne_nil n) hns,
    takeWhile_isdigit _ c rest (fmt_zu_isdigit n) hc, fmt_zu_ne_nil n, digits_value_fmt_zu,
    Nat.mod_eq_of_lt hn, List.drop_left]

/-- The conversion `%lld` on the text of a 64 bit number followed by another byte. -/
theorem scan_lld_fmt (x : Int) (c : Nat) (rest : List Nat)
    (h0 : -9223372036854775808 ≤ x) (h1 : x < 9223372036854775808)
    (hc : isdigit c = false) :
    scan_lld (fmt_lld x ++ c :: rest) = some (x, c :: rest) := by
  unfold fmt_lld
  by_cases hneg : x < 0
  · simp only [hneg, if_true]
    have hnil : 45 :: fmt_zu (-x).toNat ++ c :: rest ≠ [] := by simp
    have hskip : skip_spaces (45 :: fmt_zu (-x).toNat ++ c :: rest)
        = 45 :: (fmt_zu (-x).toNat ++ c :: rest) := by
      simp [skip_spaces, List.dropWhile, isspace]
    have hval : digits_value (fmt_zu (-x).toNat) % 18446744073709551616 = (-x).toNat := by
      rw [digits_value_fmt_zu]
      exact Nat.mod_eq_of_lt (by omega)
    simp only [scan_lld, hnil, if_false, hskip,
      takeWhile_isdigit _ c rest (fmt_zu_isdigit _) hc, fmt_zu_ne_nil, hval, List.drop_left]
    have : s64 (-(((-x).toNat : Nat) : Int)) = x := by
      rw [s64_of_range] <;> omega
    rw [this]
  · simp only [hneg, if_false]
    have hval : digits_value (fmt_zu x.toNat) % 18446744073709551616 = x.toNat := by
      rw [digits_value_fmt_zu]
      exact Nat.mod_eq_of_lt (by omega)
    have hs : s64 ((x.toNat : Nat) : Int) = x := by
      rw [s64_of_range] <;> omega
    have hdig := fmt_zu_isdigit x.toNat
    -- the first byte is a digit, not a minus sign
    cases hf : fmt_zu x.toNat with
    | nil => exact absurd hf (fmt_zu_ne_nil _)
    | cons d ds =>
      rw [hf] at hval hdig
      have hd : isdigit d = true := hdig d (by simp)
      have hd45 : d ≠ 45 := by
        intro h; rw [h] at hd; simp [isdigit] at hd
      have hns : ∀ b ∈ d :: ds, isspace b = false :=
        fun b hb => isdigit_not_space b (hdig b hb)
      have hskip := skip_spaces_of_head (d :: ds) (c :: rest) (by simp) hns
      have htw := takeWhile_isdigit (d :: ds) c rest hdig hc
      have hnil : d :: ds ++ c :: rest ≠ [] := by simp
      simp only [scan_lld, hnil, if_false, hskip]
      simp only [List.cons_append] at htw ⊢
      split
      · rename_i t heq
        have : d = 45 := List.head_eq_of_cons_eq heq
        exact absurd this hd45
      · simp only [htw, hval, hs]
        simp


theorem bytes_ops_props : ∀ op ∈ [bytes "read", bytes "write", bytes "truncate"],
    op ≠ [] ∧ (∀ b ∈ op, isspace b = false) ∧ (∀ b ∈ op, b ≠ 0) ∧ op.length ≤ 8 := by
  decide

/-- Decoding a formatted line whose command and operation are single tokens. -/
theorem parse_format_log_line (tv_sec : Int) (command operation : List Nat) (offset : Int)
    (length : Nat)
    (ht0 : -9223372036854775808 ≤ tv_sec) (ht1 : tv_sec < 9223372036854775808)
    (ho0 : -9223372036854775808 ≤ offset) (ho1 : offset < 9223372036854775808)
    (hl : length < 18446744073709551616)
    (hc1 : command ≠ []) (hc2 : ∀ b ∈ command, isspace b = false)
    (hc3 : ∀ b ∈ command, b ≠ 0) (hc4 : command.length ≤ 255)
    (hp1 : operation ≠ []) (hp2 : ∀ b ∈ operation, isspace b = false)
    (hp3 : ∀ b ∈ operation, b ≠ 0) (hp4 : operation.length ≤ 31) :
    parse_log_line (format_log_line tv_sec command operation offset length)
      = some (operation, offset, length) := by
  have hline : format_log_line tv_sec command operation offset length =
      fmt_lld tv_sec ++ 32 :: (command ++ 32 :: (operation ++ 32 ::
        (fmt_lld offset ++ 32 :: (fmt_zu length ++ 10 :: [])))) := by
    simp [format_log_line, cstr_of_ne_zero command hc3, cstr_of_ne_zero operation hp3]
  have hlen : (format_log_line tv_sec command operation offset length).length < 512 := by
    rw [hline]
    have := fmt_lld_length tv_sec ht0 ht1
    have := fmt_lld_length offset ho0 ho1
    have := fmt_zu_length length hl
    simp only [List.length_append, List.length_cons, List.length_nil]
    omega
  have hcs : cstr (format_log_line tv_sec command operation offset length)
      = format_log_line tv_sec command operation offset length :=
    cstr_of_ne_zero _ (format_log_line_ne_zero _ _ _ _ _)
  have hts_ne : fmt_lld tv_sec ≠ [] := by
    unfold fmt_lld; split
    · simp
    · exact fmt_zu_ne_nil _
  have hts_ns : ∀ b ∈ fmt_lld tv_sec, isspace b = false := by
    intro b hb
    unfold fmt_lld at hb
    split at hb
    · simp only [List.mem_cons] at hb
      rcases hb with hb | hb
      · subst hb; decide
      · exact isdigit_not_space b (fmt_zu_isdigit _ b hb)
    · exact isdigit_not_space b (fmt_zu_isdigit _ b hb)
  have hnot : ¬ ((format_log_line tv_sec command operation offset length).length ≥ 512) := by
    omega
  simp only [parse_log_line, hnot, if_false, hcs]
  rw [hline]
  rw [scan_s_token 31 (fmt_lld tv_sec) 32 _ hts_ne hts_ns (by decide)
    (by have := fmt_lld_length tv_sec ht0 ht1; omega)]
  simp only [skip_spaces_space, skip_spaces_of_head command _ hc1 hc2]
  rw [scan_s_token 255 command 32 _ hc1 hc2 (by decide) hc4]
  simp only [skip_spaces_space, skip_spaces_of_head operation _ hp1 hp2]
  rw [scan_s_token 31 operation 32 _ hp1 hp2 (by decide) hp4]
  simp only [skip_spaces_space]
  have hskip4 : skip_spaces (fmt_lld offset ++ 32 :: (fmt_zu length ++ [10]))
      = fmt_lld offset ++ 32 :: (fmt_zu length ++ [10]) := by
    apply skip_spaces_of_head
    · unfold fmt_lld; split
      · simp
      · exact fmt_zu_ne_nil _
    · intro b hb
      unfold fmt_lld at hb
      split at hb
      · simp only [List.mem_cons] at hb
        rcases hb with hb | hb
        · subst hb; decide
        · exact isdigit_not_space b (fmt_zu_isdigit _ b hb)
      · exact isdigit_not_space b (fmt_zu_isdigit _ b hb)
  rw [hskip4, scan_lld_fmt offset 32 _ ho0 ho1 (by decide)]
  simp only [skip_spaces_space]
  have hskip5 : skip_spaces (fmt_zu length ++ [10]) = fmt_zu length ++ [10] :=
    skip_spaces_of_head _ _ (fmt_zu_ne_nil _)
      (fun b hb => isdigit_not_space b (fmt_zu_isdigit _ b hb))
  rw [hskip5, scan_zu_fmt length 10 [] hl (by decide)]

/-! ## Decoding what was encoded -/

theorem cstr_append_zero_any : ∀ l : List Nat, cstr (l ++ [0]) = cstr l
  | [] => by simp [cstr]
  | b :: rest => by
    by_cases hb : b = 0
    · simp [cstr, hb]
    · simp [cstr, hb, cstr_append_zero_any rest]

/-- C18 (amended).  The decode of `READLOG` works on the C string of the
region (the bytes before its first zero byte).  It yields no text when the
region is empty or the start marker does not occur.  When the first start
marker is followed by no end marker, it yields every byte after that start
marker.  Otherwise it yields exactly the bytes between the first start marker
and the first end marker that follows it. -/
theorem readlog_decode (region : List Nat) :
    (region = [] → log_text (region ++ [0]) = none) ∧
    ((∀ j, ¬ LOG_START_MARKER <+: (cstr region).drop j) → log_text (region ++ [0]) = none) ∧
    (∀ pre rest : List Nat, cstr region = pre ++ LOG_START_MARKER ++ rest →
      (∀ j, j < pre.length → ¬ LOG_START_MARKER <+: (cstr region).drop j) →
      (∀ j, ¬ LOG_END_MARKER <+: rest.drop j) →
      log_text (region ++ [0]) = some rest) ∧
    (∀ pre text post : List Nat,
      cstr region = pre ++ LOG_START_MARKER ++ text ++ LOG_END_MARKER ++ post →
      (∀ j, j < pre.length → ¬ LOG_START_MARKER <+: (cstr region).drop j) →
      (∀ j, j < text.length → ¬ LOG_END_MARKER <+: (text ++ LOG_END_MARKER ++ post).drop j) →
      log_text (region ++ [0]) = some text) := by
  have hs : cstr LOG_START_MARKER = LOG_START_MARKER := by decide
  have he : cstr LOG_END_MARKER = LOG_END_MARKER := by decide
  have habs : (∀ j, ¬ LOG_START_MARKER <+: (cstr region).drop j) →
      log_text (region ++ [0]) = none := by
    intro h
    simp only [log_text, strstr, cstr_append_zero_any, hs, (find_sub_none _ _).2 h]
  have hfound : ∀ pre rest : List Nat, cstr region = pre ++ LOG_START_MARKER ++ rest →
      (∀ j, j < pre.length → ¬ LOG_START_MARKER <+: (cstr region).drop j) →
      find_sub LOG_START_MARKER (cstr region) = some pre.length ∧
      (cstr region).drop (pre.length + 25) = rest ∧ cstr rest = rest := by
    intro pre rest hc hfirst
    refine ⟨?_, ?_, ?_⟩
    · apply find_sub_first _ _ _ _ hfirst
      · rw [hc]; simp
      · rw [hc, List.append_assoc, List.drop_left]
        exact List.prefix_append _ _
    · rw [hc, List.append_assoc, ← List.drop_drop, List.drop_left]
      exact List.drop_left' (by decide)
    · apply cstr_of_ne_zero
      intro b hb
      apply cstr_ne_zero region b
      rw [hc]
      simp [hb]
  refine ⟨?_, habs, ?_, ?_⟩
  · intro h
    subst h
    decide
  · intro pre rest hc hfirst hnoend
    obtain ⟨h1, h2, h3⟩ := hfound pre rest hc hfirst
    simp only [log_text, strstr, cstr_append_zero_any, hs, he, h1, strlen_start_marker, h2, h3,
      (find_sub_none _ _).2 hnoend]
  · intro pre text post hc hfirst hnoend
    have hc2 : cstr region = pre ++ LOG_START_MARKER ++ (text ++ LOG_END_MARKER ++ post) := by
      rw [hc]; simp
    obtain ⟨h1, h2, h3⟩ := hfound pre _ hc2 hfirst
    have h4 : find_sub LOG_END_MARKER (text ++ LOG_END_MARKER ++ post) = some text.length := by
      apply find_sub_first _ _ _ _ hnoend
      · simp
      · rw [List.append_assoc, List.drop_left]
        exact List.prefix_append _ _
    simp only [log_text, strstr, cstr_append_zero_any, hs, he, h1, strlen_start_marker, h2, h3,
      h4]
    simp

/-- C18 as stated fails: for a region that holds the start marker and `hello`
but no end marker, the decode yields `hello`, and `READLOG` returns 5 bytes. -/
theorem readlog_without_end_marker :
    find_sub LOG_END_MARKER (LOG_START_MARKER ++ bytes "hello") = none ∧
    log_text ((LOG_START_MARKER ++ bytes "hello") ++ [0]) = some (bytes "hello") ∧
    (∃ r, loggerfs_ioctl_readlog 1 env0
        { fresh with i_size := 30,
                     pages := fun x => (LOG_START_MARKER ++ bytes "hello").getD x 0 } = some r ∧
      r.1 = 5 ∧ r.2.1 = bytes "hello") := by
  refine ⟨by decide, by decide, ?_⟩
  exact exists_of_map_decide _ _ (by decide)

/-- C14 (the code departs from the claim).  The start marker literal is 25
bytes long and the end marker literal 23, while `LOG_MARKER_LEN` is 26; a
region holding one line of 31 bytes is 25 + 31 + 23 bytes long, not
26 + 31 + 26. -/
theorem marker_lengths :
    LOG_START_MARKER.length = 25 ∧ LOG_END_MARKER.length = 23 ∧ LOG_MARKER_LEN = 26 ∧
    strlen LOG_START_MARKER = 25 ∧ strlen LOG_END_MARKER = 23 ∧
    (entry_line (env0, bytes "write", 0, 10)).length = 31 ∧
    (add_log_entry env0 fresh (bytes "write") 0 10).2.log_size = 25 + 31 + 23 ∧
    (add_log_entry env0 fresh (bytes "write") 0 10).2.log_size ≠ 26 + 31 + 26 := by
  decide

/-- C17 (the code departs from the claim).  After the write of 25 bytes `a` at
offset 0 on a fresh object the log holds the entry `write 0 25`, but neither
the read of 25 bytes nor `READLOG` returns, for any amount of fuel: both
start with the layout scan, which never ends. -/
theorem readlog_after_write_never_returns :
    ∃ w, loggerfs_write 1 env0 fresh 0 (List.replicate 25 97) 25 = some w ∧
      w.ret = 25 ∧ last_write w.fi = some (0, 25) ∧
      (∀ fuel, loggerfs_read fuel env0 w.fi 0 25 = none) ∧
      (∀ fuel, loggerfs_ioctl_readlog fuel env0 w.fi = none) := by
  obtain ⟨w, hw, h1, h2, h3, h4⟩ := exists_of_map_decide
    (loggerfs_write 1 env0 fresh 0 (List.replicate 25 97) 25)
    (fun w => w.ret = 25 ∧ last_write w.fi = some (0, 25) ∧ w.fi.i_size = 25 ∧
      strstr (read_from_file w.fi.pages (25 - 25) 25 ++ [0]) LOG_START_MARKER = none)
    (by decide)
  have hstall : ∀ fuel, find_log_start_loop w.fi.pages 25 fuel 0 = none := by
    intro fuel
    have := find_log_start_loop_stall w.fi.pages 25 (by decide) (by decide) h4 fuel
    simpa using this
  refine ⟨w, hw, h1, h2, ?_, ?_⟩
  · intro fuel
    simp only [loggerfs_read, init_file_info_from_disk, find_log_start, h3, hstall]
  · intro fuel
    simp only [loggerfs_ioctl_readlog, init_file_info_from_disk, find_log_start, h3, hstall]

theorem get_current_command_length (env : Env) : (get_current_command env).length ≤ 255 := by
  unfold get_current_command
  cases env.task with
  | no_mm => decide
  | no_path_buf => decide
  | no_exe_file => decide
  | d_path_error => decide
  | d_path pathname => simp [List.length_take]

/-- Where the layout scan does return, `READLOG` still shows nothing: `i_size`
does not cover the log, so `init_file_info_from_disk` resets `log_size` to 0.
After a truncation to 0 of a fresh object the log holds a truncate entry and
`READLOG` returns 0. -/
theorem readlog_after_truncate_is_empty :
    ∃ r, (loggerfs_setattr 1 env0 fresh (some 0)).bind
        (fun t => (loggerfs_ioctl_readlog 1 env0 t.2).map (fun q => (t, q))) = some r ∧
      log_text (read_from_file r.1.2.pages r.1.2.log_start r.1.2.log_size ++ [0])
        = some (entry_line (env0, bytes "truncate", 0, 0)) ∧
      r.2.1 = 0 ∧ r.2.2.1 = [] :=
  exists_of_map_decide _ _ (by decide)

/-- C15 (amended).  For a 64 bit timestamp, a command returned by
`get_current_command` that is not empty and holds no white space, an
operation among `read`, `write` and `truncate`, a 64 bit offset and a 64 bit
length, `parse_log_line` applied to the formatted line succeeds and returns
the same operation, offset and length. -/
theorem parse_log_line_undoes_format (env : Env) (operation : List Nat) (offset : Int)
    (length : Nat)
    (ht0 : -9223372036854775808 ≤ env.tv_sec) (ht1 : env.tv_sec < 9223372036854775808)
    (ho0 : -9223372036854775808 ≤ offset) (ho1 : offset < 9223372036854775808)
    (hl : length < 18446744073709551616)
    (hop : operation = bytes "read" ∨ operation = bytes "write" ∨
      operation = bytes "truncate")
    (hc1 : get_current_command env ≠ [])
    (hc2 : ∀ b ∈ get_current_command env, isspace b = false) :
    parse_log_line (format_log_line env.tv_sec (get_current_command env) operation offset
      length) = some (operation, offset, length) := by
  have hprops := bytes_ops_props operation (by
    simp only [List.mem_cons, List.mem_singleton, List.not_mem_nil, or_false]
    exact hop)
  exact parse_format_log_line env.tv_sec (get_current_command env) operation offset length
    ht0 ht1 ho0 ho1 hl hc1 hc2 (get_current_command_ne_zero env)
    (get_current_command_length env) hprops.1 hprops.2.1 hprops.2.2.1 (by
      have := hprops.2.2.2; omega)

/-- The theorem `parse_log_line_undoes_format` for a write entry with a
negative offset and the largest length. -/
theorem parse_log_line_undoes_format_witness :
    (get_current_command env0 ≠ [] ∧ ∀ b ∈ get_current_command env0, isspace b = false) ∧
    parse_log_line (format_log_line env0.tv_sec (get_current_command env0) (bytes "write")
      (-5) 18446744073709551615) = some (bytes "write", -5, 18446744073709551615) :=
  ⟨by decide,
   parse_log_line_undoes_format env0 (bytes "write") (-5) 18446744073709551615 (by decide)
     (by decide) (by decide) (by decide) (by decide) (Or.inr (Or.inl rfl)) (by decide)
     (by decide)⟩

/-- C15 as stated fails: for the command `/tmp/a b` (8 bytes, one blank) the
line formatted for a write entry is not decoded, `parse_log_line` returns
`-EINVAL`. -/
theorem parse_fails_on_command_with_blank :
    get_current_command env_space = bytes "/tmp/a b" ∧
    (get_current_command env_space).length ≤ 255 ∧
    format_log_line env_space.tv_sec (get_current_command env_space) (bytes "write") 0 10
      = bytes "1700000000 /tmp/a b write 0 10\n" ∧
    parse_log_line (format_log_line env_space.tv_sec (get_current_command env_space)
      (bytes "write") 0 10) = none := by
  decide

/-! ## The file operations and the log -/

theorem init_file_info_from_disk_layout (fuel : Nat) (fi0 fi : loggerfs_file_info)
    (h : init_file_info_from_disk fuel fi0 = some fi) :
    fi.log_start = fi.data_size ∧ fi.i_size = fi.data_size ∧ fi.pages = fi0.pages ∧
    fi.backup = fi0.backup := by
  unfold init_file_info_from_disk at h
  cases hf : find_log_start fuel fi0 with
  | none => simp [hf] at h
  | some p =>
    simp only [hf] at h
    split at h
    · split at h
      · have := Option.some.inj h; subst this; exact ⟨rfl, rfl, rfl, rfl⟩
      · rename_i hne
        have := Option.some.inj h; subst this
        refine ⟨rfl, ?_, rfl, rfl⟩
        simp only [ne_eq, Decidable.not_not] at hne
        exact hne
    · have := Option.some.inj h; subst this; exact ⟨rfl, rfl, rfl, rfl⟩

theorem backup_original_data_frame (env : Env) (fi : loggerfs_file_info) (o : Int) (k : Nat) :
    (backup_original_data env fi o k).2.pages = fi.pages ∧
    (backup_original_data env fi o k).2.data_size = fi.data_size ∧
    (backup_original_data env fi o k).2.log_start = fi.log_start ∧
    (backup_original_data env fi o k).2.log_size = fi.log_size ∧
    (backup_original_data env fi o k).2.total_size = fi.total_size ∧
    (backup_original_data env fi o k).2.i_size = fi.i_size := by
  unfold backup_original_data
  split
  · exact ⟨rfl, rfl, rfl, rfl, rfl, rfl⟩
  · split
    · exact ⟨rfl, rfl, rfl, rfl, rfl, rfl⟩
    · split <;> exact ⟨rfl, rfl, rfl, rfl, rfl, rfl⟩

theorem loggerfs_read_loop_spec (env : Env) (pages : Nat → Nat) (pos : Int) (count : Nat)
    (hok : ∀ i, env.user_ok i = true)
    (h0 : 0 ≤ pos) (hb : pos + count ≤ 18446744073709551616) :
    ∀ (fuel copied : Nat) (buf : List Nat), count - copied ≤ fuel → copied ≤ count →
      loggerfs_read_loop env pages pos count fuel copied buf =
        (count, buf ++ (List.range (count - copied)).map
          (fun k => pages (pos.toNat + copied + k)), false) := by
  intro fuel
  induction fuel with
  | zero =>
    intro copied buf hf hc
    have h1 : count - copied = 0 := by omega
    have h2 : copied = count := by omega
    simp [loggerfs_read_loop, h1, h2]
  | succ fuel ih =>
    intro copied buf hf hc
    simp only [loggerfs_read_loop]
    by_cases hlt : copied < count
    · simp only [hlt, if_true, hok]
      rw [u64_add_nat pos copied h0 (by omega)]
      obtain ⟨hcs1, hcs2⟩ := chunk_pos count copied (pos.toNat + copied) hlt
      generalize min (count - copied) (PAGE_SIZE - (pos.toNat + copied) % PAGE_SIZE) = cs
        at hcs1 hcs2
      rw [ih (copied + cs) _ (by omega) (by omega), List.append_assoc]
      refine Prod.ext rfl (Prod.ext ?_ rfl)
      simp only
      have hsplit : count - copied = cs + (count - (copied + cs)) := by omega
      rw [hsplit, ← range_map_split]
      congr 2
      apply List.map_congr_left
      intro k _
      congr 1
      omega
    · have h1 : count - copied = 0 := by omega
      have h2 : copied = count := by omega
      simp [hlt, h1, h2]

theorem loggerfs_write_loop_spec (env : Env) (pos : Int) (buf : List Nat) (count : Nat)
    (hok : ∀ i, env.page_ok i = true ∧ env.user_ok i = true)
    (h0 : 0 ≤ pos) (hb : pos + count ≤ 18446744073709551616) :
    ∀ (fuel copied : Nat) (pages : Nat → Nat), count - copied ≤ fuel → copied ≤ count →
      loggerfs_write_loop env pos buf count fuel copied pages =
        (count, (fun x => if pos.toNat + copied ≤ x ∧ x < pos.toNat + count
                     then buf.getD (x - pos.toNat) 0 else pages x), none) := by
  intro fuel
  induction fuel with
  | zero =>
    intro copied pages hf hc
    have h2 : copied = count := by omega
    subst h2
    simp only [loggerfs_write_loop]
    congr 2
    funext x
    have : ¬ (pos.toNat + copied ≤ x ∧ x < pos.toNat + copied) := by omega
    simp [this]
  | succ fuel ih =>
    intro copied pages hf hc
    simp only [loggerfs_write_loop]
    by_cases hlt : copied < count
    · simp only [hlt, if_true, (hok _).1, (hok _).2]
      rw [u64_add_nat pos copied h0 (by omega)]
      obtain ⟨hcs1, hcs2⟩ := chunk_pos count copied (pos.toNat + copied) hlt
      generalize min (count - copied) (PAGE_SIZE - (pos.toNat + copied) % PAGE_SIZE) = cs
        at hcs1 hcs2
      rw [ih (copied + cs) _ (by omega) (by omega)]
      congr 2
      funext x
      exact put_chunk_then_rest pages buf pos.toNat copied cs count (by omega) x
    · have h2 : copied = count := by omega
      subst h2
      simp only [lt_irrefl, if_false]
      congr 2
      funext x
      have : ¬ (pos.toNat + copied ≤ x ∧ x < pos.toNat + copied) := by omega
      simp [this]

theorem read_from_file_congr (p1 p2 : Nat → Nat) (pos : Int) (len : Nat)
    (h0 : 0 ≤ pos) (hb : pos + len ≤ 18446744073709551616)
    (h : ∀ k, k < len → p1 (pos.toNat + k) = p2 (pos.toNat + k)) :
    read_from_file p1 pos len = read_from_file p2 pos len := by
  rw [read_from_file_spec p1 pos len h0 hb, read_from_file_spec p2 pos len h0 hb]
  apply List.map_congr_left
  intro k hk
  exact h k (List.mem_range.1 hk)

/-- The length of a formatted line. -/
theorem format_log_line_length (tv_sec : Int) (command operation : List Nat) (offset : Int)
    (length : Nat)
    (ht0 : -9223372036854775808 ≤ tv_sec) (ht1 : tv_sec < 9223372036854775808)
    (ho0 : -9223372036854775808 ≤ offset) (ho1 : offset < 9223372036854775808)
    (hl : length < 18446744073709551616) :
    (format_log_line tv_sec command operation offset length).length
      ≤ 65 + (cstr command).length + (cstr operation).length := by
  have := fmt_lld_length tv_sec ht0 ht1
  have := fmt_lld_length offset ho0 ho1
  have := fmt_zu_length length hl
  simp only [format_log_line, List.length_append, List.length_cons, List.length_nil]
  omega

theorem line_fits (env : Env) (operation : List Nat) (offset : Int) (length : Nat)
    (ht0 : -9223372036854775808 ≤ env.tv_sec) (ht1 : env.tv_sec < 9223372036854775808)
    (ho0 : -9223372036854775808 ≤ offset) (ho1 : offset < 9223372036854775808)
    (hl : length < 18446744073709551616)
    (hop : operation = bytes "read" ∨ operation = bytes "write" ∨
      operation = bytes "truncate") :
    (format_log_line env.tv_sec (get_current_command env) operation offset length).length
      ≤ 328 := by
  have h := format_log_line_length env.tv_sec (get_current_command env) operation offset length
    ht0 ht1 ho0 ho1 hl
  rw [cstr_of_ne_zero _ (get_current_command_ne_zero env)] at h
  have hc := get_current_command_length env
  have ho : (cstr operation).length ≤ 8 := by
    rcases hop with h | h | h <;> subst h <;> decide
  omega

/-- `loggerfs_read` keeps the entries of a resolved log. -/
theorem loggerfs_read_keeps_log (fuel : Nat) (env : Env) (fi0 fi : loggerfs_file_info)
    (body : List Nat) (pos : Int) (count : Nat)
    (hinit : init_file_info_from_disk fuel fi0 = some fi)
    (hregion : read_from_file fi.pages fi.log_start fi.log_size
      = LOG_START_MARKER ++ body ++ LOG_END_MARKER)
    (hk : env.kmalloc_ok = true) (hp : ∀ i, env.page_ok i = true)
    (hu : ∀ i, env.user_ok i = true)
    (ht0 : -9223372036854775808 ≤ env.tv_sec) (ht1 : env.tv_sec < 9223372036854775808)
    (hroom : fi.log_size + 328 ≤ 4096)
    (hb : fi.data_size + 4096 ≤ 9223372036854775808)
    (hpos : 0 ≤ pos) (hlt : pos < fi.data_size) (hcount : 0 < count)
    (hcmax : (count : Int) < 9223372036854775808) :
    ∃ r, loggerfs_read fuel env fi0 pos count = some r ∧ 0 < r.ret ∧
      read_from_file r.fi.pages r.fi.log_start r.fi.log_size
        = LOG_START_MARKER ++ body ++
            format_log_line env.tv_sec (get_current_command env) (bytes "read") pos
              r.ret.toNat ++ LOG_END_MARKER := by
  obtain ⟨hls, _, _, _⟩ := init_file_info_from_disk_layout fuel fi0 fi hinit
  have hge : ¬ (pos ≥ fi.data_size) := by omega
  simp only [loggerfs_read, hinit, hge, if_false]
  generalize hcdef : (if u64 (pos + (count : Int)) > u64 fi.data_size
    then u64 (fi.data_size - pos) else count) = n
  have hn : 0 < n ∧ (n : Int) ≤ fi.data_size - pos ∨ (0 < n ∧ n = count ∧
      pos + count ≤ fi.data_size) := by
    rw [← hcdef]
    rw [u64_of_nonneg (pos + count) (by omega) (by omega),
      u64_of_nonneg fi.data_size (by omega) (by omega),
      u64_of_nonneg (fi.data_size - pos) (by omega) (by omega)]
    split
    · left; omega
    · right; refine ⟨hcount, rfl, ?_⟩; omega
  have hn0 : n ≠ 0 := by omega
  have hnb : pos + (n : Int) ≤ fi.data_size := by omega
  have hloop := loggerfs_read_loop_spec env fi.pages pos n hu hpos (by omega) n 0 []
    (by omega) (by omega)
  simp only [hn0, if_false, hloop]
  have hret : ((n : Nat) : Int) > 0 := by omega
  simp only [Bool.false_eq_true, false_and, if_false, hret, if_true, Int.toNat_ofNat]
  have hfit := line_fits env (bytes "read") pos n ht0 ht1 (by omega) (by omega) (by omega)
    (Or.inl rfl)
  obtain ⟨_, _, _, h4, _⟩ := add_log_entry_splice_region env fi (bytes "read") pos n body hregion
    (by omega) (by omega) hk hp (by omega) (by omega)
  refine ⟨_, rfl, ?_, ?_⟩
  · with_reducible exact hret
  · simp only [Int.toNat_ofNat]
    with_reducible exact h4

/-- `loggerfs_write` inside the data keeps the entries of a resolved log. -/
theorem loggerfs_write_inside_keeps_log (fuel : Nat) (env : Env)
    (fi0 fi : loggerfs_file_info) (body : List Nat) (pos : Int) (buf : List Nat) (count : Nat)
    (hinit : init_file_info_from_disk fuel fi0 = some fi)
    (hregion : read_from_file fi.pages fi.log_start fi.log_size
      = LOG_START_MARKER ++ body ++ LOG_END_MARKER)
    (hk : env.kmalloc_ok = true) (hp : ∀ i, env.page_ok i = true)
    (hu : ∀ i, env.user_ok i = true)
    (ht0 : -9223372036854775808 ≤ env.tv_sec) (ht1 : env.tv_sec < 9223372036854775808)
    (hroom : fi.log_size + 328 ≤ 4096)
    (hb : fi.data_size + 4096 ≤ 9223372036854775808)
    (hpos : 0 ≤ pos) (hcount : 0 < count) (hin : pos + count ≤ fi.data_size) :
    ∃ w, loggerfs_write fuel env fi0 pos buf count = some w ∧ w.ret = count ∧
      read_from_file w.fi.pages w.fi.log_start w.fi.log_size
        = LOG_START_MARKER ++ body ++
            format_log_line env.tv_sec (get_current_command env) (bytes "write") pos count
            ++ LOG_END_MARKER := by
  obtain ⟨hls, _, _, _⟩ := init_file_info_from_disk_layout fuel fi0 fi hinit
  have hlt : pos < fi.data_size := by omega
  obtain ⟨hb1, hb2, hb3, hb4, _, _⟩ := backup_original_data_frame env fi pos
    (min count (u64 (fi.data_size - pos)))
  generalize hfi1 : (backup_original_data env fi pos
    (min count (u64 (fi.data_size - pos)))).2 = fi1 at hb1 hb2 hb3 hb4
  have hloop := loggerfs_write_loop_spec env pos buf count (fun i => ⟨hp i, hu i⟩) hpos
    (by omega) count 0 fi1.pages (by omega) (by omega)
  simp only [Nat.add_zero] at hloop
  have hngt : ¬ (pos > fi1.data_size) := by rw [hb2]; omega
  have hret : ((count : Nat) : Int) > 0 := by omega
  have hnext : ¬ (pos + (count : Int) > fi1.data_size) := by rw [hb2]; omega
  simp only [loggerfs_write, hinit, hlt, if_true, hfi1, hngt, if_false, hloop, hret, hnext,
    Int.toNat_ofNat]
  -- the region is not touched by the data written
  have hregion1 : read_from_file
      (fun x => if pos.toNat ≤ x ∧ x < pos.toNat + count then buf.getD (x - pos.toNat) 0
        else fi1.pages x) fi1.log_start fi1.log_size
      = LOG_START_MARKER ++ body ++ LOG_END_MARKER := by
    rw [← hregion, hb3, hb4, ← hb1]
    apply read_from_file_congr _ _ _ _ (by omega) (by omega)
    intro k _
    have : ¬ (pos.toNat ≤ fi.log_start.toNat + k ∧ fi.log_start.toNat + k < pos.toNat + count) :=
      by omega
    simp only [this, if_false]
  have hfit := line_fits env (bytes "write") pos count ht0 ht1 (by omega) (by omega)
    (by omega) (Or.inr (Or.inl rfl))
  obtain ⟨_, h2, h3, h4, _⟩ := add_log_entry_splice_region env
    { fi1 with pages := fun x => if pos.toNat ≤ x ∧ x < pos.toNat + count
        then buf.getD (x - pos.toNat) 0 else fi1.pages x }
    (bytes "write") pos count body hregion1
    (by omega) (by simp only []; rw [hb4]; omega) hk hp
    (by simp only []; rw [hb3]; omega) (by simp only []; rw [hb3]; omega)
  refine ⟨_, rfl, ?_, ?_⟩
  · with_reducible rfl
  · with_reducible exact h4

/-- `loggerfs_write` beyond the data clears the log: only the new entry is left. -/
theorem loggerfs_write_beyond_clears_log (fuel : Nat) (env : Env)
    (fi0 fi : loggerfs_file_info) (pos : Int) (buf : List Nat) (count : Nat)
    (hinit : init_file_info_from_disk fuel fi0 = some fi)
    (hk : env.kmalloc_ok = true) (hp : ∀ i, env.page_ok i = true)
    (hu : ∀ i, env.user_ok i = true)
    (ht0 : -9223372036854775808 ≤ env.tv_sec) (ht1 : env.tv_sec < 9223372036854775808)
    (hd0 : 0 ≤ fi.data_size) (hcount : 0 < count) (hgt : pos > fi.data_size)
    (hb : pos + count + 4096 ≤ 9223372036854775808) :
    ∃ w, loggerfs_write fuel env fi0 pos buf count = some w ∧ w.ret = count ∧
      read_from_file w.fi.pages w.fi.log_start w.fi.log_size
        = LOG_START_MARKER ++
            format_log_line env.tv_sec (get_current_command env) (bytes "write") pos count
            ++ LOG_END_MARKER := by
  have hlt : ¬ (pos < fi.data_size) := by omega
  have hloop := loggerfs_write_loop_spec env pos buf count (fun i => ⟨hp i, hu i⟩) (by omega)
    (by omega) count 0 (truncate_inode_pages fi.pages fi.data_size) (by omega) (by omega)
  simp only [Nat.add_zero] at hloop
  have hret : ((count : Nat) : Int) > 0 := by omega
  have hnext : pos + (count : Int) > fi.data_size := by omega
  simp only [loggerfs_write, hinit, hlt, if_false, hgt, if_true, hloop, hret, hnext,
    Int.toNat_ofNat]
  have hfit := line_fits env (bytes "write") pos count ht0 ht1 (by omega) (by omega)
    (by omega) (Or.inr (Or.inl rfl))
  obtain ⟨_, _, _, h4, _⟩ := add_log_entry_new_region env
    ⟨fi.i_size, (fun x => if pos.toNat ≤ x ∧ x < pos.toNat + count
        then buf.getD (x - pos.toNat) 0 else truncate_inode_pages fi.pages fi.data_size x),
      pos + count, pos + count, 0, fi.data_size, fi.backup⟩
    (bytes "write") pos count (Or.inl rfl) (by omega) hk hp (by simp only []; omega)
    (by simp only []; omega)
  refine ⟨_, rfl, ?_, ?_⟩
  · with_reducible rfl
  · with_reducible exact h4

/-- `loggerfs_setattr` with a new size clears the log: only the new entry is left. -/
theorem loggerfs_setattr_clears_log (fuel : Nat) (env : Env)
    (fi0 fi : loggerfs_file_info) (new_size : Int)
    (hinit : init_file_info_from_disk fuel fi0 = some fi)
    (hk : env.kmalloc_ok = true) (hp : ∀ i, env.page_ok i = true)
    (ht0 : -9223372036854775808 ≤ env.tv_sec) (ht1 : env.tv_sec < 9223372036854775808)
    (hn0 : 0 ≤ new_size) (hb : new_size + 4096 ≤ 9223372036854775808) :
    ∃ r, loggerfs_setattr fuel env fi0 (some new_size) = some r ∧ r.1 = 0 ∧
      read_from_file r.2.pages r.2.log_start r.2.log_size
        = LOG_START_MARKER ++
            format_log_line env.tv_sec (get_current_command env) (bytes "truncate") new_size 0
            ++ LOG_END_MARKER := by
  simp only [loggerfs_setattr, hinit]
  have hfit := line_fits env (bytes "truncate") new_size 0 ht0 ht1 (by omega) (by omega)
    (by omega) (Or.inr (Or.inr rfl))
  generalize (if new_size < fi.data_size then
    (backup_original_data env fi new_size (u64 (fi.data_size - new_size))).2 else fi) = fi1
  obtain ⟨_, _, _, h4, _⟩ := add_log_entry_new_region env
    ⟨new_size, truncate_inode_pages fi1.pages new_size, new_size, new_size, 0, new_size,
      fi1.backup⟩
    (bytes "truncate") new_size 0 (Or.inl rfl) (by omega) hk hp (by simp only []; omega)
    (by simp only []; omega)
  refine ⟨_, rfl, ?_, ?_⟩
  · with_reducible rfl
  · with_reducible exact h4

/-- C19 (amended).  Let `init_file_info_from_disk` resolve the layout of an
object.  If the resolved log region is the start marker, a body and the end
marker, with room for one more line, then a `loggerfs_read` that returns
bytes and a `loggerfs_write` that lies inside the data leave the body in the
log, followed by the new entry.  A `loggerfs_write` that starts beyond
`data_size` and a `loggerfs_setattr` with a new size clear the log: the region
holds the new entry only. -/
theorem log_kept_or_cleared (fuel : Nat) (env : Env) (fi0 fi : loggerfs_file_info)
    (hinit : init_file_info_from_disk fuel fi0 = some fi)
    (hk : env.kmalloc_ok = true) (hp : ∀ i, env.page_ok i = true)
    (hu : ∀ i, env.user_ok i = true)
    (ht0 : -9223372036854775808 ≤ env.tv_sec) (ht1 : env.tv_sec < 9223372036854775808)
    (hd0 : 0 ≤ fi.data_size) (hb : fi.data_size + 4096 ≤ 9223372036854775808) :
    (∀ (body : List Nat) (pos : Int) (count : Nat),
      read_from_file fi.pages fi.log_start fi.log_size
        = LOG_START_MARKER ++ body ++ LOG_END_MARKER →
      fi.log_size + 328 ≤ 4096 → 0 ≤ pos → pos < fi.data_size → 0 < count →
      (count : Int) < 9223372036854775808 →
      ∃ r, loggerfs_read fuel env fi0 pos count = some r ∧ 0 < r.ret ∧
        read_from_file r.fi.pages r.fi.log_start r.fi.log_size
          = LOG_START_MARKER ++ body ++
              format_log_line env.tv_sec (get_current_command env) (bytes "read") pos
                r.ret.toNat ++ LOG_END_MARKER) ∧
    (∀ (body : List Nat) (pos : Int) (buf : List Nat) (count : Nat),
      read_from_file fi.pages fi.log_start fi.log_size
        = LOG_START_MARKER ++ body ++ LOG_END_MARKER →
      fi.log_size + 328 ≤ 4096 → 0 ≤ pos → 0 < count → pos + count ≤ fi.data_size →
      ∃ w, loggerfs_write fuel env fi0 pos buf count = some w ∧ w.ret = count ∧
        read_from_file w.fi.pages w.fi.log_start w.fi.log_size
          = LOG_START_MARKER ++ body ++
              format_log_line env.tv_sec (get_current_command env) (bytes "write") pos count
              ++ LOG_END_MARKER) ∧
    (∀ (pos : Int) (buf : List Nat) (count : Nat),
      0 < count → pos > fi.data_size → pos + count + 4096 ≤ 9223372036854775808 →
      ∃ w, loggerfs_write fuel env fi0 pos buf count = some w ∧ w.ret = count ∧
        read_from_file w.fi.pages w.fi.log_start w.fi.log_size
          = LOG_START_MARKER ++
              format_log_line env.tv_sec (get_current_command env) (bytes "write") pos count
              ++ LOG_END_MARKER) ∧
    (∀ new_size : Int, 0 ≤ new_size → new_size + 4096 ≤ 9223372036854775808 →
      ∃ r, loggerfs_setattr fuel env fi0 (some new_size) = some r ∧ r.1 = 0 ∧
        read_from_file r.2.pages r.2.log_start r.2.log_size
          = LOG_START_MARKER ++
              format_log_line env.tv_sec (get_current_command env) (bytes "truncate")
                new_size 0 ++ LOG_END_MARKER) :=
  ⟨fun body pos count hregion hroom hpos hlt hcount hcmax =>
      loggerfs_read_keeps_log fuel env fi0 fi body pos count hinit hregion hk hp hu ht0 ht1
        hroom hb hpos hlt hcount hcmax,
   fun body pos buf count hregion hroom hpos hcount hin =>
      loggerfs_write_inside_keeps_log fuel env fi0 fi body pos buf count hinit hregion hk hp hu
        ht0 ht1 hroom hb hpos hcount hin,
   fun pos buf count hcount hgt hbb =>
      loggerfs_write_beyond_clears_log fuel env fi0 fi pos buf count hinit hk hp hu ht0 ht1
        hd0 hcount hgt hbb,
   fun new_size hn0 hnb =>
      loggerfs_setattr_clears_log fuel env fi0 fi new_size hinit hk hp ht0 ht1 hn0 hnb⟩

/-- The theorem `log_kept_or_cleared` on `disk_object`: a read of its byte keeps
the write entry, a truncation to 0 leaves the truncate entry alone. -/
theorem log_kept_or_cleared_witness :
    init_file_info_from_disk 1 disk_object = some resolved_disk_object ∧
    (∃ r, loggerfs_read 1 env1 disk_object 0 1 = some r ∧ 0 < r.ret ∧
      read_from_file r.fi.pages r.fi.log_start r.fi.log_size
        = LOG_START_MARKER ++ entry_line (env0, bytes "write", 0, 1) ++
            format_log_line env1.tv_sec (get_current_command env1) (bytes "read") 0
              r.ret.toNat ++ LOG_END_MARKER) ∧
    (∃ r, loggerfs_setattr 1 env1 disk_object (some 0) = some r ∧ r.1 = 0 ∧
      read_from_file r.2.pages r.2.log_start r.2.log_size
        = LOG_START_MARKER ++
            format_log_line env1.tv_sec (get_current_command env1) (bytes "truncate") 0 0
            ++ LOG_END_MARKER) :=
  have h := log_kept_or_cleared 1 env1 disk_object resolved_disk_object rfl rfl
    (fun _ => rfl) (fun _ => rfl) (by decide) (by decide) (by decide) (by decide)
  ⟨rfl,
   h.1 (entry_line (env0, bytes "write", 0, 1)) 0 1 (by decide) (by decide) (by decide)
     (by decide) (by decide) (by decide),
   h.2.2.2 0 (by decide) (by decide)⟩

/-- C19 as stated fails: the log of `disk_object` holds one write entry; after
a write at offset 5, beyond `data_size = 1`, and after a truncation to 0, the
log holds only the new entry, though no rotation takes place. -/
theorem write_beyond_and_truncate_discard_entries :
    log_text (read_from_file disk_object.pages disk_object.log_start disk_object.log_size
      ++ [0]) = some (entry_line (env0, bytes "write", 0, 1)) ∧
    (∃ w, loggerfs_write 1 env1 disk_object 5 [120] 1 = some w ∧ w.ret = 1 ∧
      w.fi.log_size = 25 + (entry_line (env1, bytes "write", 5, 1)).length + 23 ∧
      log_text (read_from_file w.fi.pages w.fi.log_start w.fi.log_size ++ [0])
        = some (entry_line (env1, bytes "write", 5, 1)) ∧
      log_text (read_from_file w.fi.pages w.fi.log_start w.fi.log_size ++ [0])
        ≠ some (entry_line (env0, bytes "write", 0, 1) ++
            entry_line (env1, bytes "write", 5, 1))) ∧
    (∃ r, loggerfs_setattr 1 env1 disk_object (some 0) = some r ∧ r.1 = 0 ∧
      log_text (read_from_file r.2.pages r.2.log_start r.2.log_size ++ [0])
        = some (entry_line (env1, bytes "truncate", 0, 0)) ∧
      log_text (read_from_file r.2.pages r.2.log_start r.2.log_size ++ [0])
        ≠ some (entry_line (env0, bytes "write", 0, 1) ++
            entry_line (env1, bytes "truncate", 0, 0))) :=
  ⟨by decide, exists_of_map_decide _ _ (by decide), exists_of_map_decide _ _ (by decide)⟩

/-! ## Taking a backup -/

/-- A chunk of a page loop lies inside one page. -/
theorem chunk_same_page (a cs k : Nat) (hcs : cs ≤ PAGE_SIZE - a % PAGE_SIZE) (hk : k < cs) :
    (a + k) / PAGE_SIZE = a / PAGE_SIZE := by
  have hP : PAGE_SIZE = 4096 := rfl
  rw [hP] at hcs ⊢
  omega

/-- The buffer filled by the page loop of `backup_original_data`: the stored
byte where the page maps, zero where `kmap` fails. -/
theorem backup_loop_general (env : Env) (pages : Nat → Nat) (offset : Int) (length : Nat)
    (h0 : 0 ≤ offset) (hb : offset + length ≤ 18446744073709551616) :
    ∀ (fuel copied : Nat) (buffer : List Nat), length - copied ≤ fuel → copied ≤ length →
      backup_loop env pages offset length fuel copied buffer =
        buffer ++ (List.range (length - copied)).map
          (fun k => if env.kmap_ok ((offset.toNat + copied + k) / PAGE_SIZE) = true
            then pages (offset.toNat + copied + k) else 0) := by
  intro fuel
  induction fuel with
  | zero =>
    intro copied buffer hf hc
    have : length - copied = 0 := by omega
    simp [backup_loop, this]
  | succ fuel ih =>
    intro copied buffer hf hc
    simp only [backup_loop]
    by_cases hlt : copied < length
    · simp only [hlt, if_true]
      rw [u64_add_nat offset copied h0 (by omega)]
      obtain ⟨hcs1, hcs2⟩ := chunk_pos length copied (offset.toNat + copied) hlt
      have hcs3 : min (length - copied) (PAGE_SIZE - (offset.toNat + copied) % PAGE_SIZE)
          ≤ PAGE_SIZE - (offset.toNat + copied) % PAGE_SIZE := Nat.min_le_right _ _
      generalize min (length - copied) (PAGE_SIZE - (offset.toNat + copied) % PAGE_SIZE) = cs
        at hcs1 hcs2 hcs3
      rw [ih (copied + cs) _ (by omega) (by omega), List.append_assoc]
      congr 1
      have hsplit : length - copied = cs + (length - (copied + cs)) := by omega
      rw [hsplit, ← range_map_split]
      congr 1
      · by_cases hm : env.kmap_ok ((offset.toNat + copied) / PAGE_SIZE) = true
        · rw [if_pos hm]
          apply List.map_congr_left
          intro k hk
          rw [List.mem_range] at hk
          rw [chunk_same_page _ cs k hcs3 hk, if_pos hm]
        · rw [if_neg hm]
          symm
          rw [List.eq_replicate_iff]
          refine ⟨by simp, ?_⟩
          intro b hbm
          rw [List.mem_map] at hbm
          obtain ⟨k, hk, rfl⟩ := hbm
          rw [List.mem_range] at hk
          rw [chunk_same_page _ cs k hcs3 hk, if_neg hm]
      · apply List.map_congr_left
        intro k _
        have : offset.toNat + (copied + cs) + k = offset.toNat + copied + (cs + k) := by omega
        rw [this]
    · have : length - copied = 0 := by omega
      simp [hlt, this]

/-- The snapshot that `backup_original_data` takes when it does not keep an
earlier backup. -/
theorem backup_taken (env : Env) (fi : loggerfs_file_info) (o : Int) (k : Nat)
    (hstate : fi.backup.is_valid = false ∨ o ≤ fi.backup.offset)
    (hk : env.kmalloc_ok = true) (hpos : 0 < k) (h0 : 0 ≤ o)
    (hb : o + k ≤ 9223372036854775808) :
    backup_original_data env fi o k =
      (0, { fi with backup := { offset := o, length := k,
                                original_data := some ((List.range k).map
                                  (fun j => if env.kmap_ok ((o.toNat + j) / PAGE_SIZE) = true
                                    then fi.pages (o.toNat + j) else 0)),
                                is_valid := true } }) := by
  have hloop := backup_loop_general env fi.pages o k h0 (by omega) k 0 [] (by omega)
    (by omega)
  simp only [Nat.sub_zero, Nat.add_zero, List.nil_append] at hloop
  have hk0 : k ≠ 0 := by omega
  have hc : ¬ (fi.backup.is_valid = true ∧ fi.backup.offset < o) := by
    rintro ⟨h1, h2⟩
    rcases hstate with h | h
    · rw [h] at h1; cases h1
    · omega
  simp only [backup_original_data, hk0, if_false, hc, hk, if_true, cleanup_backup_data, hloop]

/-- C21.  When there is no valid backup, or the valid backup does not start
before the requested offset, and the length is positive and the allocation
succeeds, `backup_original_data` returns 0, discards the old backup and leaves
a valid backup with the requested offset and length; the rest of the object
is unchanged.  With every page mapped, the bytes of the backup are the stored
bytes of `[offset, offset + length)`, a hole reading as zero.  In general a
byte of the backup is the stored byte where `kmap` maps its page, and zero
where it does not. -/
theorem backup_original_data_captures (env : Env) (fi : loggerfs_file_info) (o : Int) (k : Nat)
    (hstate : fi.backup.is_valid = false ∨ o ≤ fi.backup.offset)
    (hk : env.kmalloc_ok = true) (hpos : 0 < k) (h0 : 0 ≤ o)
    (hb : o + k ≤ 9223372036854775808) :
    (backup_original_data env fi o k).1 = 0 ∧
    (backup_original_data env fi o k).2.backup.offset = o ∧
    (backup_original_data env fi o k).2.backup.length = k ∧
    (backup_original_data env fi o k).2.backup.is_valid = true ∧
    ((∀ i, env.kmap_ok i = true) →
      (backup_original_data env fi o k).2.backup.original_data
        = some ((List.range k).map (fun j => fi.pages (o.toNat + j)))) ∧
    (backup_original_data env fi o k).2.backup.original_data
      = some ((List.range k).map
          (fun j => if env.kmap_ok ((o.toNat + j) / PAGE_SIZE) = true
            then fi.pages (o.toNat + j) else 0)) ∧
    (backup_original_data env fi o k).2.pages = fi.pages ∧
    (backup_original_data env fi o k).2.data_size = fi.data_size := by
  rw [backup_taken env fi o k hstate hk hpos h0 hb]
  refine ⟨rfl, rfl, rfl, rfl, ?_, rfl, rfl, rfl⟩
  intro hmap
  simp only [hmap, if_true]

/-- The theorem `backup_original_data_captures` at `overwritten_object`, whose
valid backup starts at the requested offset 0: the new snapshot holds the
stored byte `b`. -/
theorem backup_original_data_captures_witness :
    (overwritten_object.backup.is_valid = false ∨ (0 : Int) ≤ overwritten_object.backup.offset) ∧
    (backup_original_data env0 overwritten_object 0 1).1 = 0 ∧
    (backup_original_data env0 overwritten_object 0 1).2.backup.is_valid = true ∧
    (backup_original_data env0 overwritten_object 0 1).2.backup.original_data = some [98] :=
  have h := backup_original_data_captures env0 overwritten_object 0 1 (Or.inr (by decide)) rfl
    (by decide) (by decide) (by decide)
  ⟨Or.inr (by decide), h.1, h.2.2.2.1, (h.2.2.2.2.1 (fun _ => rfl)).trans (by decide)⟩

/-- A backup taken while `kmap` fails: the backup of `[2, 5)` of
`middle_write_object`, which stores the byte `a` there, returns 0 and is
valid, and its bytes are zero. -/
theorem backup_zero_filled_when_kmap_fails :
    middle_write_object.backup.is_valid = false ∧ env_no_kmap.kmalloc_ok = true ∧
    middle_write_object.pages 2 = 97 ∧
    (backup_original_data env_no_kmap middle_write_object 2 3).1 = 0 ∧
    (backup_original_data env_no_kmap middle_write_object 2 3).2.backup.is_valid = true ∧
    (backup_original_data env_no_kmap middle_write_object 2 3).2.backup.original_data
      = some [0, 0, 0] := by
  decide

/-! ## The size rule of a restore -/

/-- C22 (amended).  For a valid backup with a buffer, after
`restore_original_data`: if `backup.offset + backup.length >= data_size` and
`backup.offset < data_size`, then `data_size` and `i_size` are `backup.offset`;
otherwise both are unchanged.  This holds in every environment. -/
theorem restore_original_data_size_rule (env : Env) (fi : loggerfs_file_info) (data : List Nat)
    (hv : fi.backup.is_valid = true) (hd : fi.backup.original_data = some data)
    (h0 : 0 ≤ fi.backup.offset)
    (hb : fi.backup.offset + fi.backup.length < 9223372036854775808)
    (hd0 : 0 ≤ fi.data_size) (hd1 : fi.data_size < 9223372036854775808) :
    (fi.backup.offset + fi.backup.length ≥ fi.data_size ∧ fi.backup.offset < fi.data_size →
      (restore_original_data env fi).2.data_size = fi.backup.offset ∧
      (restore_original_data env fi).2.i_size = fi.backup.offset) ∧
    (¬ (fi.backup.offset + fi.backup.length ≥ fi.data_size ∧
          fi.backup.offset < fi.data_size) →
      (restore_original_data env fi).2.data_size = fi.data_size ∧
      (restore_original_data env fi).2.i_size = fi.i_size) := by
  have hu1 : u64 (fi.backup.offset + fi.backup.length)
      = (fi.backup.offset + fi.backup.length).toNat := u64_of_nonneg _ (by omega) (by omega)
  have hu2 : u64 fi.data_size = fi.data_size.toNat := u64_of_nonneg _ hd0 (by omega)
  simp only [restore_original_data, hv, hd, not_true_eq_false, if_false, hu1, hu2]
  by_cases hc : fi.backup.offset + fi.backup.length ≥ fi.data_size ∧
      fi.backup.offset < fi.data_size
  · have hc1 : (fi.backup.offset + fi.backup.length).toNat ≥ fi.data_size.toNat := by omega
    rw [if_pos hc1, if_pos hc.2]
    refine ⟨fun _ => ?_, fun h => absurd hc h⟩
    split <;> exact ⟨rfl, rfl⟩
  · refine ⟨fun h => absurd h hc, fun _ => ?_⟩
    by_cases hc1 : (fi.backup.offset + fi.backup.length).toNat ≥ fi.data_size.toNat
    · have hc2 : ¬ fi.backup.offset < fi.data_size := by
        intro h; exact hc ⟨by omega, h⟩
      rw [if_pos hc1, if_neg hc2]
      split <;> exact ⟨rfl, rfl⟩
    · rw [if_neg hc1]
      split <;> exact ⟨rfl, rfl⟩

/-- The theorem `restore_original_data_size_rule` at `overwritten_object`: the
backup `[0, 1)` reaches `data_size = 1`, and the restore sets `data_size` to 0. -/
theorem restore_original_data_size_rule_witness :
    (overwritten_object.backup.offset + overwritten_object.backup.length
        ≥ overwritten_object.data_size ∧
      overwritten_object.backup.offset < overwritten_object.data_size) ∧
    (restore_original_data env0 overwritten_object).2.data_size = 0 ∧
    (restore_original_data env0 overwritten_object).2.i_size = 0 :=
  have h := (restore_original_data_size_rule env0 overwritten_object [97] (by decide)
    (by decide) (by decide) (by decide) (by decide) (by decide)).1 ⟨by decide, by decide⟩
  ⟨⟨by decide, by decide⟩, h.1.trans (by decide), h.2.trans (by decide)⟩

/-- C22 as stated fails: `grown_backup_object` has a valid backup with
`backup.offset + backup.length = 6 >= data_size = 3`; `restore_original_data`
returns 0 and leaves `data_size` at 3, not at `backup.offset = 5`. -/
theorem restore_keeps_smaller_data_size :
    grown_backup_object.backup.is_valid = true ∧
    grown_backup_object.backup.offset + grown_backup_object.backup.length
      ≥ grown_backup_object.data_size ∧
    (restore_original_data env0 grown_backup_object).1 = 0 ∧
    (restore_original_data env0 grown_backup_object).2.data_size = 3 ∧
    (restore_original_data env0 grown_backup_object).2.data_size
      ≠ grown_backup_object.backup.offset := by
  decide

/-! ## The classification of `revert_file_content` -/

theorem restore_original_data_backup (env : Env) (fi : loggerfs_file_info) :
    (restore_original_data env fi).2.backup = fi.backup := by
  unfold restore_original_data
  split
  · rfl
  · split
    · rfl
    · simp only
      split <;> split <;> (try split) <;> rfl

/-- C23.  With a valid backup whose offset and length are those of the write,
`revert_file_content` leaves the object that `restore_original_data` leaves,
with the backup cleared; it returns 0 when the restore returns 0 or `-EIO`,
and otherwise it returns the error of the restore, which is not 0. -/
theorem revert_file_content_exact_match (env : Env) (fi : loggerfs_file_info)
    (write_offset : Int) (write_length : Nat)
    (hv : fi.backup.is_valid = true) (ho : fi.backup.offset = write_offset)
    (hl : fi.backup.length = write_length) :
    (revert_file_content env fi write_offset write_length).2
      = cleanup_backup_data (restore_original_data env fi).2 ∧
    (revert_file_content env fi write_offset write_length).2.backup.is_valid = false ∧
    ((restore_original_data env fi).1 = 0 ∨ (restore_original_data env fi).1 = - EIO →
      (revert_file_content env fi write_offset write_length).1 = 0) ∧
    (¬ ((restore_original_data env fi).1 = 0 ∨ (restore_original_data env fi).1 = - EIO) →
      (revert_file_content env fi write_offset write_length).1
        = (restore_original_data env fi).1 ∧
      (revert_file_content env fi write_offset write_length).1 ≠ 0) := by
  have hc : fi.backup.is_valid = true ∧ fi.backup.offset = write_offset ∧
      fi.backup.length = write_length := ⟨hv, ho, hl⟩
  simp only [revert_file_content, hc, and_self, if_true]
  by_cases hr : (restore_original_data env fi).1 = 0 ∨ (restore_original_data env fi).1 = - EIO
  · rw [if_pos hr]
    exact ⟨rfl, rfl, fun _ => rfl, fun h => absurd hr h⟩
  · rw [if_neg hr]
    refine ⟨rfl, rfl, fun h => absurd h hr, fun _ => ⟨rfl, ?_⟩⟩
    intro h
    exact hr (Or.inl h)

/-- The theorem `revert_file_content_exact_match` at `overwritten_object`, whose
backup is that of the write `(0, 1)`. -/
theorem revert_file_content_exact_match_witness :
    (overwritten_object.backup.is_valid = true ∧ overwritten_object.backup.offset = 0 ∧
      overwritten_object.backup.length = 1) ∧
    (revert_file_content env0 overwritten_object 0 1).2
      = cleanup_backup_data (restore_original_data env0 overwritten_object).2 ∧
    (revert_file_content env0 overwritten_object 0 1).2.backup.is_valid = false ∧
    (revert_file_content env0 overwritten_object 0 1).1 = 0 :=
  have h := revert_file_content_exact_match env0 overwritten_object 0 1 (by decide) (by decide)
    (by decide)
  ⟨by decide, h.1, h.2.1, h.2.2.1 (Or.inl (by decide))⟩

/-- C24.  With a valid backup that is not that of the write and whose range
starts at or before `write_offset` and ends after it, `revert_file_content`
returns 0 whatever the restore returned, leaves the page cache that
`restore_original_data` leaves, and clears the backup.  If the write ends
after the backup and the backup ends before the `data_size` at entry, then
`data_size` and `i_size` become the end of the backup; otherwise they are as
the restore left them. -/
theorem revert_file_content_overlap (env : Env) (fi : loggerfs_file_info)
    (write_offset : Int) (write_length : Nat)
    (hv : fi.backup.is_valid = true)
    (hne : ¬ (fi.backup.offset = write_offset ∧ fi.backup.length = write_length))
    (h1 : fi.backup.offset ≤ write_offset)
    (h2 : write_offset < fi.backup.offset + fi.backup.length)
    (h0 : 0 ≤ fi.backup.offset)
    (hb : fi.backup.offset + fi.backup.length < 9223372036854775808)
    (hwb : write_offset + write_length < 9223372036854775808) :
    (revert_file_content env fi write_offset write_length).1 = 0 ∧
    (revert_file_content env fi write_offset write_length).2.backup.is_valid = false ∧
    (revert_file_content env fi write_offset write_length).2.pages
      = (restore_original_data env fi).2.pages ∧
    (write_offset + write_length > fi.backup.offset + fi.backup.length ∧
        fi.backup.offset + fi.backup.length < fi.data_size →
      (revert_file_content env fi write_offset write_length).2.data_size
        = fi.backup.offset + fi.backup.length ∧
      (revert_file_content env fi write_offset write_length).2.i_size
        = fi.backup.offset + fi.backup.length) ∧
    (¬ (write_offset + write_length > fi.backup.offset + fi.backup.length ∧
          fi.backup.offset + fi.backup.length < fi.data_size) →
      (revert_file_content env fi write_offset write_length).2.data_size
        = (restore_original_data env fi).2.data_size ∧
      (revert_file_content env fi write_offset write_length).2.i_size
        = (restore_original_data env fi).2.i_size) := by
  have hc1 : ¬ (fi.backup.is_valid = true ∧ fi.backup.offset = write_offset ∧
      fi.backup.length = write_length) := fun h => hne h.2
  have hu1 : u64 (fi.backup.offset + fi.backup.length)
      = (fi.backup.offset + fi.backup.length).toNat := u64_of_nonneg _ (by omega) (by omega)
  have hu2 : u64 write_offset = write_offset.toNat := u64_of_nonneg _ (by omega) (by omega)
  have hu3 : u64 (write_offset + write_length) = (write_offset + write_length).toNat :=
    u64_of_nonneg _ (by omega) (by omega)
  have hs : s64 (fi.backup.offset + fi.backup.length) = fi.backup.offset + fi.backup.length :=
    s64_of_range _ (by omega) (by omega)
  have hc2 : fi.backup.is_valid = true ∧ fi.backup.offset ≤ write_offset ∧
      u64 (fi.backup.offset + fi.backup.length) > u64 write_offset := by
    refine ⟨hv, h1, ?_⟩
    rw [hu1, hu2]; omega
  simp only [revert_file_content]
  rw [if_neg hc1, if_pos hc2]
  simp only [restore_original_data_backup, hs, hu3, hu1]
  by_cases hc : write_offset + write_length > fi.backup.offset + fi.backup.length ∧
      fi.backup.offset + fi.backup.length < fi.data_size
  · have hc3 : (write_offset + write_length).toNat
        > (fi.backup.offset + fi.backup.length).toNat := by omega
    rw [if_pos hc3, if_pos hc.2]
    exact ⟨trivial, rfl, rfl, fun _ => ⟨rfl, rfl⟩, fun h => absurd hc h⟩
  · refine ⟨trivial, ?_, ?_, fun h => absurd h hc, fun _ => ?_⟩
    all_goals
      by_cases hc3 : (write_offset + write_length).toNat
          > (fi.backup.offset + fi.backup.length).toNat
      · have hc4 : ¬ fi.backup.offset + fi.backup.length < fi.data_size := by
          intro h; exact hc ⟨by omega, h⟩
        rw [if_pos hc3, if_neg hc4]
        first | rfl | exact ⟨rfl, rfl⟩
      · rw [if_neg hc3]
        first | rfl | exact ⟨rfl, rfl⟩

/-- The theorem `revert_file_content_overlap` at `covering_backup_object`
(20 bytes of data, backup of `[2, 5)`) for the write `(3, 10)`: the data is cut
at the end of the backup. -/
theorem revert_file_content_overlap_witness :
    (covering_backup_object.backup.offset ≤ 3 ∧
      (3 : Int) < covering_backup_object.backup.offset + covering_backup_object.backup.length) ∧
    (revert_file_content env0 covering_backup_object 3 10).1 = 0 ∧
    (revert_file_content env0 covering_backup_object 3 10).2.backup.is_valid = false ∧
    (revert_file_content env0 covering_backup_object 3 10).2.data_size = 5 ∧
    (revert_file_content env0 covering_backup_object 3 10).2.i_size = 5 :=
  have h := revert_file_content_overlap env0 covering_backup_object 3 10 (by decide)
    (by decide) (by decide) (by decide) (by decide) (by decide) (by decide)
  ⟨by decide, h.1, h.2.1, (h.2.2.2.1 (by decide)).1.trans (by decide),
    (h.2.2.2.1 (by decide)).2.trans (by decide)⟩

/-- C25.  When no valid backup is that of the write or covers
`write_offset`, and `write_offset + write_length >= data_size`,
`revert_file_content` returns 0 and sets `data_size` and `i_size` to
`max write_offset 0`; the page cache, the log fields and the backup slot are
left as they were. -/
theorem revert_file_content_trailing_append (env : Env) (fi : loggerfs_file_info)
    (write_offset : Int) (write_length : Nat)
    (hex : ¬ (fi.backup.is_valid = true ∧ fi.backup.offset = write_offset ∧
      fi.backup.length = write_length))
    (hcov : ¬ (fi.backup.is_valid = true ∧ fi.backup.offset ≤ write_offset ∧
      write_offset < fi.backup.offset + fi.backup.length))
    (hge : write_offset + write_length ≥ fi.data_size)
    (h0 : 0 ≤ fi.backup.offset)
    (hb : fi.backup.offset + fi.backup.length < 9223372036854775808)
    (hd0 : 0 ≤ fi.data_size)
    (hwb : write_offset + write_length < 9223372036854775808) :
    revert_file_content env fi write_offset write_length
      = (0, { fi with data_size := max write_offset 0, i_size := max write_offset 0 }) := by
  have hc2 : ¬ (fi.backup.is_valid = true ∧ fi.backup.offset ≤ write_offset ∧
      u64 (fi.backup.offset + fi.backup.length) > u64 write_offset) := by
    intro h
    apply hcov
    refine ⟨h.1, h.2.1, ?_⟩
    have h3 := h.2.2
    rw [u64_of_nonneg _ (by omega) (by omega), u64_of_nonneg _ (by omega) (by omega)] at h3
    omega
  have hc3 : u64 (write_offset + write_length) ≥ u64 fi.data_size := by
    rw [u64_of_nonneg _ (by omega) (by omega), u64_of_nonneg _ (by omega) (by omega)]
    omega
  simp only [revert_file_content]
  rw [if_neg hex, if_neg hc2, if_pos hc3]
  by_cases hneg : write_offset < 0
  · have : max write_offset 0 = 0 := max_eq_right (by omega)
    rw [if_pos hneg, this]
  · have : max write_offset 0 = write_offset := max_eq_left (by omega)
    rw [if_neg hneg, this]

/-- The theorem `revert_file_content_trailing_append` at `middle_write_object`
(20 bytes of data, no backup) for the write `(15, 5)`. -/
theorem revert_file_content_trailing_append_witness :
    (15 : Int) + (5 : Nat) ≥ middle_write_object.data_size ∧
    (revert_file_content env0 middle_write_object 15 5).1 = 0 ∧
    (revert_file_content env0 middle_write_object 15 5).2.data_size = 15 ∧
    (revert_file_content env0 middle_write_object 15 5).2.i_size = 15 :=
  have h := revert_file_content_trailing_append env0 middle_write_object 15 5 (by decide)
    (by decide) (by decide) (by decide) (by decide) (by decide) (by decide)
  ⟨by decide, congrArg Prod.fst h, (congrArg (fun r => r.2.data_size) h).trans (by decide),
    (congrArg (fun r => r.2.i_size) h).trans (by decide)⟩

/-! ## Revert without a write entry -/

/-- C26.  When `log_size` is 0, `remove_last_write_log` returns `-ENODATA` and
the object (page cache, layout fields, backup slot) is left as it was, in
every environment. -/
theorem remove_last_write_log_empty_log (env : Env) (fi : loggerfs_file_info) (h : fi.log_size = 0) :
    remove_last_write_log env fi = (-ENODATA, fi) := by
  simp [remove_last_write_log, h]

/-- The theorem `remove_last_write_log_empty_log` at the fresh object. -/
theorem remove_last_write_log_empty_log_witness :
    fresh.log_size = 0 ∧ remove_last_write_log env0 fresh = (-ENODATA, fresh) :=
  ⟨rfl, remove_last_write_log_empty_log env0 fresh rfl⟩

theorem last_write_loop_step (text : List Nat) (fuel line_end : Nat) (h : line_end > 0) :
    last_write_loop text (fuel + 1) line_end =
      match line_write_range ((text.drop (line_begin text (line_end - 1))).take
          (line_end - line_begin text (line_end - 1))) with
      | some r => some r
      | none => if line_begin text (line_end - 1) ≤ 1 then none
          else last_write_loop text fuel (line_begin text (line_end - 1) - 1) := by
  simp only [last_write_loop, h, if_true, line_write_range]
  cases parse_log_line ((text.drop (line_begin text (line_end - 1))).take
      (line_end - line_begin text (line_end - 1))) with
  | none => rfl
  | some p =>
    obtain ⟨op, off, len⟩ := p
    simp only []
    split <;> rfl

theorem line_begin_spec (Q l rest : List Nat) (hQ : Q = [] ∨ Q.getLast? = some 10)
    (hl : ∀ b ∈ l, b ≠ 10) :
    ∀ k, k ≤ l.length → line_begin (Q ++ l ++ rest) (Q.length + k) = Q.length := by
  intro k
  induction k with
  | zero =>
    intro _
    rw [Nat.add_zero]
    rcases hQ with hQ | hQ
    · subst hQ; rfl
    · cases hlen : Q.length with
      | zero =>
        rw [List.length_eq_zero] at hlen
        subst hlen; rfl
      | succ m =>
        have hget : (Q ++ l ++ rest).getD m 0 = 10 := by
          rw [List.getLast?_eq_getElem?] at hQ
          rw [hlen] at hQ
          simp only [Nat.add_sub_cancel] at hQ
          rw [List.getD_eq_getElem?_getD, List.append_assoc,
            List.getElem?_append_left (by omega), hQ]
          rfl
        simp only [line_begin, hget, ne_eq, not_true_eq_false, if_false]
  | succ k ih =>
    intro hk
    have hget : (Q ++ l ++ rest).getD (Q.length + k) 0 ≠ 10 := by
      rw [List.getD_eq_getElem?_getD, List.append_assoc,
        List.getElem?_append_right (by omega), Nat.add_sub_cancel_left,
        List.getElem?_append_left (by omega)]
      have hk' : k < l.length := by omega
      rw [List.getElem?_eq_getElem hk']
      exact hl _ (List.getElem_mem _)
    rw [← Nat.add_assoc]
    simp only [line_begin, hget, ne_eq, not_false_eq_true, if_true]
    exact ih (by omega)

/-- The text of a run of lines, each followed by a newline. -/
theorem lines_text_concat (qs : List (List Nat)) (l : List Nat) :
    ((qs ++ [l]).map (fun x => x ++ [10])).flatten
      = (qs.map (fun x => x ++ [10])).flatten ++ (l ++ [10]) := by
  simp

theorem lines_text_end (qs : List (List Nat)) (hne : qs ≠ []) (h : ∀ l ∈ qs, l ≠ []) :
    2 ≤ ((qs.map (fun x => x ++ [10])).flatten).length ∧
    ((qs.map (fun x => x ++ [10])).flatten).getLast? = some 10 := by
  rcases List.eq_nil_or_concat qs with h0 | ⟨qs1, l, h1⟩
  · exact absurd h0 hne
  · subst h1
    have hl : l ≠ [] := h l (by simp)
    have hlen : 0 < l.length := List.length_pos.2 hl
    rw [List.concat_eq_append, lines_text_concat]
    constructor
    · simp only [List.length_append, List.length_cons, List.length_nil]
      omega
    · rw [List.getLast?_append]
      simp

theorem last_write_scan_inner (ls : List (List Nat)) :
    (∀ l ∈ ls, l ≠ [] ∧ ∀ b ∈ l, b ≠ 10) → ls ≠ [] →
    ∀ (rest : List Nat) (fuel : Nat),
      ((ls.map (fun x => x ++ [10])).flatten).length ≤ fuel →
      last_write_loop ((ls.map (fun x => x ++ [10])).flatten ++ rest) fuel
          (((ls.map (fun x => x ++ [10])).flatten).length - 1)
        = ls.reverse.findSome? line_write_range := by
  induction ls using List.reverseRecOn with
  | nil => intro _ h; exact absurd rfl h
  | append_singleton qs l ih =>
    intro hok _ rest fuel hfuel
    have hl := hok l (by simp)
    have hlpos : 0 < l.length := List.length_pos.2 hl.1
    have hqs : ∀ q ∈ qs, q ≠ [] ∧ ∀ b ∈ q, b ≠ 10 := fun q hq => hok q (by simp [hq])
    rw [lines_text_concat] at hfuel ⊢
    generalize hQ : (qs.map (fun x => x ++ [10])).flatten = Q at hfuel ⊢
    have hQend : Q = [] ∨ Q.getLast? = some 10 := by
      by_cases hq : qs = []
      · left; rw [← hQ, hq]; rfl
      · right; rw [← hQ]; exact (lines_text_end qs hq (fun q hq => (hqs q hq).1)).2
    simp only [List.length_append, List.length_cons, List.length_nil] at hfuel ⊢
    cases fuel with
    | zero => omega
    | succ f =>
      have hle : Q.length + (l.length + (0 + 1)) - 1 = Q.length + l.length := by omega
      rw [hle, last_write_loop_step _ _ _ (by omega)]
      have htext : Q ++ (l ++ [10]) ++ rest = Q ++ l ++ ([10] ++ rest) := by simp
      have hlb : line_begin (Q ++ (l ++ [10]) ++ rest) (Q.length + l.length - 1) = Q.length := by
        rw [htext]
        have : Q.length + l.length - 1 = Q.length + (l.length - 1) := by omega
        rw [this]
        exact line_begin_spec Q l _ hQend hl.2 _ (by omega)
      rw [hlb]
      have hseg : ((Q ++ (l ++ [10]) ++ rest).drop Q.length).take (Q.length + l.length - Q.length)
          = l := by
        rw [htext, List.append_assoc, List.drop_left, Nat.add_sub_cancel_left, List.take_left]
      rw [hseg, List.reverse_append, List.reverse_singleton, List.singleton_append,
        List.findSome?_cons]
      cases line_write_range l with
      | some r => rfl
      | none =>
        simp only []
        by_cases hq : qs = []
        · have : Q.length = 0 := by rw [← hQ, hq]; rfl
          rw [if_pos (by omega), hq]
          rfl
        · have h2 := (lines_text_end qs hq (fun q hq => (hqs q hq).1)).1
          rw [hQ] at h2
          rw [if_neg (by omega)]
          have := ih hqs hq ((l ++ [10]) ++ rest) f (by rw [hQ]; omega)
          rw [hQ, ← List.append_assoc] at this
          exact this

/-- The backward scan over a text made of lines: it returns the range of the
last line that decodes as a write. -/
theorem last_write_scan (qs : List (List Nat)) (l : List Nat)
    (hok : ∀ q ∈ qs ++ [l], q ≠ [] ∧ ∀ b ∈ q, b ≠ 10)
    (hlast : line_write_range (l ++ [10]) = line_write_range l) :
    last_write_loop (((qs ++ [l]).map (fun x => x ++ [10])).flatten)
        ((((qs ++ [l]).map (fun x => x ++ [10])).flatten).length + 1)
        ((((qs ++ [l]).map (fun x => x ++ [10])).flatten).length)
      = (qs ++ [l]).reverse.findSome? line_write_range := by
  have hl := hok l (by simp)
  have hlpos : 0 < l.length := List.length_pos.2 hl.1
  have hqs : ∀ q ∈ qs, q ≠ [] ∧ ∀ b ∈ q, b ≠ 10 := fun q hq => hok q (by simp [hq])
  rw [lines_text_concat]
  generalize hQ : (qs.map (fun x => x ++ [10])).flatten = Q
  have hQend : Q = [] ∨ Q.getLast? = some 10 := by
    by_cases hq : qs = []
    · left; rw [← hQ, hq]; rfl
    · right; rw [← hQ]; exact (lines_text_end qs hq (fun q hq => (hqs q hq).1)).2
  simp only [List.length_append, List.length_cons, List.length_nil]
  rw [last_write_loop_step _ _ _ (by omega)]
  have htext : Q ++ (l ++ [10]) = Q ++ l ++ [10] := by simp
  have hlb : line_begin (Q ++ (l ++ [10])) (Q.length + (l.length + (0 + 1)) - 1) = Q.length := by
    rw [htext]
    have : Q.length + (l.length + (0 + 1)) - 1 = Q.length + l.length := by omega
    rw [this]
    exact line_begin_spec Q l _ hQend hl.2 _ (by omega)
  rw [hlb]
  have hseg : ((Q ++ (l ++ [10])).drop Q.length).take
      (Q.length + (l.length + (0 + 1)) - Q.length) = l ++ [10] := by
    rw [List.drop_left, List.take_of_length_le (by simp)]
  rw [hseg, hlast, List.reverse_append, List.reverse_singleton, List.singleton_append,
    List.findSome?_cons]
  cases line_write_range l with
  | some r => rfl
  | none =>
    simp only []
    by_cases hq : qs = []
    · have : Q.length = 0 := by rw [← hQ, hq]; rfl
      rw [if_pos (by omega), hq]
      rfl
    · have h2 := (lines_text_end qs hq (fun q hq => (hqs q hq).1)).1
      rw [hQ] at h2
      rw [if_neg (by omega)]
      have := last_write_scan_inner qs hqs hq (l ++ [10]) (Q.length + (l.length + (0 + 1)))
        (by rw [hQ]; omega)
      rw [hQ] at this
      exact this

/-- The conversion `%zu` on the digits of a number at the end of the input. -/
theorem scan_zu_fmt_end (n : Nat) (hn : n < 18446744073709551616) :
    scan_zu (fmt_zu n) = some (n, []) := by
  have hns : ∀ b ∈ fmt_zu n, isspace b = false :=
    fun b hb => isdigit_not_space b (fmt_zu_isdigit n b hb)
  have hskip : skip_spaces (fmt_zu n) = fmt_zu n := by
    have := skip_spaces_of_head (fmt_zu n) [] (fmt_zu_ne_nil n) hns
    rwa [List.append_nil] at this
  have htw : (fmt_zu n).takeWhile isdigit = fmt_zu n :=
    List.takeWhile_eq_self_iff.2 (fmt_zu_isdigit n)
  simp only [scan_zu, fmt_zu_ne_nil n, if_false, hskip, htw, digits_value_fmt_zu,
    Nat.mod_eq_of_lt hn, List.drop_length]

theorem fmt_lld_ne_nil (x : Int) : fmt_lld x ≠ [] := by
  unfold fmt_lld; split
  · simp
  · exact fmt_zu_ne_nil _

theorem fmt_lld_not_space (x : Int) : ∀ b ∈ fmt_lld x, isspace b = false := by
  intro b hb
  unfold fmt_lld at hb
  split at hb
  · simp only [List.mem_cons] at hb
    rcases hb with hb | hb
    · subst hb; decide
    · exact isdigit_not_space b (fmt_zu_isdigit _ b hb)
  · exact isdigit_not_space b (fmt_zu_isdigit _ b hb)

/-- Decoding a formatted line without its newline. -/
theorem parse_line_body (tv_sec : Int) (command operation : List Nat) (offset : Int)
    (length : Nat)
    (ht0 : -9223372036854775808 ≤ tv_sec) (ht1 : tv_sec < 9223372036854775808)
    (ho0 : -9223372036854775808 ≤ offset) (ho1 : offset < 9223372036854775808)
    (hl : length < 18446744073709551616)
    (hc1 : command ≠ []) (hc2 : ∀ b ∈ command, isspace b = false)
    (hc3 : ∀ b ∈ command, b ≠ 0) (hc4 : command.length ≤ 255)
    (hp1 : operation ≠ []) (hp2 : ∀ b ∈ operation, isspace b = false)
    (hp3 : ∀ b ∈ operation, b ≠ 0) (hp4 : operation.length ≤ 31) :
    parse_log_line (fmt_lld tv_sec ++ 32 :: (command ++ 32 :: (operation ++ 32 ::
        (fmt_lld offset ++ 32 :: fmt_zu length))))
      = some (operation, offset, length) := by
  have hlen : (fmt_lld tv_sec ++ 32 :: (command ++ 32 :: (operation ++ 32 ::
        (fmt_lld offset ++ 32 :: fmt_zu length)))).length < 512 := by
    have := fmt_lld_length tv_sec ht0 ht1
    have := fmt_lld_length offset ho0 ho1
    have := fmt_zu_length length hl
    simp only [List.length_append, List.length_cons]
    omega
  have hnz : ∀ b ∈ fmt_lld tv_sec ++ 32 :: (command ++ 32 :: (operation ++ 32 ::
        (fmt_lld offset ++ 32 :: fmt_zu length))), b ≠ 0 := by
    intro b hb
    simp only [List.mem_append, List.mem_cons] at hb
    rcases hb with hb | hb | hb | hb | hb | hb | hb | hb | hb
    · exact fmt_lld_ne_zero _ b hb
    · omega
    · exact hc3 b hb
    · omega
    · exact hp3 b hb
    · omega
    · exact fmt_lld_ne_zero _ b hb
    · omega
    · exact fmt_zu_ne_zero _ b hb
  have hnot : ¬ ((fmt_lld tv_sec ++ 32 :: (command ++ 32 :: (operation ++ 32 ::
        (fmt_lld offset ++ 32 :: fmt_zu length)))).length ≥ 512) := by omega
  simp only [parse_log_line, hnot, if_false, cstr_of_ne_zero _ hnz]
  rw [scan_s_token 31 (fmt_lld tv_sec) 32 _ (fmt_lld_ne_nil _) (fmt_lld_not_space _) (by decide)
    (by have := fmt_lld_length tv_sec ht0 ht1; omega)]
  simp only [skip_spaces_space, skip_spaces_of_head command _ hc1 hc2]
  rw [scan_s_token 255 command 32 _ hc1 hc2 (by decide) hc4]
  simp only [skip_spaces_space, skip_spaces_of_head operation _ hp1 hp2]
  rw [scan_s_token 31 operation 32 _ hp1 hp2 (by decide) hp4]
  simp only [skip_spaces_space]
  rw [skip_spaces_of_head _ _ (fmt_lld_ne_nil _) (fmt_lld_not_space _),
    scan_lld_fmt offset 32 _ ho0 ho1 (by decide)]
  simp only [skip_spaces_space]
  have hskip5 : skip_spaces (fmt_zu length) = fmt_zu length := by
    have := skip_spaces_of_head (fmt_zu length) [] (fmt_zu_ne_nil _)
      (fun b hb => isdigit_not_space b (fmt_zu_isdigit _ b hb))
    rwa [List.append_nil] at this
  rw [hskip5, scan_zu_fmt_end length hl]

/-- A line that ends with a digit and a newline, and holds no other newline,
does not hold the end marker. -/
theorem no_end_marker_in_line (body : List Nat) (d : Nat) (pre : List Nat)
    (hbody : body = pre ++ [d]) (hd : isdigit d = true) (hnl : ∀ b ∈ body, b ≠ 10) :
    find_sub LOG_END_MARKER (body ++ [10]) = none := by
  rw [find_sub_none]
  intro j hp
  obtain ⟨t, ht⟩ := hp
  have hget : ∀ k, k < 23 → (body ++ [10])[j + k]? = LOG_END_MARKER[k]? := by
    intro k hk
    rw [← List.getElem?_drop, ← ht, List.getElem?_append_left (by
      rw [(by decide : LOG_END_MARKER.length = 23)]; exact hk)]
  have h22 := hget 22 (by omega)
  have h21 := hget 21 (by omega)
  rw [(by decide : LOG_END_MARKER[22]? = some 10)] at h22
  rw [(by decide : LOG_END_MARKER[21]? = some 62)] at h21
  have hlen : body.length = pre.length + 1 := by rw [hbody]; simp
  -- the newline of the marker is the newline of the line
  have hpos : j + 22 = body.length := by
    by_cases hlt : j + 22 < body.length
    · rw [List.getElem?_append_left hlt, List.getElem?_eq_getElem hlt] at h22
      exact absurd (Option.some.inj h22) (hnl _ (List.getElem_mem _))
    · by_cases heq : j + 22 = body.length
      · exact heq
      · rw [List.getElem?_eq_none (by simp; omega)] at h22
        cases h22
  have h21' : (body ++ [10])[j + 21]? = some d := by
    rw [List.getElem?_append_left (by omega), hbody,
      List.getElem?_append_right (by omega)]
    have : j + 21 - pre.length = 0 := by omega
    rw [this]
    rfl
  rw [h21'] at h21
  have : d = 62 := Option.some.inj h21
  rw [this] at hd
  exact absurd hd (by decide)

theorem restore_original_data_ret (env : Env) (fi : loggerfs_file_info) :
    (restore_original_data env fi).1 = -ENODATA ∨ (restore_original_data env fi).1 = -EINVAL ∨
    (restore_original_data env fi).1 = - EIO ∨ (restore_original_data env fi).1 = 0 := by
  unfold restore_original_data
  split
  · exact Or.inl rfl
  · split
    · exact Or.inr (Or.inl rfl)
    · simp only
      split
      · exact Or.inr (Or.inr (Or.inl rfl))
      · exact Or.inr (Or.inr (Or.inr rfl))

/-- A formatted line whose command and operation are single tokens: it is a
text without newline followed by a newline, it holds no end marker, and it
decodes, with or without its newline, to the operation, offset and length it
was formatted from. -/
theorem entry_line_decodes (c : Env × List Nat × Int × Nat)
    (ht0 : -9223372036854775808 ≤ c.1.tv_sec) (ht1 : c.1.tv_sec < 9223372036854775808)
    (hc1 : get_current_command c.1 ≠ [])
    (hc2 : ∀ b ∈ get_current_command c.1, isspace b = false)
    (hp1 : c.2.1 ≠ []) (hp2 : ∀ b ∈ c.2.1, isspace b = false)
    (hp3 : ∀ b ∈ c.2.1, b ≠ 0) (hp4 : c.2.1.length ≤ 31)
    (ho0 : -9223372036854775808 ≤ c.2.2.1) (ho1 : c.2.2.1 < 9223372036854775808)
    (hl : c.2.2.2 < 18446744073709551616) :
    entry_line c = (entry_line c).dropLast ++ [10] ∧
    (entry_line c).dropLast ≠ [] ∧
    (∀ b ∈ (entry_line c).dropLast, b ≠ 10) ∧
    line_write_range (entry_line c).dropLast
      = (if c.2.1 = bytes "write" then some (c.2.2.1, c.2.2.2) else none) ∧
    line_write_range ((entry_line c).dropLast ++ [10])
      = line_write_range (entry_line c).dropLast ∧
    find_sub LOG_END_MARKER (entry_line c) = none := by
  have hc3 := get_current_command_ne_zero c.1
  have hc4 := get_current_command_length c.1
  have hline : entry_line c =
      (fmt_lld c.1.tv_sec ++ 32 :: (get_current_command c.1 ++ 32 :: (c.2.1 ++ 32 ::
        (fmt_lld c.2.2.1 ++ 32 :: fmt_zu c.2.2.2)))) ++ [10] := by
    simp [entry_line, format_log_line, cstr_of_ne_zero _ hc3, cstr_of_ne_zero _ hp3]
  have hparse1 := parse_format_log_line c.1.tv_sec (get_current_command c.1) c.2.1 c.2.2.1
    c.2.2.2 ht0 ht1 ho0 ho1 hl hc1 hc2 hc3 hc4 hp1 hp2 hp3 hp4
  have hparse2 := parse_line_body c.1.tv_sec (get_current_command c.1) c.2.1 c.2.2.1
    c.2.2.2 ht0 ht1 ho0 ho1 hl hc1 hc2 hc3 hc4 hp1 hp2 hp3 hp4
  have hfull : format_log_line c.1.tv_sec (get_current_command c.1) c.2.1 c.2.2.1 c.2.2.2
      = entry_line c := rfl
  rw [hfull] at hparse1
  generalize hbody : (fmt_lld c.1.tv_sec ++ 32 :: (get_current_command c.1 ++ 32 ::
    (c.2.1 ++ 32 :: (fmt_lld c.2.2.1 ++ 32 :: fmt_zu c.2.2.2)))) = body at hline hparse2
  have hdl : (entry_line c).dropLast = body := by
    rw [hline, List.dropLast_concat]
  rw [hdl, ← hline]
  have hnl : ∀ b ∈ body, b ≠ 10 := by
    intro b hb h10
    subst h10
    rw [← hbody] at hb
    simp only [List.mem_append, List.mem_cons] at hb
    have hsp : isspace 10 = true := by decide
    rcases hb with hb | hb | hb | hb | hb | hb | hb | hb | hb
    · have := fmt_lld_not_space _ _ hb; rw [hsp] at this; cases this
    · omega
    · have := hc2 _ hb; rw [hsp] at this; cases this
    · omega
    · have := hp2 _ hb; rw [hsp] at this; cases this
    · omega
    · have := fmt_lld_not_space _ _ hb; rw [hsp] at this; cases this
    · omega
    · have := isdigit_not_space _ (fmt_zu_isdigit _ _ hb); rw [hsp] at this; cases this
  have hcop : cstr c.2.1 = c.2.1 := cstr_of_ne_zero _ hp3
  refine ⟨rfl, ?_, hnl, ?_, ?_, ?_⟩
  · rw [← hbody]; simp
  · simp only [line_write_range, hparse2, hcop]
  · simp only [line_write_range, hparse2, hparse1]
  · -- the line ends with a digit and a newline
    obtain ⟨ds, d, hds⟩ : ∃ ds d, fmt_zu c.2.2.2 = ds ++ [d] := by
      rcases List.eq_nil_or_concat (fmt_zu c.2.2.2) with h | ⟨ds, d, h⟩
      · exact absurd h (fmt_zu_ne_nil _)
      · exact ⟨ds, d, by rw [h, List.concat_eq_append]⟩
    have hd : isdigit d = true := fmt_zu_isdigit c.2.2.2 d (by rw [hds]; simp)
    rw [hline]
    apply no_end_marker_in_line body d
      (fmt_lld c.1.tv_sec ++ 32 :: (get_current_command c.1 ++ 32 :: (c.2.1 ++ 32 ::
        (fmt_lld c.2.2.1 ++ 32 :: ds)))) _ hd hnl
    rw [← hbody, hds]
    simp

/-- The text of a run of formatted lines: free of zero bytes and of the end
marker, ending with a newline. -/
theorem entries_text_props : ∀ (calls : List (Env × List Nat × Int × Nat)),
    (∀ c ∈ calls, find_sub LOG_END_MARKER (entry_line c) = none) →
    (∀ b ∈ (calls.map entry_line).flatten, b ≠ 0) ∧
    find_sub LOG_END_MARKER (calls.map entry_line).flatten = none ∧
    ((calls.map entry_line).flatten ≠ [] →
      ((calls.map entry_line).flatten).getLast? = some 10)
  | [], _ => by
    refine ⟨by simp, by decide, fun h => absurd rfl h⟩
  | c :: rest, hfree => by
    obtain ⟨h1, h2, h3⟩ := entries_text_props rest
      (fun c2 hc2 => hfree c2 (List.mem_cons_of_mem _ hc2))
    simp only [List.map_cons, List.flatten_cons]
    refine ⟨?_, ?_, ?_⟩
    · intro b hb
      rw [List.mem_append] at hb
      rcases hb with hb | hb
      · exact format_log_line_ne_zero _ _ _ _ _ b hb
      · exact h1 b hb
    · exact end_marker_free_append _ _ (hfree c (List.mem_cons_self _ _))
        (fun _ => format_log_line_last _ _ _ _ _) h2
    · intro _
      by_cases hr : (rest.map entry_line).flatten = []
      · rw [hr, List.append_nil]
        exact format_log_line_last _ _ _ _ _
      · rw [List.getLast?_append_of_ne_nil _ hr]
        exact h3 hr

/-- The backward scan over the text of a run of decodable entries finds no
write exactly when no entry is a write. -/
theorem last_write_of_entries (calls : List (Env × List Nat × Int × Nat))
    (hne : calls ≠ [])
    (hok : ∀ c ∈ calls, -9223372036854775808 ≤ c.1.tv_sec ∧ c.1.tv_sec < 9223372036854775808 ∧
      get_current_command c.1 ≠ [] ∧ (∀ b ∈ get_current_command c.1, isspace b = false) ∧
      c.2.1 ∈ [bytes "read", bytes "write", bytes "truncate"] ∧
      -9223372036854775808 ≤ c.2.2.1 ∧ c.2.2.1 < 9223372036854775808 ∧
      c.2.2.2 < 18446744073709551616) :
    (∀ c ∈ calls, find_sub LOG_END_MARKER (entry_line c) = none) ∧
    (last_write_loop (calls.map entry_line).flatten
        ((calls.map entry_line).flatten.length + 1) (calls.map entry_line).flatten.length = none
      ↔ ∀ c ∈ calls, c.2.1 ≠ bytes "write") := by
  have hdec : ∀ c ∈ calls, _ := fun c hc =>
    entry_line_decodes c (hok c hc).1 (hok c hc).2.1 (hok c hc).2.2.1 (hok c hc).2.2.2.1
      (bytes_ops_props _ (hok c hc).2.2.2.2.1).1 (bytes_ops_props _ (hok c hc).2.2.2.2.1).2.1
      (bytes_ops_props _ (hok c hc).2.2.2.2.1).2.2.1
      (by have := (bytes_ops_props _ (hok c hc).2.2.2.2.1).2.2.2; omega)
      (hok c hc).2.2.2.2.2.1 (hok c hc).2.2.2.2.2.2.1 (hok c hc).2.2.2.2.2.2.2
  refine ⟨fun c hc => (hdec c hc).2.2.2.2.2, ?_⟩
  have hmap : calls.map entry_line
      = (calls.map (fun c => (entry_line c).dropLast)).map (fun x => x ++ [10]) := by
    rw [List.map_map]
    apply List.map_congr_left
    intro c hc
    exact (hdec c hc).1
  rw [hmap]
  rcases List.eq_nil_or_concat calls with h0 | ⟨init, last, hcat⟩
  · exact absurd h0 hne
  · rw [List.concat_eq_append] at hcat
    have hbodies : calls.map (fun c => (entry_line c).dropLast)
        = init.map (fun c => (entry_line c).dropLast) ++ [(entry_line last).dropLast] := by
      rw [hcat]; simp
    have hlast_mem : last ∈ calls := by rw [hcat]; simp
    rw [hbodies, last_write_scan _ _ (by
        intro q hq
        rw [← hbodies, List.mem_map] at hq
        obtain ⟨c, hc, rfl⟩ := hq
        exact ⟨(hdec c hc).2.1, (hdec c hc).2.2.1⟩)
      (hdec last hlast_mem).2.2.2.2.1, ← hbodies]
    rw [List.findSome?_eq_none_iff]
    constructor
    · intro h c hc hw
      have h1 := h ((entry_line c).dropLast) (by
        rw [List.mem_reverse, List.mem_map]; exact ⟨c, hc, rfl⟩)
      rw [(hdec c hc).2.2.2.1, if_pos hw] at h1
      cases h1
    · intro h q hq
      rw [List.mem_reverse, List.mem_map] at hq
      obtain ⟨c, hc, rfl⟩ := hq
      rw [(hdec c hc).2.2.2.1, if_neg (h c hc)]

/-- C27 (amended).  Let the log region be the start marker, the lines of a
non-empty run of entries, and the end marker, where each entry has a command
without white space, an operation among `read`, `write`, `truncate`, and
64-bit numbers.  With the allocation succeeding, `remove_last_write_log`
returns `-ENOENT` exactly when no entry is a write, and then the object is
left as it was. -/
theorem remove_last_write_log_no_write_entry (env : Env) (fi : loggerfs_file_info)
    (calls : List (Env × List Nat × Int × Nat))
    (hk : env.kmalloc_ok = true) (hne : calls ≠ [])
    (hregion : read_from_file fi.pages fi.log_start fi.log_size
      = LOG_START_MARKER ++ (calls.map entry_line).flatten ++ LOG_END_MARKER)
    (hok : ∀ c ∈ calls, -9223372036854775808 ≤ c.1.tv_sec ∧ c.1.tv_sec < 9223372036854775808 ∧
      get_current_command c.1 ≠ [] ∧ (∀ b ∈ get_current_command c.1, isspace b = false) ∧
      c.2.1 ∈ [bytes "read", bytes "write", bytes "truncate"] ∧
      -9223372036854775808 ≤ c.2.2.1 ∧ c.2.2.1 < 9223372036854775808 ∧
      c.2.2.2 < 18446744073709551616) :
    ((remove_last_write_log env fi).1 = -ENOENT ↔ ∀ c ∈ calls, c.2.1 ≠ bytes "write") ∧
    ((∀ c ∈ calls, c.2.1 ≠ bytes "write") → remove_last_write_log env fi = (-ENOENT, fi)) := by
  obtain ⟨hfree, hscan⟩ := last_write_of_entries calls hne hok
  obtain ⟨hnz, hfree2, hnl⟩ := entries_text_props calls hfree
  have htext := log_text_region _ hnz hfree2 hnl
  rw [← hregion] at htext
  have h0 : fi.log_size ≠ 0 := by
    intro h
    rw [h] at hregion
    have hlen := congrArg List.length hregion
    simp only [List.length_append, (by decide : LOG_START_MARKER.length = 25)] at hlen
    have : (read_from_file fi.pages fi.log_start 0).length = 0 := rfl
    omega
  simp only [remove_last_write_log, h0, if_false, hk, not_true_eq_false, htext]
  cases hl : last_write_loop (calls.map entry_line).flatten
      ((calls.map entry_line).flatten.length + 1) (calls.map entry_line).flatten.length with
  | none =>
    have hall := hscan.1 hl
    exact ⟨⟨fun _ => hall, fun _ => rfl⟩, fun _ => rfl⟩
  | some p =>
    have hnall : ¬ ∀ c ∈ calls, c.2.1 ≠ bytes "write" := by
      intro hall
      rw [hscan.2 hall] at hl
      cases hl
    refine ⟨⟨fun h => ?_, fun h => absurd h hnall⟩, fun h => absurd h hnall⟩
    exfalso
    revert h
    simp only []
    split
    · simp [rebuild_log_without_last_write, ENOENT]
    · rcases restore_original_data_ret env fi with h | h | h | h <;> rw [h] <;>
        simp [ENODATA, EINVAL, EIO, ENOENT]

/-- The theorem `remove_last_write_log_no_write_entry` at `read_log_object`,
whose log holds one read entry. -/
theorem remove_last_write_log_no_write_entry_witness :
    read_from_file read_log_object.pages read_log_object.log_start read_log_object.log_size
      = LOG_START_MARKER ++ ([(env0, bytes "read", 0, 1)].map entry_line).flatten
          ++ LOG_END_MARKER ∧
    (remove_last_write_log env0 read_log_object).1 = -ENOENT ∧
    remove_last_write_log env0 read_log_object = (-ENOENT, read_log_object) :=
  have h := remove_last_write_log_no_write_entry env0 read_log_object
    [(env0, bytes "read", 0, 1)] rfl (List.cons_ne_nil _ _) (by decide)
    (by
      intro c hc
      simp only [List.mem_singleton] at hc
      subst hc
      decide)
  ⟨by decide, h.1.2 (by decide), h.2 (by decide)⟩

/-- C27 as stated fails: the log of `blank_command_object` was built by
`add_log_entry` and holds one write entry, made by an executable whose path
holds a blank; the backup is valid, yet `remove_last_write_log` returns
`-ENOENT`. -/
theorem revert_misses_write_of_command_with_blank :
    read_from_file blank_command_object.pages blank_command_object.log_start
        blank_command_object.log_size
      = LOG_START_MARKER ++ ([(env_space, bytes "write", 0, 1)].map entry_line).flatten
          ++ LOG_END_MARKER ∧
    blank_command_object.backup.is_valid = true ∧
    (remove_last_write_log env0 blank_command_object).1 = -ENOENT := by
  decide

/-! ## Sizes and snapshots of the file operations -/

/-- What `add_log_entry` never touches, in any environment. -/
theorem add_log_entry_frame (env : Env) (fi : loggerfs_file_info) (operation : List Nat)
    (offset : Int) (length : Nat) :
    (add_log_entry env fi operation offset length).2.data_size = fi.data_size ∧
    (add_log_entry env fi operation offset length).2.i_size = fi.i_size ∧
    (add_log_entry env fi operation offset length).2.backup = fi.backup := by
  simp only [add_log_entry]
  split
  · exact ⟨rfl, rfl, rfl⟩
  · split
    · split
      · split <;> exact ⟨rfl, rfl, rfl⟩
      · exact ⟨rfl, rfl, rfl⟩
    · split
      · split
        · split <;> exact ⟨rfl, rfl, rfl⟩
        · exact ⟨rfl, rfl, rfl⟩
      · split
        · split <;> exact ⟨rfl, rfl, rfl⟩
        · exact ⟨rfl, rfl, rfl⟩

/-- Once the buffer is allocated, the log is not empty after `add_log_entry`,
when the sum of `log_size` and the length of the line does not wrap. -/
theorem add_log_entry_log_size_pos (env : Env) (fi : loggerfs_file_info)
    (operation : List Nat) (offset : Int) (length : Nat)
    (hk : env.kmalloc_ok = true)
    (hfmt : (format_log_line env.tv_sec (get_current_command env) operation offset
      length).length < 512)
    (hsize : fi.log_size + 512 ≤ 18446744073709551616) :
    0 < (add_log_entry env fi operation offset length).2.log_size := by
  have hne : (format_log_line env.tv_sec (get_current_command env) operation offset
      length).length ≠ 0 := by
    intro h
    have h1 := format_log_line_last env.tv_sec (get_current_command env) operation offset length
    rw [List.length_eq_zero.1 h] at h1
    cases h1
  have hc : ¬ ((format_log_line env.tv_sec (get_current_command env) operation offset
      length).length = 0 ∨ (format_log_line env.tv_sec (get_current_command env) operation
      offset length).length ≥ 512) := by omega
  simp only [add_log_entry, strlen_start_marker, strlen_end_marker, hk, if_true]
  rw [if_neg hc]
  split
  · split <;> (simp only []; omega)
  · split
    · split <;> (simp only []; omega)
    · split <;> (simp only []; omega)

/-- The page loop of `loggerfs_write` either copies all `count` bytes or stops
early on an error. -/
theorem loggerfs_write_loop_outcome (env : Env) (pos : Int) (buf : List Nat) (count : Nat) :
    ∀ (fuel copied : Nat) (pages : Nat → Nat), count - copied ≤ fuel → copied ≤ count →
      ((loggerfs_write_loop env pos buf count fuel copied pages).2.2 = none ∧
        (loggerfs_write_loop env pos buf count fuel copied pages).1 = count) ∨
      ((loggerfs_write_loop env pos buf count fuel copied pages).1 < count ∧
        ((loggerfs_write_loop env pos buf count fuel copied pages).2.2 = some (-ENOMEM) ∨
         (loggerfs_write_loop env pos buf count fuel copied pages).2.2 = some (-EFAULT))) := by
  intro fuel
  induction fuel with
  | zero =>
    intro copied pages hf hc
    left
    simp only [loggerfs_write_loop]
    exact ⟨trivial, by omega⟩
  | succ fuel ih =>
    intro copied pages hf hc
    simp only [loggerfs_write_loop]
    by_cases hlt : copied < count
    · rw [if_pos hlt]
      obtain ⟨hcs1, hcs2⟩ := chunk_pos count copied (u64 (pos + copied)) hlt
      by_cases hp : env.page_ok (u64 (pos + copied) / PAGE_SIZE) = true
      · rw [if_pos hp]
        by_cases hu : env.user_ok copied = true
        · rw [if_pos hu]
          exact ih _ _ (by omega) (by omega)
        · rw [if_neg hu]
          right
          exact ⟨hlt, Or.inr rfl⟩
      · rw [if_neg hp]
        right
        exact ⟨hlt, Or.inl rfl⟩
    · rw [if_neg hlt]
      left
      exact ⟨rfl, by simp only []; omega⟩

/-- C28.  Let `init_file_info_from_disk` resolve the layout, and let the user
copies succeed.  For `pos >= 0`, `loggerfs_read` returns 0 and no byte when
`pos >= data_size`, and otherwise `min count (data_size - pos)` bytes; the
bytes delivered are the stored bytes from `pos` on, each at an address below
`data_size`, outside the log region `[log_start, log_start + log_size)`. -/
theorem loggerfs_read_clamped (fuel : Nat) (env : Env) (fi0 fi : loggerfs_file_info)
    (pos : Int) (count : Nat)
    (hinit : init_file_info_from_disk fuel fi0 = some fi)
    (hu : ∀ i, env.user_ok i = true)
    (hpos : 0 ≤ pos) (hd : fi.data_size < 9223372036854775808)
    (hb : pos + count < 9223372036854775808) :
    ∃ r, loggerfs_read fuel env fi0 pos count = some r ∧
      (pos ≥ fi.data_size → r.ret = 0 ∧ r.buf = []) ∧
      (pos < fi.data_size → r.ret = ((min count (fi.data_size - pos).toNat : Nat) : Int)) ∧
      r.buf = (List.range r.ret.toNat).map (fun k => fi.pages (pos.toNat + k)) ∧
      (∀ k : Nat, k < r.ret.toNat → pos + k < fi.data_size ∧
        ¬ (fi.log_start ≤ pos + k ∧ pos + k < fi.log_start + fi.log_size)) := by
  obtain ⟨hls, _, _, _⟩ := init_file_info_from_disk_layout fuel fi0 fi hinit
  simp only [loggerfs_read, hinit]
  by_cases hge : pos ≥ fi.data_size
  · rw [if_pos hge]
    refine ⟨_, rfl, fun _ => ⟨rfl, rfl⟩, fun h => absurd h (by omega), rfl, ?_⟩
    intro k hk
    simp at hk
  · rw [if_neg hge]
    generalize hcdef : (if u64 (pos + (count : Int)) > u64 fi.data_size
      then u64 (fi.data_size - pos) else count) = n
    have hn : n = min count (fi.data_size - pos).toNat := by
      rw [← hcdef]
      rw [u64_of_nonneg (pos + count) (by omega) (by omega),
        u64_of_nonneg fi.data_size (by omega) (by omega),
        u64_of_nonneg (fi.data_size - pos) (by omega) (by omega)]
      split <;> omega
    by_cases hn0 : n = 0
    · rw [if_pos hn0]
      refine ⟨_, rfl, fun h => absurd h hge, fun _ => ?_, rfl, ?_⟩
      · show (0 : Int) = _
        rw [← hn, hn0]; rfl
      · intro k hk
        simp at hk
    · rw [if_neg hn0]
      have hloop := loggerfs_read_loop_spec env fi.pages pos n hu hpos (by omega) n 0 []
        (by omega) (by omega)
      have hret : ((n : Nat) : Int) > 0 := by omega
      simp only [hloop, Bool.false_eq_true, false_and, if_false, hret, if_true,
        Nat.sub_zero, Nat.add_zero, List.nil_append]
      refine ⟨_, rfl, fun h => absurd h hge, fun _ => ?_, ?_, ?_⟩
      · show ((n : Nat) : Int) = _
        rw [hn]
      · show _ = (List.range ((n : Int)).toNat).map _
        rw [Int.toNat_ofNat]
      · intro k hk
        replace hk : k < ((n : Nat) : Int).toNat := hk
        rw [Int.toNat_ofNat] at hk
        omega

/-- The theorem `loggerfs_read_clamped` on `disk_object` (one byte of data): a
read of 5 bytes at offset 0 returns the one byte `a`. -/
theorem loggerfs_read_clamped_witness :
    init_file_info_from_disk 1 disk_object = some resolved_disk_object ∧
    (0 : Int) < resolved_disk_object.data_size ∧
    ∃ r, loggerfs_read 1 env1 disk_object 0 5 = some r ∧ r.ret = 1 ∧
      r.buf = (List.range r.ret.toNat).map (fun k => resolved_disk_object.pages (0 + k)) :=
  have h := loggerfs_read_clamped 1 env1 disk_object resolved_disk_object 0 5 rfl
    (fun _ => rfl) (by decide) (by decide) (by decide)
  ⟨rfl, by decide, h.elim fun r hr =>
    ⟨r, hr.1, (hr.2.2.1 (by decide)).trans (by decide), hr.2.2.2.1⟩⟩

/-- C29.  Let `init_file_info_from_disk` resolve the layout, with data size
`D`.  A `loggerfs_write` of `n > 0` bytes at `pos >= 0` returns; it returns `n`
when no page and no user copy fails; and whenever it returns `n`, the file
position is `pos + n`, `data_size` is `max D (pos + n)` and `i_size` equals
`data_size`.  When the log entry is allocated and the resolved `log_size`
is at most `2 ^ 64 - 512`, so that its sum with the length of the line does
not wrap to 0, the log is not empty, so `i_size` is not
`data_size + log_size`. -/
theorem loggerfs_write_extends_data_size (fuel : Nat) (env : Env) (fi0 fi : loggerfs_file_info)
    (pos : Int) (buf : List Nat) (n : Nat)
    (hinit : init_file_info_from_disk fuel fi0 = some fi)
    (hn : 0 < n) (hpos : 0 ≤ pos) (hb : pos + n < 9223372036854775808) :
    ∃ w, loggerfs_write fuel env fi0 pos buf n = some w ∧
      ((∀ i, env.page_ok i = true ∧ env.user_ok i = true) → w.ret = n) ∧
      (w.ret = n →
        w.ppos = pos + n ∧ w.fi.data_size = max fi.data_size (pos + n) ∧
        w.fi.i_size = w.fi.data_size ∧
        (env.kmalloc_ok = true → -9223372036854775808 ≤ env.tv_sec →
          env.tv_sec < 9223372036854775808 →
          fi.log_size + 512 ≤ 18446744073709551616 →
          0 < w.fi.log_size ∧ w.fi.i_size ≠ w.fi.data_size + w.fi.log_size)) := by
  simp only [loggerfs_write, hinit]
  generalize hfi1 : (if pos < fi.data_size then
    (backup_original_data env fi pos (min n (u64 (fi.data_size - pos)))).2 else fi) = fi1
  have hd1 : fi1.data_size = fi.data_size := by
    rw [← hfi1]
    split
    · exact (backup_original_data_frame env fi pos _).2.1
    · rfl
  generalize hfi2 : (if pos > fi1.data_size then
    ({ fi1 with pages := truncate_inode_pages fi1.pages fi1.data_size, log_size := 0,
                log_start := fi1.data_size, total_size := fi1.data_size } : loggerfs_file_info)
    else fi1) = fi2
  have hd2 : fi2.data_size = fi.data_size := by
    rw [← hfi2, ← hd1]
    split <;> rfl
  have hl1 : fi1.log_size = fi.log_size := by
    rw [← hfi1]
    split
    · exact (backup_original_data_frame env fi pos _).2.2.2.1
    · rfl
  have hl2 : fi2.log_size ≤ fi.log_size := by
    rw [← hfi2, ← hl1]
    split
    · exact Nat.zero_le _
    · exact Nat.le_refl _
  have hout := loggerfs_write_loop_outcome env pos buf n n 0 fi2.pages (by omega) (by omega)
  generalize hr : loggerfs_write_loop env pos buf n n 0 fi2.pages = r at hout
  have hnpos : ((n : Nat) : Int) > 0 := by omega
  rcases hout with ⟨he, hc⟩ | ⟨hc, he⟩
  · -- the loop went through
    simp only [he, hc, hnpos, if_true, Int.toNat_ofNat]
    refine ⟨_, rfl, fun _ => rfl, fun _ => ⟨rfl, ?_, rfl, ?_⟩⟩
    · simp only []
      rw [(add_log_entry_frame env _ (bytes "write") pos n).1]
      by_cases hgt : pos + (n : Int) > fi.data_size
      · rw [if_pos (by simpa only [hd2] using hgt)]
        show pos + (n : Int) = max fi.data_size (pos + n)
        exact (max_eq_right (by omega)).symm
      · rw [if_neg (by simpa only [hd2] using hgt)]
        show fi2.data_size = max fi.data_size (pos + n)
        rw [hd2]
        exact (max_eq_left (by omega)).symm
    · intro hk ht0 ht1 hsize
      have hfit := line_fits env (bytes "write") pos n ht0 ht1 (by omega) (by omega)
        (by omega) (Or.inr (Or.inl rfl))
      have hpos2 := add_log_entry_log_size_pos env
        (if pos + (n : Int) > fi2.data_size
          then ({ fi2 with pages := r.2.1, data_size := pos + n, log_start := pos + n } :
            loggerfs_file_info)
          else { fi2 with pages := r.2.1 }) (bytes "write") pos n hk (by omega)
        (by split <;> (simp only []; omega))
      simp only []
      refine ⟨hpos2, ?_⟩
      omega
  · -- the loop stopped early
    rcases he with h | h
    · simp only [h]
      refine ⟨_, rfl, ?_, ?_⟩
      · intro hok
        have hloop := loggerfs_write_loop_spec env pos buf n hok hpos (by omega) n 0 fi2.pages
          (by omega) (by omega)
        rw [hr] at hloop
        rw [hloop] at h
        cases h
      · intro habs
        exfalso
        split at habs <;> split at habs <;> simp only [ENOMEM, EFAULT] at habs <;> omega
    · simp only [h]
      refine ⟨_, rfl, ?_, ?_⟩
      · intro hok
        have hloop := loggerfs_write_loop_spec env pos buf n hok hpos (by omega) n 0 fi2.pages
          (by omega) (by omega)
        rw [hr] at hloop
        rw [hloop] at h
        cases h
      · intro habs
        exfalso
        split at habs <;> split at habs <;> simp only [ENOMEM, EFAULT] at habs <;> omega

/-- The theorem `loggerfs_write_extends_data_size` on `disk_object` (one byte of
data): a write of 3 bytes at offset 0 leaves `data_size = i_size = 3`. -/
theorem loggerfs_write_extends_data_size_witness :
    init_file_info_from_disk 1 disk_object = some resolved_disk_object ∧
    ∃ w, loggerfs_write 1 env1 disk_object 0 [120, 121, 122] 3 = some w ∧ w.ret = 3 ∧
      w.fi.data_size = 3 ∧ w.fi.i_size = w.fi.data_size ∧ 0 < w.fi.log_size :=
  have h := loggerfs_write_extends_data_size 1 env1 disk_object resolved_disk_object 0
    [120, 121, 122] 3 rfl (by decide) (by decide) (by decide)
  ⟨rfl, h.elim fun w hw =>
    have hret := hw.2.1 (fun _ => ⟨rfl, rfl⟩)
    ⟨w, hw.1, hret, (hw.2.2 hret).2.1.trans (by decide), (hw.2.2 hret).2.2.1,
      ((hw.2.2 hret).2.2.2 rfl (by decide) (by decide) (by decide)).1⟩⟩

/-- The backup slot after `loggerfs_write`: the one left by the call of
`backup_original_data`, if there is one. -/
theorem loggerfs_write_backup (fuel : Nat) (env : Env) (fi0 fi : loggerfs_file_info)
    (pos : Int) (buf : List Nat) (count : Nat)
    (hinit : init_file_info_from_disk fuel fi0 = some fi) :
    ∃ w, loggerfs_write fuel env fi0 pos buf count = some w ∧
      w.fi.backup = (if pos < fi.data_size then
        (backup_original_data env fi pos (min count (u64 (fi.data_size - pos)))).2
        else fi).backup := by
  simp only [loggerfs_write, hinit]
  generalize (if pos < fi.data_size then
    (backup_original_data env fi pos (min count (u64 (fi.data_size - pos)))).2 else fi) = fi1
  generalize hfi2 : (if pos > fi1.data_size then
    ({ fi1 with pages := truncate_inode_pages fi1.pages fi1.data_size, log_size := 0,
                log_start := fi1.data_size, total_size := fi1.data_size } : loggerfs_file_info)
    else fi1) = fi2
  have hb2 : fi2.backup = fi1.backup := by
    rw [← hfi2]
    split <;> rfl
  generalize loggerfs_write_loop env pos buf count count 0 fi2.pages = r
  have hout : ∀ (c : Prop) [Decidable c] (a b : write_result),
      a.fi.backup = fi1.backup → b.fi.backup = fi1.backup →
      (if c then a else b).fi.backup = fi1.backup := by
    intro c _ a b ha hb
    split <;> assumption
  cases r.2.2 with
  | some err =>
    refine ⟨_, rfl, ?_⟩
    apply hout
    · simp only []
      rw [(add_log_entry_frame env _ _ _ _).2.2]
      exact hb2
    · exact hb2
  | none =>
    refine ⟨_, rfl, ?_⟩
    apply hout
    · simp only []
      rw [(add_log_entry_frame env _ _ _ _).2.2]
      split <;> exact hb2
    · simp only []
      split <;> exact hb2

/-- C30.  Let `init_file_info_from_disk` resolve the layout, with data size
`D`, let there be no valid backup, and let the allocation and the page
mappings succeed.  A `loggerfs_write` of `count > 0` bytes at `0 <= pos < D`
leaves the valid backup of `[pos, pos + min count (D - pos))` with the bytes
stored there before the write; a `loggerfs_write` at `pos >= D` leaves the
backup slot as it was, not valid; a `loggerfs_setattr` to `0 <= new_size < D`
leaves the valid backup of `[new_size, D)` with the bytes stored there before
the truncation. -/
theorem facade_snapshots (fuel : Nat) (env : Env) (fi0 fi : loggerfs_file_info)
    (hinit : init_file_info_from_disk fuel fi0 = some fi)
    (hnb : fi0.backup.is_valid = false)
    (hk : env.kmalloc_ok = true) (hmap : ∀ i, env.kmap_ok i = true)
    (hd : fi.data_size < 9223372036854775808) :
    (∀ (pos : Int) (buf : List Nat) (count : Nat), 0 < count → 0 ≤ pos → pos < fi.data_size →
      ∃ w, loggerfs_write fuel env fi0 pos buf count = some w ∧
        w.fi.backup = { offset := pos, length := min count (fi.data_size - pos).toNat,
                        original_data := some ((List.range
                          (min count (fi.data_size - pos).toNat)).map
                            (fun j => fi.pages (pos.toNat + j))),
                        is_valid := true }) ∧
    (∀ (pos : Int) (buf : List Nat) (count : Nat), pos ≥ fi.data_size →
      ∃ w, loggerfs_write fuel env fi0 pos buf count = some w ∧
        w.fi.backup = fi0.backup ∧ w.fi.backup.is_valid = false) ∧
    (∀ new_size : Int, 0 ≤ new_size → new_size < fi.data_size →
      ∃ r, loggerfs_setattr fuel env fi0 (some new_size) = some r ∧
        r.2.backup = { offset := new_size, length := (fi.data_size - new_size).toNat,
                       original_data := some ((List.range
                         (fi.data_size - new_size).toNat).map
                           (fun j => fi.pages (new_size.toNat + j))),
                       is_valid := true }) := by
  obtain ⟨_, _, _, hbk⟩ := init_file_info_from_disk_layout fuel fi0 fi hinit
  have hnb1 : fi.backup.is_valid = false := by rw [hbk]; exact hnb
  refine ⟨?_, ?_, ?_⟩
  · intro pos buf count hcount hpos hlt
    have hlen : min count (u64 (fi.data_size - pos)) = min count (fi.data_size - pos).toNat := by
      rw [u64_of_nonneg _ (by omega) (by omega)]
    have hlpos : 0 < min count (fi.data_size - pos).toNat := by omega
    have htk := backup_taken env fi pos (min count (fi.data_size - pos).toNat) (Or.inl hnb1)
      hk hlpos hpos (by omega)
    simp only [hmap, if_true] at htk
    obtain ⟨w, hw, hwb⟩ := loggerfs_write_backup fuel env fi0 fi pos buf count hinit
    refine ⟨w, hw, ?_⟩
    rw [hwb, if_pos hlt, hlen, htk]
  · intro pos buf count hge
    obtain ⟨w, hw, hwb⟩ := loggerfs_write_backup fuel env fi0 fi pos buf count hinit
    have hnlt : ¬ pos < fi.data_size := by omega
    rw [if_neg hnlt, hbk] at hwb
    exact ⟨w, hw, hwb, by rw [hwb]; exact hnb⟩
  · intro new_size hn0 hlt
    have hlen : u64 (fi.data_size - new_size) = (fi.data_size - new_size).toNat :=
      u64_of_nonneg _ (by omega) (by omega)
    have hlpos : 0 < (fi.data_size - new_size).toNat := by omega
    have htk := backup_taken env fi new_size (fi.data_size - new_size).toNat (Or.inl hnb1)
      hk hlpos hn0 (by omega)
    simp only [hmap, if_true] at htk
    simp only [loggerfs_setattr, hinit, hlt, if_true, hlen, htk]
    refine ⟨_, rfl, ?_⟩
    rw [(add_log_entry_frame env _ _ _ _).2.2]

/-- The theorem `facade_snapshots` on `disk_object` (the byte `a`): a write of
one byte at offset 0 and a truncation to 0 both save the byte `a`, a write
at offset 1 saves nothing. -/
theorem facade_snapshots_witness :
    init_file_info_from_disk 1 disk_object = some resolved_disk_object ∧
    (∃ w, loggerfs_write 1 env1 disk_object 0 [120] 1 = some w ∧
      w.fi.backup.is_valid = true ∧ w.fi.backup.offset = 0 ∧ w.fi.backup.length = 1 ∧
      w.fi.backup.original_data = some [97]) ∧
    (∃ w, loggerfs_write 1 env1 disk_object 1 [120] 1 = some w ∧
      w.fi.backup.is_valid = false) ∧
    (∃ r, loggerfs_setattr 1 env1 disk_object (some 0) = some r ∧
      r.2.backup.is_valid = true ∧ r.2.backup.offset = 0 ∧ r.2.backup.length = 1 ∧
      r.2.backup.original_data = some [97]) :=
  have h := facade_snapshots 1 env1 disk_object resolved_disk_object rfl (by decide) rfl
    (fun _ => rfl) (by decide)
  ⟨rfl,
   (h.1 0 [120] 1 (by decide) (by decide) (by decide)).elim fun w hw =>
     ⟨w, hw.1, congrArg backup_data.is_valid hw.2,
       congrArg backup_data.offset hw.2,
       (congrArg backup_data.length hw.2).trans (by decide),
       (congrArg backup_data.original_data hw.2).trans (by decide)⟩,
   (h.2.1 1 [120] 1 (by decide)).elim fun w hw => ⟨w, hw.1, hw.2.2⟩,
   (h.2.2 0 (by decide) (by decide)).elim fun r hr =>
     ⟨r, hr.1, congrArg backup_data.is_valid hr.2,
       congrArg backup_data.offset hr.2,
       (congrArg backup_data.length hr.2).trans (by decide),
       (congrArg backup_data.original_data hr.2).trans (by decide)⟩⟩

/-! ## Truncation -/

/-- C31.  Let `init_file_info_from_disk` resolve the layout of the object, and
let `0 <= new_size` with `new_size + 4096` in the range of `loff_t`.  Then
`loggerfs_setattr` with `ATTR_SIZE` returns 0 and leaves `data_size` and the
visible size `i_size` equal to `new_size`.  When the allocation and the page
lookups of `add_log_entry` succeed, the log region starts at `new_size` and is
the start marker, one `truncate` line with offset `new_size` and length 0, and
the end marker, so that this line is the last entry of the log. -/
theorem loggerfs_setattr_truncates (fuel : Nat) (env : Env) (fi0 fi : loggerfs_file_info)
    (new_size : Int)
    (hinit : init_file_info_from_disk fuel fi0 = some fi)
    (hn0 : 0 ≤ new_size) (hb : new_size + 4096 ≤ 9223372036854775808) :
    ∃ r, loggerfs_setattr fuel env fi0 (some new_size) = some r ∧ r.1 = 0 ∧
      r.2.data_size = new_size ∧ r.2.i_size = new_size ∧
      (env.kmalloc_ok = true → (∀ i, env.page_ok i = true) →
        -9223372036854775808 ≤ env.tv_sec → env.tv_sec < 9223372036854775808 →
        r.2.log_start = new_size ∧
        read_from_file r.2.pages r.2.log_start r.2.log_size
          = LOG_START_MARKER ++
              format_log_line env.tv_sec (get_current_command env) (bytes "truncate") new_size 0
              ++ LOG_END_MARKER ∧
        r.2.total_size = r.2.data_size + r.2.log_size) := by
  simp only [loggerfs_setattr, hinit]
  generalize (if new_size < fi.data_size then
    (backup_original_data env fi new_size (u64 (fi.data_size - new_size))).2 else fi) = fi1
  refine ⟨_, rfl, rfl, ?_, ?_, ?_⟩
  · simp only []
    rw [(add_log_entry_frame env _ _ _ _).1]
  · simp only []
    rw [(add_log_entry_frame env _ _ _ _).2.1]
  · intro hk hp ht0 ht1
    have hfit := line_fits env (bytes "truncate") new_size 0 ht0 ht1 (by omega) (by omega)
      (by omega) (Or.inr (Or.inr rfl))
    obtain ⟨_, h2, h3, h4, _, h6, h7, _⟩ := add_log_entry_new_region env
      ⟨new_size, truncate_inode_pages fi1.pages new_size, new_size, new_size, 0, new_size,
        fi1.backup⟩
      (bytes "truncate") new_size 0 (Or.inl rfl) (by omega) hk hp (by simp only []; omega)
      (by simp only []; omega)
    refine ⟨?_, ?_, ?_⟩
    · with_reducible exact h2
    · with_reducible exact h4
    · simp only []
      rw [h7, h6]


/-- The theorem `loggerfs_setattr_truncates` at `disk_object`, truncated to
size 0. -/
theorem loggerfs_setattr_truncates_witness :
    init_file_info_from_disk 1 disk_object = some resolved_disk_object ∧
    ∃ r, loggerfs_setattr 1 env0 disk_object (some 0) = some r ∧ r.1 = 0 ∧
      r.2.data_size = 0 ∧ r.2.i_size = 0 ∧ r.2.log_start = 0 ∧
      read_from_file r.2.pages r.2.log_start r.2.log_size
        = LOG_START_MARKER ++ format_log_line env0.tv_sec (get_current_command env0)
            (bytes "truncate") 0 0 ++ LOG_END_MARKER ∧
      r.2.total_size = r.2.data_size + r.2.log_size :=
  have h := loggerfs_setattr_truncates 1 env0 disk_object resolved_disk_object 0 rfl
    (by decide) (by decide)
  ⟨rfl, h.elim fun r hr =>
    have hl := hr.2.2.2.2 rfl (fun _ => rfl) (by decide) (by decide)
    ⟨r, hr.1, hr.2.1, hr.2.2.1, hr.2.2.2.1, hl.1, hl.2.1, hl.2.2⟩⟩

/-! ## Failures, cleanup and sizes of `add_log_entry` -/

/-- C32 fails in the code.  When `kmalloc` fails in the call that would rotate
the log of `full_log_object`, `add_log_entry` returns `-ENOMEM` and `log_size`
has gone from 4090 to 0.  When `grab_cache_page` fails in `write_log_to_file`
for `middle_write_object`, `add_log_entry` returns `-ENOMEM` and `log_size`
has gone from 78 to 107, counting a line that was not stored, while
`total_size` stays at 98. -/
theorem add_log_entry_enomem_moves_layout :
    full_log_object.log_size = 4090 ∧
    (add_log_entry env_no_mem full_log_object (bytes "write") 0 1).1 = -ENOMEM ∧
    (add_log_entry env_no_mem full_log_object (bytes "write") 0 1).2.log_size = 0 ∧
    middle_write_object.log_size = 78 ∧ middle_write_object.total_size = 98 ∧
    (add_log_entry env_no_page middle_write_object (bytes "read") 0 1).1 = -ENOMEM ∧
    (add_log_entry env_no_page middle_write_object (bytes "read") 0 1).2.log_size = 107 ∧
    (add_log_entry env_no_page middle_write_object (bytes "read") 0 1).2.total_size = 98 := by
  decide

/-- C33.  For every object, `cleanup_backup_data` leaves the backup invalid
with offset 0, length 0 and no buffer, leaves every other field as it was, and
applied twice gives the object that it gives applied once. -/
theorem cleanup_backup_data_idempotent (fi : loggerfs_file_info) :
    (cleanup_backup_data fi).backup.is_valid = false ∧
    (cleanup_backup_data fi).backup.offset = 0 ∧
    (cleanup_backup_data fi).backup.length = 0 ∧
    (cleanup_backup_data fi).backup.original_data = none ∧
    (cleanup_backup_data fi).i_size = fi.i_size ∧
    (cleanup_backup_data fi).pages = fi.pages ∧
    (cleanup_backup_data fi).data_size = fi.data_size ∧
    (cleanup_backup_data fi).log_start = fi.log_start ∧
    (cleanup_backup_data fi).log_size = fi.log_size ∧
    (cleanup_backup_data fi).total_size = fi.total_size ∧
    cleanup_backup_data (cleanup_backup_data fi) = cleanup_backup_data fi :=
  ⟨rfl, rfl, rfl, rfl, rfl, rfl, rfl, rfl, rfl, rfl, rfl⟩

/-- C35 fails in the code.  The object `two_byte_object` has no valid backup
and `data_size = 2`.  After `backup_original_data` of the range `[1, 2)`, an
overwrite of that byte in place, and `restore_original_data`, which returns 0,
the byte is restored but `data_size` is 1, not 2. -/
theorem undo_of_tail_overwrite_shrinks :
    two_byte_object.backup.is_valid = false ∧ two_byte_object.data_size = 2 ∧
    (backup_original_data env0 two_byte_object 1 1).1 = 0 ∧
    (restore_original_data env0
      { (backup_original_data env0 two_byte_object 1 1).2 with
        pages := fun x => if x = 1 then 120 else two_byte_object.pages x }).1 = 0 ∧
    (restore_original_data env0
      { (backup_original_data env0 two_byte_object 1 1).2 with
        pages := fun x => if x = 1 then 120 else two_byte_object.pages x }).2.pages 1 = 98 ∧
    (restore_original_data env0
      { (backup_original_data env0 two_byte_object 1 1).2 with
        pages := fun x => if x = 1 then 120 else two_byte_object.pages x }).2.data_size = 1 := by
  decide

/-- C37 fails in the code.  The layout of `disk_object` resolves to
`data_size = 1` with a log region of 78 bytes at offset 1.  A call of
`loggerfs_write` with `count = 0` at `pos = 5` returns 0 and leaves
`data_size = 5`, `log_start = 5`, `log_size = 0` and `total_size = 1`, and the
first byte of the log region is zeroed. -/
theorem zero_byte_write_moves_data_size :
    init_file_info_from_disk 1 disk_object = some resolved_disk_object ∧
    resolved_disk_object.data_size = 1 ∧ resolved_disk_object.log_size = 78 ∧
    resolved_disk_object.pages 1 = 60 ∧
    ∃ w, loggerfs_write 1 env0 disk_object 5 [] 0 = some w ∧
      w.ret = 0 ∧ w.fi.data_size = 5 ∧ w.fi.log_start = 5 ∧ w.fi.log_size = 0 ∧
      w.fi.total_size = 1 ∧ w.fi.i_size = 1 ∧ w.fi.pages 1 = 0 :=
  ⟨rfl, by decide, by decide, by decide,
    exists_of_map_decide (loggerfs_write 1 env0 disk_object 5 [] 0) _ (by decide)⟩

/-- The loop of `write_log_to_file` returns 0 or `-ENOMEM`. -/
theorem write_log_to_file_loop_ret (env : Env) (pos : Int) (data : List Nat) (len : Nat) :
    ∀ (fuel written : Nat) (pages : Nat → Nat),
      (write_log_to_file_loop env pos data len fuel written pages).1 = 0 ∨
      (write_log_to_file_loop env pos data len fuel written pages).1 = -ENOMEM := by
  intro fuel
  induction fuel with
  | zero => intro written pages; exact Or.inl rfl
  | succ fuel ih =>
    intro written pages
    simp only [write_log_to_file_loop]
    split
    · split
      · exact ih _ _
      · exact Or.inr rfl
    · exact Or.inl rfl

/-- The function `add_log_entry` returns 0, `-ENOMEM`, or `-EINVAL` when the
formatted line is empty or has 512 bytes or more. -/
theorem add_log_entry_ret (env : Env) (fi : loggerfs_file_info) (operation : List Nat)
    (offset : Int) (length : Nat) :
    (add_log_entry env fi operation offset length).1 = 0 ∨
    (add_log_entry env fi operation offset length).1 = -ENOMEM ∨
    ((add_log_entry env fi operation offset length).1 = -EINVAL ∧
      ((format_log_line env.tv_sec (get_current_command env) operation offset length).length = 0
        ∨ (format_log_line env.tv_sec (get_current_command env) operation offset length).length
          ≥ 512)) := by
  have hw : ∀ (pages : Nat → Nat) (pos : Int) (data : List Nat) (len : Nat),
      (write_log_to_file env pages pos data len).1 = 0 ∨
      (write_log_to_file env pages pos data len).1 = -ENOMEM :=
    fun pages pos data len => write_log_to_file_loop_ret env pos data len len 0 pages
  simp only [add_log_entry]
  split
  · rename_i h
    exact Or.inr (Or.inr ⟨rfl, h⟩)
  · split
    · split
      · split
        · exact Or.inl rfl
        · rename_i h
          rcases hw _ _ _ _ with h1 | h1
          · exact absurd h1 h
          · exact Or.inr (Or.inl h1)
      · exact Or.inr (Or.inl rfl)
    · split
      · split
        · split
          · exact Or.inl rfl
          · rename_i h
            rcases hw _ _ _ _ with h1 | h1
            · exact absurd h1 h
            · exact Or.inr (Or.inl h1)
        · exact Or.inr (Or.inl rfl)
      · split
        · split
          · exact Or.inl rfl
          · rename_i h
            rcases hw _ _ _ _ with h1 | h1
            · exact absurd h1 h
            · exact Or.inr (Or.inl h1)
        · exact Or.inr (Or.inl rfl)

/-- A formatted line is not empty. -/
theorem format_log_line_pos (tv_sec : Int) (command operation : List Nat) (offset : Int)
    (length : Nat) : 0 < (format_log_line tv_sec command operation offset length).length := by
  simp [format_log_line]

/-- C38.  For a 64-bit time stamp, a command of at most 255 bytes, an
operation among `read`, `write`, `truncate`, a 64-bit offset and a 64-bit
length, the formatted line has at most 328 bytes; so has the line that
`add_log_entry` formats with the command of `get_current_command`, which is
not empty either.  Hence `add_log_entry` never returns `-EINVAL`, the result of
its formatting-failure branch, and a region that it starts anew (empty log or
rotation, the sum of `log_size` and the length of the line being taken in
`size_t` as the code takes it) with the allocation succeeding has
`25 + line + 23 <= 376` bytes. -/
theorem line_never_too_long (env : Env) (command operation : List Nat) (offset : Int)
    (length : Nat)
    (ht0 : -9223372036854775808 ≤ env.tv_sec) (ht1 : env.tv_sec < 9223372036854775808)
    (hc : (cstr command).length ≤ 255)
    (hop : operation = bytes "read" ∨ operation = bytes "write" ∨
      operation = bytes "truncate")
    (ho0 : -9223372036854775808 ≤ offset) (ho1 : offset < 9223372036854775808)
    (hl : length < 18446744073709551616) :
    (format_log_line env.tv_sec command operation offset length).length ≤ 328 ∧
    0 < (format_log_line env.tv_sec (get_current_command env) operation offset length).length ∧
    (format_log_line env.tv_sec (get_current_command env) operation offset length).length
      ≤ 328 ∧
    (∀ fi : loggerfs_file_info, (add_log_entry env fi operation offset length).1 ≠ -EINVAL) ∧
    (∀ fi : loggerfs_file_info, env.kmalloc_ok = true →
      fi.log_size = 0 ∨ (fi.log_size + (format_log_line env.tv_sec (get_current_command env)
        operation offset length).length) % 18446744073709551616 > MAX_LOG_SIZE →
      (add_log_entry env fi operation offset length).2.log_size
        = 25 + (format_log_line env.tv_sec (get_current_command env) operation offset
            length).length + 23 ∧
      (add_log_entry env fi operation offset length).2.log_size ≤ 376) := by
  have hgen := format_log_line_length env.tv_sec command operation offset length
    ht0 ht1 ho0 ho1 hl
  have ho : (cstr operation).length ≤ 8 := by
    rcases hop with h | h | h <;> subst h <;> decide
  have hfit := line_fits env operation offset length ht0 ht1 ho0 ho1 hl hop
  have hpos := format_log_line_pos env.tv_sec (get_current_command env) operation offset length
  have hc2 : ¬ ((format_log_line env.tv_sec (get_current_command env) operation offset
      length).length = 0 ∨ (format_log_line env.tv_sec (get_current_command env) operation
      offset length).length ≥ 512) := by omega
  refine ⟨by omega, hpos, hfit, ?_, ?_⟩
  · intro fi
    rcases add_log_entry_ret env fi operation offset length with h | h | ⟨_, h⟩
    · rw [h]; decide
    · rw [h]; decide
    · exact absurd h hc2
  · intro fi hk hbranch
    simp only [add_log_entry, strlen_start_marker, strlen_end_marker, hk, if_true]
    rw [if_neg hc2]
    simp only [MAX_LOG_SIZE] at hbranch
    by_cases h0 : fi.log_size = 0
    · rw [if_pos h0]
      split <;> (simp only []; exact ⟨trivial, by omega⟩)
    · rw [if_neg h0]
      have hrot : (fi.log_size + (format_log_line env.tv_sec (get_current_command env)
          operation offset length).length) % 18446744073709551616 > MAX_LOG_SIZE := by
        simp only [MAX_LOG_SIZE]
        rcases hbranch with h | h
        · exact absurd h h0
        · exact h
      rw [if_pos hrot]
      split <;> (simp only []; exact ⟨trivial, by omega⟩)


/-- The theorem `line_never_too_long` for a write of one byte at offset 0 by
`/bin/cat`, on the fresh object. -/
theorem line_never_too_long_witness :
    (cstr (bytes "/bin/cat")).length ≤ 255 ∧
    (format_log_line env0.tv_sec (bytes "/bin/cat") (bytes "write") 0 1).length ≤ 328 ∧
    (add_log_entry env0 fresh (bytes "write") 0 1).1 ≠ -EINVAL ∧
    (add_log_entry env0 fresh (bytes "write") 0 1).2.log_size ≤ 376 :=
  have h := line_never_too_long env0 (bytes "/bin/cat") (bytes "write") 0 1 (by decide)
    (by decide) (by decide) (Or.inr (Or.inl rfl)) (by decide) (by decide) (by decide)
  ⟨by decide, h.1, h.2.2.2.1 fresh, (h.2.2.2.2 fresh rfl (Or.inl rfl)).2⟩

/-! ## The revert and the logged range -/

/-- The page loop of `restore_original_data` on two page caches: the same
error count, and the same byte wherever the two caches held the same byte. -/
theorem restore_loop_congr (env : Env) (offset : Int) (length : Nat) (data : List Nat) :
    ∀ (fuel copied error_count : Nat) (p1 p2 : Nat → Nat),
      (restore_loop env offset length data fuel copied error_count p1).1
        = (restore_loop env offset length data fuel copied error_count p2).1 ∧
      ∀ x, p1 x = p2 x →
        (restore_loop env offset length data fuel copied error_count p1).2 x
          = (restore_loop env offset length data fuel copied error_count p2).2 x := by
  intro fuel
  induction fuel with
  | zero => intro copied e p1 p2; exact ⟨rfl, fun x h => h⟩
  | succ fuel ih =>
    intro copied e p1 p2
    simp only [restore_loop]
    split
    · split
      · split
        · obtain ⟨h1, h2⟩ := ih (copied + min (length - copied)
            (PAGE_SIZE - u64 (offset + copied) % PAGE_SIZE)) e
            (put_bytes p1 (u64 (offset + copied)) ((List.range (min (length - copied)
              (PAGE_SIZE - u64 (offset + copied) % PAGE_SIZE))).map
                (fun k => data.getD (copied + k) 0)))
            (put_bytes p2 (u64 (offset + copied)) ((List.range (min (length - copied)
              (PAGE_SIZE - u64 (offset + copied) % PAGE_SIZE))).map
                (fun k => data.getD (copied + k) 0)))
          refine ⟨h1, fun x hx => h2 x ?_⟩
          simp only [put_bytes]
          split
          · rfl
          · exact hx
        · exact ih _ _ p1 p2
      · exact ih _ _ p1 p2
    · exact ⟨rfl, fun x h => h⟩

/-- The function `restore_original_data` on two objects with the same backup
and sizes. -/
theorem restore_original_data_congr (env : Env) (fi1 fi2 : loggerfs_file_info)
    (hd : fi1.data_size = fi2.data_size) (hi : fi1.i_size = fi2.i_size)
    (hs : fi1.log_start = fi2.log_start) (hbk : fi1.backup = fi2.backup) :
    (restore_original_data env fi1).1 = (restore_original_data env fi2).1 ∧
    (restore_original_data env fi1).2.data_size = (restore_original_data env fi2).2.data_size ∧
    (restore_original_data env fi1).2.i_size = (restore_original_data env fi2).2.i_size ∧
    (restore_original_data env fi1).2.log_start = (restore_original_data env fi2).2.log_start ∧
    (restore_original_data env fi1).2.backup = (restore_original_data env fi2).2.backup ∧
    (restore_original_data env fi1).2.log_size = fi1.log_size ∧
    (restore_original_data env fi2).2.log_size = fi2.log_size ∧
    (restore_original_data env fi1).2.total_size = fi1.total_size ∧
    (restore_original_data env fi2).2.total_size = fi2.total_size ∧
    (∀ x, fi1.pages x = fi2.pages x →
      (restore_original_data env fi1).2.pages x = (restore_original_data env fi2).2.pages x) := by
  unfold restore_original_data
  rw [← hbk]
  split
  · exact ⟨rfl, hd, hi, hs, hbk, rfl, rfl, rfl, rfl, fun x h => h⟩
  · cases hdata : fi1.backup.original_data with
    | none => exact ⟨rfl, hd, hi, hs, hbk, rfl, rfl, rfl, rfl, fun x h => h⟩
    | some data =>
      obtain ⟨h1, h2⟩ := restore_loop_congr env fi1.backup.offset fi1.backup.length data
        fi1.backup.length 0 0 fi1.pages fi2.pages
      simp only [← hd, h1]
      split_ifs <;>
        exact ⟨rfl, rfl, by first | rfl | exact hi, hs, rfl, rfl, rfl,
          rfl, rfl, h2⟩


/-- What `remove_last_write_log` does once the log text is known: the range
that the scan finds is not used. -/
theorem remove_last_write_log_of_text (env : Env) (fi : loggerfs_file_info) (text : List Nat)
    (h0 : fi.log_size ≠ 0) (hk : env.kmalloc_ok = true)
    (htext : log_text (read_from_file fi.pages fi.log_start fi.log_size ++ [0]) = some text) :
    remove_last_write_log env fi =
      if (last_write_loop text (text.length + 1) text.length).isSome then
        (if (restore_original_data env fi).1 = 0
          then rebuild_log_without_last_write (restore_original_data env fi).2
          else restore_original_data env fi)
      else (-ENOENT, fi) := by
  simp only [remove_last_write_log, h0, if_false, hk, not_true_eq_false, htext]
  cases last_write_loop text (text.length + 1) text.length with
  | none => rfl
  | some p => rfl

/-- The log text and the outcome of the scan for a region made of decodable
entries. -/
theorem entries_region_scan (fi : loggerfs_file_info)
    (calls : List (Env × List Nat × Int × Nat)) (hne : calls ≠ [])
    (hregion : read_from_file fi.pages fi.log_start fi.log_size
      = LOG_START_MARKER ++ (calls.map entry_line).flatten ++ LOG_END_MARKER)
    (hok : ∀ c ∈ calls, -9223372036854775808 ≤ c.1.tv_sec ∧ c.1.tv_sec < 9223372036854775808 ∧
      get_current_command c.1 ≠ [] ∧ (∀ b ∈ get_current_command c.1, isspace b = false) ∧
      c.2.1 ∈ [bytes "read", bytes "write", bytes "truncate"] ∧
      -9223372036854775808 ≤ c.2.2.1 ∧ c.2.2.1 < 9223372036854775808 ∧
      c.2.2.2 < 18446744073709551616) :
    fi.log_size ≠ 0 ∧
    log_text (read_from_file fi.pages fi.log_start fi.log_size ++ [0])
      = some (calls.map entry_line).flatten ∧
    ((last_write_loop (calls.map entry_line).flatten
        ((calls.map entry_line).flatten.length + 1)
        (calls.map entry_line).flatten.length).isSome = true
      ↔ ∃ c ∈ calls, c.2.1 = bytes "write") := by
  obtain ⟨hfree, hscan⟩ := last_write_of_entries calls hne hok
  obtain ⟨hnz, hfree2, hnl⟩ := entries_text_props calls hfree
  have htext := log_text_region _ hnz hfree2 hnl
  rw [← hregion] at htext
  have h0 : fi.log_size ≠ 0 := by
    intro h
    rw [h] at hregion
    have hlen := congrArg List.length hregion
    simp only [List.length_append, (by decide : LOG_START_MARKER.length = 25)] at hlen
    have : (read_from_file fi.pages fi.log_start 0).length = 0 := rfl
    omega
  refine ⟨h0, htext, ?_⟩
  constructor
  · intro h
    by_contra hcon
    rw [hscan.2 (fun c hc hw => hcon ⟨c, hc, hw⟩)] at h
    cases h
  · rintro ⟨c, hc, hw⟩
    cases hl : last_write_loop (calls.map entry_line).flatten
        ((calls.map entry_line).flatten.length + 1) (calls.map entry_line).flatten.length with
    | none => exact absurd hw (hscan.1 hl c hc)
    | some p => rfl

/-- C36.  Let two objects agree on `data_size`, `i_size`, `log_start` and the
backup slot, and let their log regions hold decodable entries, as many in one
as in the other and with the same operations in the same order, whose time
stamps, commands, offsets and lengths may differ.  Then `remove_last_write_log`
returns the same value for both and leaves the same `data_size`, `i_size`,
`log_start` and backup slot, and the same byte wherever the two page caches
agreed.  When it returns 0, both logs are empty, `total_size` is the same and
every byte from `data_size` on is zero in both; when it fails, `log_size` and
`total_size` are left in each object as they were. -/
theorem revert_ignores_logged_range (env : Env) (fi1 fi2 : loggerfs_file_info)
    (calls1 calls2 : List (Env × List Nat × Int × Nat))
    (hd : fi1.data_size = fi2.data_size) (hi : fi1.i_size = fi2.i_size)
    (hs : fi1.log_start = fi2.log_start) (hbk : fi1.backup = fi2.backup)
    (hne : calls1 ≠ [])
    (hops : calls1.map (fun c => c.2.1) = calls2.map (fun c => c.2.1))
    (hregion1 : read_from_file fi1.pages fi1.log_start fi1.log_size
      = LOG_START_MARKER ++ (calls1.map entry_line).flatten ++ LOG_END_MARKER)
    (hregion2 : read_from_file fi2.pages fi2.log_start fi2.log_size
      = LOG_START_MARKER ++ (calls2.map entry_line).flatten ++ LOG_END_MARKER)
    (hok : ∀ c ∈ calls1 ++ calls2,
      -9223372036854775808 ≤ c.1.tv_sec ∧ c.1.tv_sec < 9223372036854775808 ∧
      get_current_command c.1 ≠ [] ∧ (∀ b ∈ get_current_command c.1, isspace b = false) ∧
      c.2.1 ∈ [bytes "read", bytes "write", bytes "truncate"] ∧
      -9223372036854775808 ≤ c.2.2.1 ∧ c.2.2.1 < 9223372036854775808 ∧
      c.2.2.2 < 18446744073709551616) :
    (remove_last_write_log env fi1).1 = (remove_last_write_log env fi2).1 ∧
    (remove_last_write_log env fi1).2.data_size = (remove_last_write_log env fi2).2.data_size ∧
    (remove_last_write_log env fi1).2.i_size = (remove_last_write_log env fi2).2.i_size ∧
    (remove_last_write_log env fi1).2.log_start = (remove_last_write_log env fi2).2.log_start ∧
    (remove_last_write_log env fi1).2.backup = (remove_last_write_log env fi2).2.backup ∧
    (∀ x, fi1.pages x = fi2.pages x →
      (remove_last_write_log env fi1).2.pages x = (remove_last_write_log env fi2).2.pages x) ∧
    ((remove_last_write_log env fi1).1 = 0 →
      (remove_last_write_log env fi1).2.log_size = 0 ∧
      (remove_last_write_log env fi2).2.log_size = 0 ∧
      (remove_last_write_log env fi1).2.total_size
        = (remove_last_write_log env fi2).2.total_size ∧
      ∀ x : Nat, (remove_last_write_log env fi1).2.data_size ≤ x →
        (remove_last_write_log env fi1).2.pages x = 0 ∧
        (remove_last_write_log env fi2).2.pages x = 0) ∧
    ((remove_last_write_log env fi1).1 ≠ 0 →
      (remove_last_write_log env fi1).2.log_size = fi1.log_size ∧
      (remove_last_write_log env fi2).2.log_size = fi2.log_size ∧
      (remove_last_write_log env fi1).2.total_size = fi1.total_size ∧
      (remove_last_write_log env fi2).2.total_size = fi2.total_size) := by
  have hne2 : calls2 ≠ [] := by
    intro h
    rw [h] at hops
    exact hne (List.map_eq_nil_iff.1 hops)
  obtain ⟨h01, ht1, hw1⟩ := entries_region_scan fi1 calls1 hne hregion1
    (fun c hc => hok c (List.mem_append_left _ hc))
  obtain ⟨h02, ht2, hw2⟩ := entries_region_scan fi2 calls2 hne2 hregion2
    (fun c hc => hok c (List.mem_append_right _ hc))
  have hsame : (∃ c ∈ calls1, c.2.1 = bytes "write") ↔ (∃ c ∈ calls2, c.2.1 = bytes "write") := by
    have hmem : ∀ l : List (Env × List Nat × Int × Nat),
        (∃ c ∈ l, c.2.1 = bytes "write") ↔ bytes "write" ∈ l.map (fun c => c.2.1) := by
      intro l
      exact List.mem_map.symm
    rw [hmem, hmem, hops]
  obtain ⟨r1, r2, r3, r4, r5, r6, r7, r8, r9, r10⟩ :=
    restore_original_data_congr env fi1 fi2 hd hi hs hbk
  by_cases hk : env.kmalloc_ok = true
  · rw [remove_last_write_log_of_text env fi1 _ h01 hk ht1,
      remove_last_write_log_of_text env fi2 _ h02 hk ht2]
    by_cases hw : ∃ c ∈ calls1, c.2.1 = bytes "write"
    · rw [if_pos (hw1.2 hw), if_pos (hw2.2 (hsame.1 hw))]
      by_cases hr : (restore_original_data env fi1).1 = 0
      · rw [if_pos hr, if_pos (r1 ▸ hr)]
        simp only [rebuild_log_without_last_write, truncate_inode_pages]
        refine ⟨trivial, r2, r2, r2, r5, ?_, ?_, ?_⟩
        · intro x hx
          rw [r2, r10 x hx]
        · intro _
          refine ⟨trivial, trivial, r2, ?_⟩
          intro x hx
          have h1 : ¬ ((x : Int) < (restore_original_data env fi1).2.data_size) := by omega
          have h2 : ¬ ((x : Int) < (restore_original_data env fi2).2.data_size) := by
            rw [← r2]; exact h1
          simp only [h1, h2, if_false, and_self]
        · intro h
          exact absurd rfl h
      · rw [if_neg hr, if_neg (r1 ▸ hr)]
        exact ⟨r1, r2, r3, r4, r5, r10, fun h => absurd h hr, fun _ => ⟨r6, r7, r8, r9⟩⟩
    · rw [if_neg (by rw [hw1]; exact hw), if_neg (by rw [hw2, ← hsame]; exact hw)]
      refine ⟨rfl, hd, hi, hs, hbk, fun x h => h, fun h => ?_, fun _ => ⟨rfl, rfl, rfl, rfl⟩⟩
      simp [ENOENT] at h
  · simp only [remove_last_write_log, h01, h02, if_false, hk, not_false_eq_true, if_true]
    refine ⟨rfl, hd, hi, hs, hbk, fun x h => h, fun h => ?_, fun _ => ⟨rfl, rfl, rfl, rfl⟩⟩
    simp [ENOMEM] at h


/-- The theorem `revert_ignores_logged_range` at `overwritten_object` and
`ranged_write_object`, whose write entries record `(0, 1)` and `(7, 12)`. -/
theorem revert_ignores_logged_range_witness :
    overwritten_object.log_size ≠ ranged_write_object.log_size ∧
    (remove_last_write_log env0 overwritten_object).1
      = (remove_last_write_log env0 ranged_write_object).1 ∧
    (remove_last_write_log env0 overwritten_object).2.data_size
      = (remove_last_write_log env0 ranged_write_object).2.data_size ∧
    (remove_last_write_log env0 overwritten_object).2.backup
      = (remove_last_write_log env0 ranged_write_object).2.backup ∧
    (remove_last_write_log env0 overwritten_object).2.pages 0
      = (remove_last_write_log env0 ranged_write_object).2.pages 0 :=
  have h := revert_ignores_logged_range env0 overwritten_object ranged_write_object
    [(env0, bytes "write", 0, 1)] [(env0, bytes "write", 7, 12)] rfl rfl rfl rfl
    (List.cons_ne_nil _ _) rfl (by decide) (by decide)
    (by
      intro c hc
      simp only [List.cons_append, List.nil_append, List.mem_cons, List.mem_singleton,
        List.not_mem_nil, or_false] at hc
      rcases hc with hc | hc <;> subst hc <;> decide)
  ⟨by decide, h.1, h.2.1, h.2.2.2.2.1, h.2.2.2.2.2.1 0 rfl⟩

/-! ## The scan for the start marker -/

/-- A non-empty list starts the rest of another list from position `i` when
it fits there and the bytes agree. -/
theorem starts_at_drop_iff (needle hay : List Nat) (i : Nat) (hn : 0 < needle.length) :
    needle <+: hay.drop i ↔
      i + needle.length ≤ hay.length ∧ ∀ k, k < needle.length → hay[i + k]? = needle[k]? := by
  constructor
  · rintro ⟨t, ht⟩
    have hlen : (needle ++ t).length = (hay.drop i).length := by rw [ht]
    simp only [List.length_append, List.length_drop] at hlen
    refine ⟨by omega, ?_⟩
    intro k hk
    rw [← List.getElem?_drop, ← ht, List.getElem?_append_left hk]
  · rintro ⟨hlen, hget⟩
    rw [List.prefix_iff_eq_take]
    apply List.ext_getElem?
    intro k
    by_cases hk : k < needle.length
    · rw [List.getElem?_take_of_lt hk, List.getElem?_drop, hget k hk]
    · rw [List.getElem?_eq_none (by omega), List.getElem?_eq_none (by
        simp only [List.length_take, List.length_drop]; omega)]


/-- The start marker at byte `q` of the page cache. -/
theorem marker_in_window (pages : Nat → Nat) (pos : Int) (n j : Nat)
    (h0 : 0 ≤ pos) (hb : pos + n ≤ 18446744073709551616) :
    LOG_START_MARKER <+: (read_from_file pages pos n).drop j ↔
      j + 25 ≤ n ∧ ∀ k, k < 25 → pages (pos.toNat + j + k) = LOG_START_MARKER.getD k 0 := by
  rw [starts_at_drop_iff _ _ _ (by decide), read_from_file_spec pages pos n h0 hb]
  simp only [List.length_map, List.length_range, (by decide : LOG_START_MARKER.length = 25)]
  constructor
  · rintro ⟨hlen, hget⟩
    refine ⟨hlen, fun k hk => ?_⟩
    have := hget k hk
    rw [List.getElem?_map, List.getElem?_range (by omega)] at this
    rw [List.getD_eq_getElem?_getD, ← this]
    simp [Nat.add_assoc]
  · rintro ⟨hlen, hget⟩
    refine ⟨hlen, fun k hk => ?_⟩
    rw [List.getElem?_map, List.getElem?_range (by omega)]
    have := hget k hk
    rw [List.getD_eq_getElem?_getD] at this
    have hk2 : k < LOG_START_MARKER.length := by
      rw [(by decide : LOG_START_MARKER.length = 25)]; exact hk
    rw [List.getElem?_eq_getElem hk2] at this ⊢
    simp only [Option.map_some', Option.getD_some] at this ⊢
    rw [← this, Nat.add_assoc]

/-- The scan of `find_log_start` from a position at or before the first start
marker: it returns the position of that marker. -/
theorem find_log_start_loop_finds (pages : Nat → Nat) (file_size : Int) (p : Nat)
    (hS : file_size < 9223372036854775808)
    (hnz : ∀ x : Nat, (x : Int) < file_size → pages x ≠ 0)
    (hm : ∀ k, k < 25 → pages (p + k) = LOG_START_MARKER.getD k 0)
    (hin : (p : Int) + 25 ≤ file_size)
    (hmin : ∀ q, q < p → ¬ ∀ k, k < 25 → pages (q + k) = LOG_START_MARKER.getD k 0) :
    ∀ (fuel pos : Nat), pos ≤ p → (p - pos) / 486 + 1 ≤ fuel →
      find_log_start_loop pages file_size fuel pos = some (p : Int) := by
  intro fuel
  induction fuel with
  | zero => intro pos _ h; omega
  | succ fuel ih =>
    intro pos hpos hfuel
    have hlt : (pos : Int) < file_size := by omega
    have hu : u64 (file_size - pos) = (file_size - pos).toNat :=
      u64_of_nonneg _ (by omega) (by omega)
    generalize hn : min 511 (file_size - (pos : Int)).toNat = n
    have hn1 : n ≤ 511 := by omega
    have hn2 : (n : Int) ≤ file_size - pos := by omega
    have hbuf_nz : ∀ b ∈ read_from_file pages pos n, b ≠ 0 := by
      intro b hb
      rw [read_from_file_spec pages pos n (by omega) (by omega), List.mem_map] at hb
      obtain ⟨k, hk, rfl⟩ := hb
      rw [List.mem_range] at hk
      apply hnz
      simp only [Int.toNat_ofNat]
      omega
    have hstr : strstr (read_from_file pages pos n ++ [0]) LOG_START_MARKER
        = find_sub LOG_START_MARKER (read_from_file pages pos n) := by
      unfold strstr
      rw [cstr_append_zero _ hbuf_nz, (by decide : cstr LOG_START_MARKER = LOG_START_MARKER)]
    have hlenbuf : (read_from_file pages pos n).length = n := by
      rw [read_from_file_spec pages pos n (by omega) (by omega)]; simp
    by_cases hcase : p + 25 ≤ pos + n
    · -- the marker lies in this window
      have hfind : find_sub LOG_START_MARKER (read_from_file pages pos n) = some (p - pos) := by
        apply find_sub_first
        · rw [marker_in_window pages pos n (p - pos) (by omega) (by omega)]
          refine ⟨by omega, fun k hk => ?_⟩
          have : (pos : Int).toNat + (p - pos) + k = p + k := by
            simp only [Int.toNat_ofNat]; omega
          rw [this]; exact hm k hk
        · intro j hj hp
          rw [marker_in_window pages pos n j (by omega) (by omega)] at hp
          simp only [Int.toNat_ofNat] at hp
          exact hmin (pos + j) (by omega) hp.2
        · rw [hlenbuf]; omega
      simp only [find_log_start_loop, hlt, if_true, hu, hn, hstr, hfind]
      congr 1
      omega
    · -- the marker ends beyond this window
      have hn511 : n = 511 := by omega
      have hnone : find_sub LOG_START_MARKER (read_from_file pages pos n) = none := by
        rw [find_sub_none]
        intro j hp
        rw [marker_in_window pages pos n j (by omega) (by omega)] at hp
        simp only [Int.toNat_ofNat] at hp
        by_cases hq : pos + j < p
        · exact hmin (pos + j) hq hp.2
        · omega
      have hpass := find_log_start_loop_pass pages file_size pos (pos + 486 : Nat) fuel hlt
        (by rw [hu, hn, hstr]; exact hnone)
        (by
          rw [hu, hn, hn511]
          rw [s64_of_range] <;> push_cast <;> omega)
        (by push_cast; omega)
      rw [hpass]
      exact ih (pos + 486) (by omega) (by omega)


/-- C34.  Let the physical size be a `loff_t`, let no byte below it be zero,
and let `p` be the smallest offset at which the start marker lies wholly below
the physical size.  Then `find_log_start` returns `p`, wherever the marker
lies with respect to the 511-byte windows; `p / 486 + 1` evaluations of the
loop condition suffice. -/
theorem find_log_start_finds_split_marker (fi : loggerfs_file_info) (p fuel : Nat)
    (hS : fi.i_size < 9223372036854775808)
    (hnz : ∀ x : Nat, (x : Int) < fi.i_size → fi.pages x ≠ 0)
    (hm : ∀ k, k < 25 → fi.pages (p + k) = LOG_START_MARKER.getD k 0)
    (hin : (p : Int) + 25 ≤ fi.i_size)
    (hmin : ∀ q, q < p → ¬ ∀ k, k < 25 → fi.pages (q + k) = LOG_START_MARKER.getD k 0)
    (hfuel : p / 486 + 1 ≤ fuel) :
    find_log_start fuel fi = some (p : Int) := by
  unfold find_log_start
  have h := find_log_start_loop_finds fi.pages fi.i_size p hS hnz hm hin hmin fuel 0
    (Nat.zero_le _) (by simpa using hfuel)
  simpa using h

/-- The theorem `find_log_start_finds_split_marker` at `split_marker_object`:
the marker at `[500, 525)` lies across byte 511, where the first window ends,
and is found in the second window, which starts at byte 486. -/
theorem find_log_start_finds_split_marker_witness :
    (500 < 511 ∧ 511 < 500 + 25) ∧
    (∀ k, k < 25 → split_marker_object.pages (500 + k) = LOG_START_MARKER.getD k 0) ∧
    find_log_start 2 split_marker_object = some 500 :=
  have hm : ∀ k, k < 25 → split_marker_object.pages (500 + k) = LOG_START_MARKER.getD k 0 := by
    intro k hk
    have h1 : ¬ 500 + k < 500 := by omega
    have h2 : 500 + k < 525 := by omega
    simp only [split_marker_object, h1, h2, if_true, if_false, Nat.add_sub_cancel_left]
  ⟨by decide, hm,
    find_log_start_finds_split_marker split_marker_object 500 2 (by decide)
      (by
        intro x hx
        have hx2 : x < 600 := by
          have : (x : Int) < 600 := hx
          omega
        have hmk : ∀ k, k < 25 → LOG_START_MARKER.getD k 0 ≠ 0 := by decide
        simp only [split_marker_object, hx2, if_true]
        split
        · decide
        · split
          · exact hmk _ (by omega)
          · decide)
      hm (by decide)
      (by
        intro q hq hall
        have h0 := hall 0 (by decide)
        have hq2 : q + 0 < 500 := by omega
        simp only [split_marker_object, hq2, if_true] at h0
        revert h0
        decide)
      (by decide)⟩

/-! ## The archive packer: octal fields and the checksum -/

/-- The octal text on one more digit. -/
theorem spec_octal_digits_snoc (n m : Nat) :
    spec_octal_digits n (m + 1) = spec_octal_digits (n / 8) m ++ [48 + n % 8] := by
  unfold spec_octal_digits
  rw [List.range_succ, List.map_append]
  congr 1
  · apply List.map_congr_left
    intro d hd
    rw [List.mem_range] at hd
    have h1 : m + 1 - 1 - d = (m - 1 - d) + 1 := by omega
    rw [h1, pow_succ, Nat.mul_comm, ← Nat.div_div_eq_div_mul]
  · simp

/-- The octal text on `m` digits has `m` bytes, each an octal digit. -/
theorem spec_octal_digits_props (n m : Nat) :
    (spec_octal_digits n m).length = m ∧
    (∀ b ∈ spec_octal_digits n m, 48 ≤ b ∧ b ≤ 55) := by
  unfold spec_octal_digits
  refine ⟨by simp, ?_⟩
  intro b hb
  rw [List.mem_map] at hb
  obtain ⟨d, _, rfl⟩ := hb
  have : n / 8 ^ (m - 1 - d) % 8 < 8 := Nat.mod_lt _ (by decide)
  omega

/-- The value of the octal text of `n` on `m` digits. -/
theorem spec_octal_digits_value : ∀ (m n : Nat),
    (spec_octal_digits n m).foldl (fun acc c => acc * 8 + (c - 48)) 0 = n % 8 ^ m
  | 0, n => by simp [spec_octal_digits, Nat.mod_one]
  | m + 1, n => by
    rw [spec_octal_digits_snoc, List.foldl_append, spec_octal_digits_value m (n / 8)]
    simp only [List.foldl_cons, List.foldl_nil, Nat.add_sub_cancel_left]
    rw [pow_succ, Nat.mul_comm (8 ^ m) 8, Nat.mod_mul]
    omega


/-- The octal digits of a number beyond its size are zero. -/
theorem lt_pow_div_zero (n k j : Nat) (hn : n < 8 ^ k) (hj : k ≤ j) : n / 8 ^ j % 8 = 0 := by
  have : 8 ^ k ≤ 8 ^ j := Nat.pow_le_pow_right (by decide) hj
  rw [Nat.div_eq_of_lt (by omega)]

/-- Padding the octal text of a number with zeros on the left. -/
theorem spec_octal_digits_pad (n k m : Nat) (hn : n < 8 ^ k) (hk : k ≤ m) :
    spec_octal_digits n m = List.replicate (m - k) 48 ++ spec_octal_digits n k := by
  apply List.ext_getElem
  · simp [spec_octal_digits]; omega
  · intro d h1 h2
    simp only [spec_octal_digits, List.getElem_map, List.getElem_range, List.length_map,
      List.length_range] at h1 ⊢
    by_cases hd : d < m - k
    · rw [List.getElem_append_left (by simpa using hd), List.getElem_replicate,
        lt_pow_div_zero n k _ hn (by omega)]
    · rw [List.getElem_append_right (by simpa using hd)]
      simp only [List.length_replicate, List.getElem_map, List.getElem_range]
      have : m - 1 - d = k - 1 - (d - (m - k)) := by omega
      rw [this]


/-- The digit loop of `num_to_oct` of `fs/pack.c` appends the octal digits of
`num`, least significant first. -/
theorem fs_pack_num_to_oct_loop_spec : ∀ (fuel num : Nat) (tmp : List Nat), num < 8 ^ fuel →
    ∃ k, fs_pack.num_to_oct_loop fuel num tmp
        = tmp ++ (List.range k).map (fun j => 48 + num / 8 ^ j % 8) ∧ num < 8 ^ k
  | 0, num, tmp, h => ⟨0, by simp [fs_pack.num_to_oct_loop], h⟩
  | fuel + 1, num, tmp, h => by
    simp only [fs_pack.num_to_oct_loop]
    by_cases hpos : num > 0
    · rw [if_pos hpos]
      obtain ⟨k, hk1, hk2⟩ := fs_pack_num_to_oct_loop_spec fuel (num / 8) (tmp ++ [48 + num % 8])
        (by rw [pow_succ] at h; omega)
      refine ⟨k + 1, ?_, by rw [pow_succ]; omega⟩
      rw [hk1, List.append_assoc]
      congr 1
      rw [List.range_succ_eq_map, List.map_cons, List.map_map]
      simp only [pow_zero, Nat.div_one, List.singleton_append]
      congr 1
      apply List.map_congr_left
      intro j _
      simp only [Function.comp, pow_succ]
      rw [Nat.mul_comm, ← Nat.div_div_eq_div_mul]
    · rw [if_neg hpos]
      exact ⟨0, by simp, by omega⟩

/-- The field written by `fs_pack.num_to_oct` of `fs/pack.c`: the `size - 1` low octal
digits of the number and a zero byte. -/
theorem fs_pack_num_to_oct_spec (num size : Nat) (hn : num < 8 ^ 31) :
    fs_pack.num_to_oct num size = spec_octal_digits num (size - 1) ++ [0] := by
  unfold fs_pack.num_to_oct
  by_cases h0 : num = 0
  · rw [if_pos h0, h0]
    congr 1
    apply List.ext_getElem
    · simp [spec_octal_digits]
    · intro d h1 h2
      simp [spec_octal_digits]
  · rw [if_neg h0]
    obtain ⟨k, hk1, hk2⟩ := fs_pack_num_to_oct_loop_spec 31 num [] hn
    simp only [List.nil_append] at hk1
    simp only [hk1, List.length_map, List.length_range]
    congr 1
    unfold spec_octal_digits
    apply List.map_congr_left
    intro d hd
    rw [List.mem_range] at hd
    have hexp : size - 2 - d = size - 1 - 1 - d := by omega
    by_cases hlt : size - 2 - d < k
    · rw [if_pos hlt, List.getD_eq_getElem?_getD, List.getElem?_map,
        List.getElem?_range hlt, hexp]
      rfl
    · rw [if_neg hlt, ← hexp, lt_pow_div_zero num k _ hk2 (by omega)]

/-- The value of a text of octal digits is below `8 ^ length`. -/
theorem octal_value_lt : ∀ (ds : List Nat), (∀ b ∈ ds, 48 ≤ b ∧ b ≤ 55) →
    ds.foldl (fun acc c => acc * 8 + (c - 48)) 0 < 8 ^ ds.length := by
  intro ds
  induction ds using List.reverseRecOn with
  | nil => intro _; simp
  | append_singleton l b ih =>
    intro h
    have hb := h b (by simp)
    have hl := ih (fun c hc => h c (by simp [hc]))
    rw [List.foldl_append, List.length_append, List.length_singleton, pow_succ]
    simp only [List.foldl_cons, List.foldl_nil]
    omega


/-- The loop of `oct_to_num` of `fs/pack.c` over a text of octal digits. -/
theorem fs_pack_oct_to_num_loop_spec (ds rest : List Nat) (size : Nat)
    (hd : ∀ b ∈ ds, 48 ≤ b ∧ b ≤ 55) (hlen : ds.length ≤ 21)
    (hstop : ds.length + 1 = size ∨
      (ds.length + 1 < size ∧ (rest.getD 0 0 = 0 ∨ rest.getD 0 0 = 32))) :
    ∀ (fuel i : Nat), i ≤ ds.length → ds.length - i ≤ fuel →
      fs_pack.oct_to_num_loop (ds ++ rest) size fuel i
          ((ds.take i).foldl (fun acc c => acc * 8 + (c - 48)) 0)
        = ds.foldl (fun acc c => acc * 8 + (c - 48)) 0 := by
  intro fuel
  induction fuel with
  | zero =>
    intro i hi hf
    have : i = ds.length := by omega
    subst this
    simp [fs_pack.oct_to_num_loop]
  | succ fuel ih =>
    intro i hi hf
    simp only [fs_pack.oct_to_num_loop]
    by_cases hlt : i < ds.length
    · have hget : (ds ++ rest).getD i 0 = ds[i] := by
        rw [List.getD_eq_getElem?_getD, List.getElem?_append_left hlt,
          List.getElem?_eq_getElem hlt]
        rfl
      have hb := hd ds[i] (List.getElem_mem _)
      have hcond : i + 1 < size ∧ (ds ++ rest).getD i 0 ≠ 0 ∧ (ds ++ rest).getD i 0 ≠ 32 := by
        rw [hget]
        refine ⟨?_, by omega, by omega⟩
        rcases hstop with h | h <;> omega
      rw [if_pos hcond, hget, if_pos hb]
      have htake : ds.take (i + 1) = ds.take i ++ [ds[i]] := by
        rw [List.take_succ, List.getElem?_eq_getElem hlt]
        rfl
      have hval := octal_value_lt (ds.take (i + 1)) (fun b hb => hd b (List.mem_of_mem_take hb))
      rw [List.length_take, Nat.min_eq_left (by omega)] at hval
      have hpow : 8 ^ (i + 1) ≤ 8 ^ 21 := Nat.pow_le_pow_right (by decide) (by omega)
      rw [htake, List.foldl_append] at hval
      simp only [List.foldl_cons, List.foldl_nil] at hval
      rw [Nat.mod_eq_of_lt (by
        have : (8 : Nat) ^ 21 < 18446744073709551616 := by decide
        omega)]
      have := ih (i + 1) (by omega) (by omega)
      rw [htake, List.foldl_append] at this
      simp only [List.foldl_cons, List.foldl_nil] at this
      exact this
    · have hi2 : i = ds.length := by omega
      subst hi2
      have hcond : ¬ (ds.length + 1 < size ∧ (ds ++ rest).getD ds.length 0 ≠ 0 ∧
          (ds ++ rest).getD ds.length 0 ≠ 32) := by
        rintro ⟨h1, h2, h3⟩
        have hget : (ds ++ rest).getD ds.length 0 = rest.getD 0 0 := by
          rw [List.getD_eq_getElem?_getD, List.getElem?_append_right (Nat.le_refl _),
            Nat.sub_self, List.getD_eq_getElem?_getD]
        rw [hget] at h2 h3
        rcases hstop with h | ⟨_, h | h⟩
        · omega
        · exact h2 h
        · exact h3 h
      rw [if_neg hcond, List.take_length]

/-- The function `fs_pack.oct_to_num` of `fs/pack.c` on a text of octal digits that
fills the field or is followed by a zero byte or a space. -/
theorem fs_pack_oct_to_num_digits (ds rest : List Nat) (size : Nat)
    (hd : ∀ b ∈ ds, 48 ≤ b ∧ b ≤ 55) (hlen : ds.length ≤ 21)
    (hstop : ds.length + 1 = size ∨
      (ds.length + 1 < size ∧ (rest.getD 0 0 = 0 ∨ rest.getD 0 0 = 32))) :
    fs_pack.oct_to_num (ds ++ rest) size = ds.foldl (fun acc c => acc * 8 + (c - 48)) 0 := by
  have := fs_pack_oct_to_num_loop_spec ds rest size hd hlen hstop size 0 (by omega)
    (by rcases hstop with h | h <;> omega)
  simpa [fs_pack.oct_to_num] using this



/-- The text of `%lo` is the octal text on any number of digits that holds the
number, without its leading zeros. -/
theorem fs_pack_pack_fmt_octal_spec : ∀ (fuel n : Nat) (acc : List Nat), n < fuel →
    ∃ k, 1 ≤ k ∧ fs_pack_pack.fmt_octal fuel n acc = spec_octal_digits n k ++ acc ∧ n < 8 ^ k ∧
      (k = 1 ∨ 8 ^ (k - 1) ≤ n)
  | 0, n, acc, h => by omega
  | fuel + 1, n, acc, h => by
    simp only [fs_pack_pack.fmt_octal]
    by_cases h8 : n < 8
    · rw [if_pos h8]
      refine ⟨1, Nat.le_refl _, ?_, by simpa using h8, Or.inl rfl⟩
      simp [spec_octal_digits, Nat.mod_eq_of_lt h8]
    · rw [if_neg h8]
      obtain ⟨k, hk0, hk1, hk2, hk3⟩ := fs_pack_pack_fmt_octal_spec fuel (n / 8) ((48 + n % 8) :: acc)
        (by omega)
      refine ⟨k + 1, by omega, ?_, by rw [pow_succ]; omega, Or.inr ?_⟩
      · rw [hk1, spec_octal_digits_snoc, List.append_assoc]
        rfl
      · rw [Nat.add_sub_cancel]
        rcases hk3 with h1 | h1
        · subst h1; simp; omega
        · have : k = (k - 1) + 1 := by omega
          rw [this, pow_succ]
          omega

/-- The field written by `fs_pack_pack.num_to_oct` of `fs/pack/pack.c` for a number that
fits `size - 1` octal digits. -/
theorem fs_pack_pack_num_to_oct_spec (num size : Nat) (hs : 2 ≤ size) (hn : num < 8 ^ (size - 1)) :
    fs_pack_pack.num_to_oct num size = spec_octal_digits num (size - 1) ++ [0] := by
  obtain ⟨k, hk0, hk1, hk2, hk3⟩ := fs_pack_pack_fmt_octal_spec (num + 1) num [] (by omega)
  rw [List.append_nil] at hk1
  have hkle : k ≤ size - 1 := by
    rcases hk3 with h | h
    · omega
    · by_contra hcon
      have : 8 ^ (size - 1) ≤ 8 ^ (k - 1) := Nat.pow_le_pow_right (by decide) (by omega)
      omega
  unfold fs_pack_pack.num_to_oct fs_pack_pack.fmt_lo
  simp only [hk1, (spec_octal_digits_props num k).1]
  rw [← spec_octal_digits_pad num k (size - 1) hk2 hkle,
    List.take_of_length_le (by rw [(spec_octal_digits_props _ _).1])]

/-- The function `kstrtoul` in base 8 on a text of octal digits. -/
theorem fs_pack_pack_kstrtoul_octal (ds : List Nat) (hne : ds ≠ []) (hd : ∀ b ∈ ds, 48 ≤ b ∧ b ≤ 55)
    (hval : ds.foldl (fun acc c => acc * 8 + (c - 48)) 0 < 18446744073709551616) :
    fs_pack_pack.kstrtoul ds 8 = some (ds.foldl (fun acc c => acc * 8 + (c - 48)) 0) := by
  have hdv : ∀ b ∈ ds, fs_pack_pack.digit_value b = some (b - 48) := by
    intro b hb
    have := hd b hb
    have h1 : 48 ≤ b ∧ b ≤ 57 := by omega
    simp only [fs_pack_pack.digit_value, h1, and_self, if_true]
  have hs1 : (if ds.head? = some 43 then ds.tail else ds) = ds := by
    cases ds with
    | nil => rfl
    | cons b t =>
      have := hd b (by simp)
      rw [if_neg]
      simp only [List.head?_cons, Option.some.injEq]
      omega
  have htw : ds.takeWhile (fs_pack_pack.is_digit_of 8) = ds := by
    rw [List.takeWhile_eq_self_iff]
    intro b hb
    have := hd b hb
    unfold fs_pack_pack.is_digit_of
    rw [hdv b hb]
    simp only [decide_eq_true_eq]
    omega
  have hfold : ds.foldl (fun acc c => acc * 8 + (fs_pack_pack.digit_value c).getD 0) 0
      = ds.foldl (fun acc c => acc * 8 + (c - 48)) 0 := by
    apply List.foldl_ext
    intro acc b hb
    rw [hdv b hb]
    rfl
  simp only [fs_pack_pack.kstrtoul, hs1, htw, hfold, List.drop_length]
  rw [if_neg (by omega), if_neg hne]

/-- The function `fs_pack_pack.oct_to_num` of `fs/pack/pack.c` on a text of octal digits
followed by a zero byte. -/
theorem fs_pack_pack_oct_to_num_digits (ds rest : List Nat) (size : Nat)
    (hne : ds ≠ []) (hd : ∀ b ∈ ds, 48 ≤ b ∧ b ≤ 55) (hlen : ds.length ≤ 21)
    (hsize : ds.length ≤ size) :
    fs_pack_pack.oct_to_num (ds ++ 0 :: rest) size = ds.foldl (fun acc c => acc * 8 + (c - 48)) 0 := by
  have hval := octal_value_lt ds hd
  have hpow : 8 ^ ds.length ≤ 8 ^ 21 := Nat.pow_le_pow_right (by decide) hlen
  have h64 : (8 : Nat) ^ 21 < 18446744073709551616 := by decide
  have hnz : ∀ b ∈ ds, b ≠ 0 := fun b hb => by have := hd b hb; omega
  have hcstr : ∀ n, ds.length ≤ n → cstr ((ds ++ 0 :: rest).take n ++ [0]) = ds := by
    intro n hn
    rw [List.take_append_eq_append_take, List.take_of_length_le hn]
    by_cases h : n - ds.length = 0
    · rw [h, List.take_zero, List.append_nil]
      exact cstr_append_zero ds hnz []
    · obtain ⟨m, hm⟩ : ∃ m, n - ds.length = m + 1 := ⟨n - ds.length - 1, by omega⟩
      rw [hm, List.take_succ_cons, List.append_assoc]
      exact cstr_append_zero ds hnz _
  unfold fs_pack_pack.oct_to_num
  simp only []
  rw [hcstr _ (by split <;> omega), fs_pack_pack_kstrtoul_octal ds hne hd (by omega)]

/-- A store that fits keeps the length of the buffer. -/
theorem poke_length (buf : List Nat) (off : Nat) (data : List Nat)
    (h : off + data.length ≤ buf.length) : (poke buf off data).length = buf.length := by
  simp only [poke, List.length_append, List.length_take, List.length_drop]
  omega

/-- A second store of the same length at the same place replaces the first. -/
theorem poke_poke (buf : List Nat) (off : Nat) (d1 d2 : List Nat)
    (hlen : d1.length = d2.length) (h : off + d1.length ≤ buf.length) :
    poke (poke buf off d1) off d2 = poke buf off d2 := by
  have htake : (buf.take off).length = off := by
    rw [List.length_take]; omega
  unfold poke
  congr 1
  · congr 1
    rw [List.append_assoc, List.take_left' htake]
  · rw [List.append_assoc, ← hlen]
    have : off + d1.length = (buf.take off ++ d1).length := by
      rw [List.length_append, htake]
    rw [← List.append_assoc, this, List.drop_left]

/-- Two stores side by side are one store. -/
theorem poke_adjacent (buf : List Nat) (off : Nat) (d1 d2 : List Nat)
    (h : off + d1.length + d2.length ≤ buf.length) :
    poke (poke buf off d1) (off + d1.length) d2 = poke buf off (d1 ++ d2) := by
  have htake : (buf.take off).length = off := by
    rw [List.length_take]; omega
  have hlen : off + d1.length = (buf.take off ++ d1).length := by
    rw [List.length_append, htake]
  unfold poke
  rw [List.length_append, ← List.append_assoc (buf.take off) d1 d2]
  congr 1
  · congr 1
    rw [hlen, List.take_left]
  · rw [hlen, List.drop_append_eq_append_drop, List.drop_eq_nil_of_le (by omega), List.nil_append,
      List.length_append, htake, List.drop_drop]
    congr 1
    omega

/-- The buffer from the place of a store on. -/
theorem drop_poke (buf : List Nat) (off : Nat) (data : List Nat) (h : off ≤ buf.length) :
    (poke buf off data).drop off = data ++ buf.drop (off + data.length) := by
  have htake : (buf.take off).length = off := by
    rw [List.length_take]; omega
  unfold poke
  rw [List.append_assoc, List.drop_left' htake]

/-- A sum of bytes is at most 255 times their number. -/
theorem sum_mod_le (l : List Nat) : (l.map (fun b => b % 256)).sum ≤ 255 * l.length := by
  induction l with
  | nil => simp
  | cons b t ih =>
    simp only [List.map_cons, List.sum_cons, List.length_cons]
    have : b % 256 < 256 := Nat.mod_lt _ (by decide)
    omega

/-- Filling in the checksum of a header of 512 bytes, as the end of
`write_pack_header` does: the header left, its checksum field and the sum. -/
theorem checksum_stored (header : List Nat) (field : List Nat)
    (hlen : header.length = 512)
    (hfield : field = spec_octal_digits (calculate_checksum header).1 6 ++ [0]) :
    (calculate_checksum header).1
      = ((poke header 148 (List.replicate 8 32)).map (fun b => b % 256)).sum ∧
    (calculate_checksum header).1 < 8 ^ 6 ∧
    poke (poke (calculate_checksum header).2 148 field) 155 [32]
      = poke header 148 (spec_octal_digits (calculate_checksum header).1 6 ++ [0, 32]) ∧
    (poke header 148 (spec_octal_digits (calculate_checksum header).1 6 ++ [0, 32])).length
      = 512 := by
  have hl1 : (poke header 148 (List.replicate 8 32)).length = 512 := by
    rw [poke_length _ _ _ (by simp; omega), hlen]
  have hsum := sum_mod_le (poke header 148 (List.replicate 8 32))
  rw [hl1] at hsum
  have hc : (calculate_checksum header).1
      = ((poke header 148 (List.replicate 8 32)).map (fun b => b % 256)).sum := by
    simp only [calculate_checksum]
    exact Nat.mod_eq_of_lt (by omega)
  have hd6 := (spec_octal_digits_props (calculate_checksum header).1 6).1
  refine ⟨hc, by rw [hc]; norm_num; omega, ?_, ?_⟩
  · have h2 : (calculate_checksum header).2 = poke header 148 (List.replicate 8 32) := rfl
    have hfl : field.length = 7 := by rw [hfield]; simp [hd6]
    have h155 : (155 : Nat) = 148 + field.length := by rw [hfl]
    rw [h2, h155, poke_adjacent _ _ _ _ (by rw [hl1, hfl]; simp),
      poke_poke _ _ _ _ (by rw [List.length_append, hfl]; simp) (by simp; omega), hfield,
      List.append_assoc]
    rfl
  · rw [poke_length _ _ _ (by simp [hd6]; omega), hlen]

/-- The sum does not depend on the checksum field. -/
theorem calculate_checksum_poke (header field : List Nat) (hf : field.length = 8)
    (hlen : 148 + 8 ≤ header.length) :
    calculate_checksum (poke header 148 field) = calculate_checksum header := by
  unfold calculate_checksum
  simp only []
  rw [poke_poke _ _ _ _ (by simp [hf]) (by omega)]

/-- A header whose checksum field holds the six octal digits of its sum, a
zero byte and a space passes `verify_checksum` of `fs/pack.c`. -/
theorem fs_pack_verifies (header : List Nat) (hlen : header.length = 512) :
    fs_pack.oct_to_num ((poke header 148
        (spec_octal_digits (calculate_checksum header).1 6 ++ [0, 32])).drop 148) 8
      = (calculate_checksum header).1 ∧
    fs_pack.verify_checksum
      (poke header 148 (spec_octal_digits (calculate_checksum header).1 6 ++ [0, 32])) = 0 := by
  obtain ⟨hc, hlt, _, _⟩ := checksum_stored header _ hlen rfl
  obtain ⟨hd6, hdig⟩ := spec_octal_digits_props (calculate_checksum header).1 6
  have hval := spec_octal_digits_value 6 (calculate_checksum header).1
  rw [Nat.mod_eq_of_lt hlt] at hval
  have hflen : (spec_octal_digits (calculate_checksum header).1 6 ++ [0, 32]).length = 8 := by
    simp [hd6]
  have hdrop : (poke header 148
      (spec_octal_digits (calculate_checksum header).1 6 ++ [0, 32])).drop 148
      = spec_octal_digits (calculate_checksum header).1 6 ++
          (0 :: 32 :: header.drop (148 + 8)) := by
    rw [drop_poke _ _ _ (by omega), hflen, List.append_assoc]
    rfl
  have hparse : fs_pack.oct_to_num ((poke header 148
      (spec_octal_digits (calculate_checksum header).1 6 ++ [0, 32])).drop 148) 8
      = (calculate_checksum header).1 := by
    rw [hdrop, fs_pack_oct_to_num_digits (spec_octal_digits (calculate_checksum header).1 6)
      (0 :: 32 :: header.drop (148 + 8)) 8 hdig (by omega)
      (Or.inr ⟨by omega, Or.inl rfl⟩), hval]
  refine ⟨hparse, ?_⟩
  unfold fs_pack.verify_checksum
  simp only []
  have hback : ((poke header 148
      (spec_octal_digits (calculate_checksum header).1 6 ++ [0, 32])).drop 148).take 8
      = spec_octal_digits (calculate_checksum header).1 6 ++ [0, 32] := by
    rw [drop_poke _ _ _ (by omega), List.take_left' hflen]
  rw [hback, poke_poke _ _ _ _ (by simp [hd6]) (by omega),
    poke_poke _ _ _ _ (by simp [hd6]) (by simp; omega), hparse, ← hc,
    Nat.mod_eq_of_lt (by omega : (calculate_checksum header).1 < 4294967296)]
  simp

/-- The same for `verify_checksum` of `fs/pack/pack.c`. -/
theorem fs_pack_pack_verifies (header : List Nat) (hlen : header.length = 512) :
    fs_pack_pack.oct_to_num ((poke header 148
        (spec_octal_digits (calculate_checksum header).1 6 ++ [0, 32])).drop 148) 8
      = (calculate_checksum header).1 ∧
    fs_pack_pack.verify_checksum
      (poke header 148 (spec_octal_digits (calculate_checksum header).1 6 ++ [0, 32])) = 0 := by
  obtain ⟨hc, hlt, _, _⟩ := checksum_stored header _ hlen rfl
  obtain ⟨hd6, hdig⟩ := spec_octal_digits_props (calculate_checksum header).1 6
  have hval := spec_octal_digits_value 6 (calculate_checksum header).1
  rw [Nat.mod_eq_of_lt hlt] at hval
  have hflen : (spec_octal_digits (calculate_checksum header).1 6 ++ [0, 32]).length = 8 := by
    simp [hd6]
  have hdrop : (poke header 148
      (spec_octal_digits (calculate_checksum header).1 6 ++ [0, 32])).drop 148
      = spec_octal_digits (calculate_checksum header).1 6 ++
          (0 :: 32 :: header.drop (148 + 8)) := by
    rw [drop_poke _ _ _ (by omega), hflen, List.append_assoc]
    rfl
  have hne : spec_octal_digits (calculate_checksum header).1 6 ≠ [] := by
    intro h; rw [h] at hd6; cases hd6
  have hparse : fs_pack_pack.oct_to_num ((poke header 148
      (spec_octal_digits (calculate_checksum header).1 6 ++ [0, 32])).drop 148) 8
      = (calculate_checksum header).1 := by
    rw [hdrop, fs_pack_pack_oct_to_num_digits _ _ 8 hne hdig (by omega) (by omega), hval]
  refine ⟨hparse, ?_⟩
  unfold fs_pack_pack.verify_checksum
  simp only []
  have hback : ((poke header 148
      (spec_octal_digits (calculate_checksum header).1 6 ++ [0, 32])).drop 148).take 8
      = spec_octal_digits (calculate_checksum header).1 6 ++ [0, 32] := by
    rw [drop_poke _ _ _ (by omega), List.take_left' hflen]
  have hcalc := calculate_checksum_poke header
    (spec_octal_digits (calculate_checksum header).1 6 ++ [0, 32]) hflen (by omega)
  have h2 : (calculate_checksum header).2 = poke header 148 (List.replicate 8 32) := rfl
  rw [hback, hcalc, h2, poke_poke _ _ _ _ (by simp [hd6]) (by simp; omega), hparse,
    Nat.mod_eq_of_lt (by omega : (calculate_checksum header).1 < 4294967296)]
  simp

/-- The field written by `num_to_oct` of `fs/pack.c` has `size` bytes. -/
theorem fs_pack_num_to_oct_length (num size : Nat) (hs : 1 ≤ size) :
    (fs_pack.num_to_oct num size).length = size := by
  unfold fs_pack.num_to_oct
  split <;> simp <;> omega

/-- The field written by `num_to_oct` of `fs/pack/pack.c` has `size` bytes. -/
theorem fs_pack_pack_num_to_oct_length (num size : Nat) (hs : 1 ≤ size) :
    (fs_pack_pack.num_to_oct num size).length = size := by
  unfold fs_pack_pack.num_to_oct
  simp only [List.length_append, List.length_take, List.length_replicate, List.length_singleton]
  omega

/-- The bytes stored by `strscpy` number at most `count`. -/
theorem strscpy_length (src : List Nat) (count : Nat) (hc : 1 ≤ count) :
    (strscpy src count).length ≤ count := by
  unfold strscpy
  simp only [List.length_append, List.length_take, List.length_singleton]
  omega

/-- The bytes stored by `strncpy` number `n`. -/
theorem strncpy_length (src : List Nat) (n : Nat) : (strncpy src n).length = n := by
  unfold strncpy
  simp only [List.length_take, List.length_append, List.length_replicate]
  omega

/-- The length of a buffer after a store that fits. -/
theorem poke_length_eq (buf : List Nat) (off : Nat) (data : List Nat) (n : Nat)
    (hb : buf.length = n) (h : off + data.length ≤ n) : (poke buf off data).length = n := by
  rw [poke_length _ _ _ (by omega), hb]

/-- The header of `write_pack_header` of `fs/pack.c` before its checksum is
filled in has 512 bytes. -/
theorem fs_pack_header_shape (path : List Nat) (stat : kstat) (type : Nat) :
    ∃ header : List Nat, header.length = 512 ∧
      fs_pack.write_pack_header path stat type
        = poke (poke (calculate_checksum header).2 148
            (fs_pack.num_to_oct (calculate_checksum header).1 7)) 155 [32] := by
  refine ⟨_, ?_, rfl⟩
  have hn := fun (n s : Nat) (h : 1 ≤ s) => fs_pack_num_to_oct_length n s h
  have hname := strscpy_length path 100 (by decide)
  refine poke_length_eq _ _ _ 512 (poke_length_eq _ _ _ 512 (poke_length_eq _ _ _ 512
    (poke_length_eq _ _ _ 512 (poke_length_eq _ _ _ 512 (poke_length_eq _ _ _ 512
    (poke_length_eq _ _ _ 512 (poke_length_eq _ _ _ 512 (poke_length_eq _ _ _ 512
    (List.length_replicate _ _) ?_) ?_) ?_) ?_) ?_) ?_) ?_) ?_) ?_
  · omega
  · rw [hn _ _ (by decide)]; omega
  · rw [hn _ _ (by decide)]; omega
  · rw [hn _ _ (by decide)]; omega
  · rw [hn _ _ (by decide)]; omega
  · rw [hn _ _ (by decide)]; omega
  · simp
  · rw [strncpy_length]; omega
  · rw [strncpy_length]; omega

/-- The same for `write_pack_header` of `fs/pack/pack.c`. -/
theorem fs_pack_pack_header_shape (path : List Nat) (stat : kstat) (type : Nat) :
    ∃ header : List Nat, header.length = 512 ∧
      fs_pack_pack.write_pack_header path stat type
        = poke (poke (calculate_checksum header).2 148
            (fs_pack_pack.num_to_oct (calculate_checksum header).1 7)) 155 [32] := by
  refine ⟨_, ?_, rfl⟩
  have hn := fun (n s : Nat) (h : 1 ≤ s) => fs_pack_pack_num_to_oct_length n s h
  have hname := strscpy_length path 100 (by decide)
  refine poke_length_eq _ _ _ 512 (poke_length_eq _ _ _ 512 (poke_length_eq _ _ _ 512
    (poke_length_eq _ _ _ 512 (poke_length_eq _ _ _ 512 (poke_length_eq _ _ _ 512
    (poke_length_eq _ _ _ 512 (poke_length_eq _ _ _ 512 (poke_length_eq _ _ _ 512
    (List.length_replicate _ _) ?_) ?_) ?_) ?_) ?_) ?_) ?_) ?_) ?_
  · omega
  · rw [hn _ _ (by decide)]; omega
  · rw [hn _ _ (by decide)]; omega
  · rw [hn _ _ (by decide)]; omega
  · rw [hn _ _ (by decide)]; omega
  · rw [hn _ _ (by decide)]; omega
  · simp
  · rw [strncpy_length]; omega
  · rw [strncpy_length]; omega

/-- C39.  For every name, `kstat` and type flag, in both packers: the header
built by `write_pack_header` has 512 bytes; its checksum field is six octal
digits, a zero byte and a space; the sum of the 512 bytes taken as unsigned,
with the checksum field replaced by eight spaces, is below `8 ^ 6`;
`oct_to_num` of the stored field is that sum; and `verify_checksum` returns
0. -/
theorem packed_header_verifies (path : List Nat) (stat : kstat) (type : Nat) :
    ((fs_pack.write_pack_header path stat type).length = 512 ∧
      (∃ digits : List Nat, digits.length = 6 ∧ (∀ b ∈ digits, 48 ≤ b ∧ b ≤ 55) ∧
        ((fs_pack.write_pack_header path stat type).drop 148).take 8 = digits ++ [0, 32]) ∧
      ((poke (fs_pack.write_pack_header path stat type) 148 (List.replicate 8 32)).map
        (fun b => b % 256)).sum < 8 ^ 6 ∧
      fs_pack.oct_to_num ((fs_pack.write_pack_header path stat type).drop 148) 8
        = ((poke (fs_pack.write_pack_header path stat type) 148 (List.replicate 8 32)).map
            (fun b => b % 256)).sum ∧
      fs_pack.verify_checksum (fs_pack.write_pack_header path stat type) = 0) ∧
    ((fs_pack_pack.write_pack_header path stat type).length = 512 ∧
      (∃ digits : List Nat, digits.length = 6 ∧ (∀ b ∈ digits, 48 ≤ b ∧ b ≤ 55) ∧
        ((fs_pack_pack.write_pack_header path stat type).drop 148).take 8
          = digits ++ [0, 32]) ∧
      ((poke (fs_pack_pack.write_pack_header path stat type) 148 (List.replicate 8 32)).map
        (fun b => b % 256)).sum < 8 ^ 6 ∧
      fs_pack_pack.oct_to_num ((fs_pack_pack.write_pack_header path stat type).drop 148) 8
        = ((poke (fs_pack_pack.write_pack_header path stat type) 148
            (List.replicate 8 32)).map (fun b => b % 256)).sum ∧
      fs_pack_pack.verify_checksum (fs_pack_pack.write_pack_header path stat type) = 0) := by
  have key : ∀ (header h : List Nat), header.length = 512 →
      h = poke header 148 (spec_octal_digits (calculate_checksum header).1 6 ++ [0, 32]) →
      h.length = 512 ∧
      (∃ digits : List Nat, digits.length = 6 ∧ (∀ b ∈ digits, 48 ≤ b ∧ b ≤ 55) ∧
        (h.drop 148).take 8 = digits ++ [0, 32]) ∧
      ((poke h 148 (List.replicate 8 32)).map (fun b => b % 256)).sum < 8 ^ 6 ∧
      ((poke h 148 (List.replicate 8 32)).map (fun b => b % 256)).sum
        = (calculate_checksum header).1 := by
    intro header h hlen hh
    obtain ⟨hc, hlt, _, hl2⟩ := checksum_stored header _ hlen rfl
    obtain ⟨hd6, hdig⟩ := spec_octal_digits_props (calculate_checksum header).1 6
    have hflen : (spec_octal_digits (calculate_checksum header).1 6 ++ [0, 32]).length = 8 := by
      simp [hd6]
    have hsum : ((poke h 148 (List.replicate 8 32)).map (fun b => b % 256)).sum
        = (calculate_checksum header).1 := by
      rw [hh, poke_poke _ _ _ _ (by simp [hd6]) (by omega), ← hc]
    refine ⟨by rw [hh]; exact hl2, ⟨_, hd6, hdig, ?_⟩, by rw [hsum]; exact hlt, hsum⟩
    rw [hh, drop_poke _ _ _ (by omega), List.take_left' hflen]
  constructor
  · obtain ⟨header, hlen, hshape⟩ := fs_pack_header_shape path stat type
    obtain ⟨_, hlt, hfill, _⟩ := checksum_stored header
      (fs_pack.num_to_oct (calculate_checksum header).1 7) hlen
      (fs_pack_num_to_oct_spec _ 7 (by
        have := (checksum_stored header _ hlen rfl).2.1
        have : (8 : Nat) ^ 6 ≤ 8 ^ 31 := by decide
        omega))
    rw [hfill] at hshape
    obtain ⟨k1, k2, k3, k4⟩ := key header _ hlen hshape
    obtain ⟨v1, v2⟩ := fs_pack_verifies header hlen
    rw [← hshape] at v1 v2
    exact ⟨k1, k2, k3, by rw [v1, k4], v2⟩
  · obtain ⟨header, hlen, hshape⟩ := fs_pack_pack_header_shape path stat type
    obtain ⟨_, hlt, hfill, _⟩ := checksum_stored header
      (fs_pack_pack.num_to_oct (calculate_checksum header).1 7) hlen
      (fs_pack_pack_num_to_oct_spec _ 7 (by decide)
        (checksum_stored header _ hlen rfl).2.1)
    rw [hfill] at hshape
    obtain ⟨k1, k2, k3, k4⟩ := key header _ hlen hshape
    obtain ⟨v1, v2⟩ := fs_pack_pack_verifies header hlen
    rw [← hshape] at v1 v2
    exact ⟨k1, k2, k3, by rw [v1, k4], v2⟩

/-- C40.  For a field size `2 <= s <= 12` and a number `n < 8 ^ (s - 1)`:
`num_to_oct` of `fs/pack.c` writes the `s - 1` octal digits of `n`, most
significant first and padded with zeros, then a zero byte; `num_to_oct` of
`fs/pack/pack.c` writes the same bytes; the digits have the value `n`; and
`oct_to_num` of each packer on the field with size `s` returns `n`. -/
theorem octal_field_round_trip (s n : Nat) (hs : 2 ≤ s) (hs2 : s ≤ 12)
    (hn : n < 8 ^ (s - 1)) :
    fs_pack.num_to_oct n s
      = (List.range (s - 1)).map (fun d => 48 + n / 8 ^ (s - 2 - d) % 8) ++ [0] ∧
    fs_pack_pack.num_to_oct n s = fs_pack.num_to_oct n s ∧
    ((List.range (s - 1)).map (fun d => 48 + n / 8 ^ (s - 2 - d) % 8)).foldl
      (fun acc c => acc * 8 + (c - 48)) 0 = n ∧
    fs_pack.oct_to_num (fs_pack.num_to_oct n s) s = n ∧
    fs_pack_pack.oct_to_num (fs_pack_pack.num_to_oct n s) s = n := by
  have hpow : 8 ^ (s - 1) ≤ 8 ^ 31 := Nat.pow_le_pow_right (by decide) (by omega)
  have h1 := fs_pack_num_to_oct_spec n s (by omega)
  have h2 := fs_pack_pack_num_to_oct_spec n s hs hn
  obtain ⟨hd, hdig⟩ := spec_octal_digits_props n (s - 1)
  have hval := spec_octal_digits_value (s - 1) n
  rw [Nat.mod_eq_of_lt hn] at hval
  have hspec : spec_octal_digits n (s - 1)
      = (List.range (s - 1)).map (fun d => 48 + n / 8 ^ (s - 2 - d) % 8) := by
    unfold spec_octal_digits
    apply List.map_congr_left
    intro d _
    have : s - 1 - 1 - d = s - 2 - d := by omega
    rw [this]
  have hne : spec_octal_digits n (s - 1) ≠ [] := by
    intro h; rw [h] at hd; simp at hd; omega
  refine ⟨by rw [h1, hspec], by rw [h1, h2], by rw [← hspec]; exact hval, ?_, ?_⟩
  · rw [h1, fs_pack_oct_to_num_digits _ [0] s hdig (by omega) (Or.inl (by omega)), hval]
  · rw [h2, fs_pack_pack_oct_to_num_digits _ [] s hne hdig (by omega) (by omega), hval]

/-- The theorem `octal_field_round_trip` for the mode `0644` in a field of 8
bytes. -/
theorem octal_field_round_trip_witness :
    fs_pack.num_to_oct 420 8 = bytes "0000644" ++ [0] ∧
    fs_pack_pack.num_to_oct 420 8 = fs_pack.num_to_oct 420 8 ∧
    fs_pack.oct_to_num (fs_pack.num_to_oct 420 8) 8 = 420 ∧
    fs_pack_pack.oct_to_num (fs_pack_pack.num_to_oct 420 8) 8 = 420 :=
  have h := octal_field_round_trip 8 420 (by decide) (by decide) (by decide)
  ⟨h.1.trans (by decide), h.2.1, h.2.2.2.1, h.2.2.2.2⟩

end LoggerFS
